import Mathlib

/-!
# Page table simulator (`PageTable.c`)

A shallow embedding of the page table of `src/PageTable.c` and of the
collaborators it calls (`Memory.h`, `Stats.h`), followed by theorems about
`requestPage`, `findVictim` and `updateList`.

Modelling conventions.

* C `int` values (page numbers, frame numbers, clock ticks, counters) are
  mathematical integers; overflow is not modelled.
* The array `PageTable` is a map from indices to entries together with its
  length `nPages`.  Every access `PageTable[i]` made by the code is guarded in
  the model: an index outside `[0, nPages)` is undefined behaviour in C and
  ends the call with `Result.outOfBounds`.
* Calls to the collaborators (`countPageFault`, `countPageHit`,
  `findFreeFrame`, `loadFrame`, `saveFrame`) are recorded, in call order, in
  the `log` field of the state.  The `printf` lines are not modelled.
* A call returns the state it stopped in together with a `Result`; the state
  is returned also when the call aborts, so that what happened before the
  abort stays observable.
-/

namespace PageTable

/-! ## Constants -/

/-- Modelled from the spec: the constant `NONE` of `Memory.h`, which is not
under `src/`.  The spec calls it "none", a value that is neither a frame index
nor a page index; it is taken to be `-1`. -/
abbrev NONE : Int := -1

/-- Line 13: `#define NOT_USED 0`. -/
abbrev NOT_USED : Nat := 0
/-- Line 14: `#define IN_MEMORY 1`. -/
abbrev IN_MEMORY : Nat := 1
/-- Line 15: `#define ON_DISK 2`. -/
abbrev ON_DISK : Nat := 2
/-- Line 17: `#define UPDATED 1`. -/
abbrev UPDATED : Nat := 1
/-- Line 18: `#define NOTUPDATED 0`. -/
abbrev NOTUPDATED : Nat := 0

/-- Modelled from the spec: the replacement policies `REPL_LRU`, `REPL_FIFO`
and `REPL_CLOCK` of `PageTable.h`, which is not under `src/`.  They label three
cases of one `switch`, so they are pairwise distinct. -/
inductive Policy where
  | REPL_LRU
  | REPL_FIFO
  | REPL_CLOCK
  deriving DecidableEq, Repr

/-! ## Data model -/

/-- Lines 22-32: a page table entry.  `modified` is the C `char` documented as
a boolean; it only ever holds 0 or 1. -/
structure PTE where
  status : Nat
  modified : Bool
  frame : Int
  accessTime : Int
  loadTime : Int
  nPeeks : Int
  nPokes : Int
  next : Int
  prev : Int
  deriving DecidableEq, Repr

/-- One call made to a collaborator (`Stats.h`, `Memory.h`). -/
inductive Event where
  | countPageFault
  | countPageHit
  | findFreeFrame
  | saveFrame (fno : Int)
  | loadFrame (fno pno time : Int)
  deriving DecidableEq, Repr

/-- Lines 39-46: the process-wide variables of `PageTable.c`, together with
the state of the collaborators: the frame pool (`nFrames` frames of which
`nUsed` have been handed out) and the log of collaborator calls. -/
structure State where
  table : Int → PTE
  nPages : Int
  replacePolicy : Policy
  fifoList : Int
  fifoLast : Int
  first : Int
  last : Int
  isupdated : Nat
  nFrames : Nat
  nUsed : Nat
  log : List Event

/-- How a call of `requestPage` ends: it returns a frame, or it exits with one
of the two error messages, or it indexes the table out of bounds. -/
inductive Result where
  | ok (frame : Int)
  | invalidPageReference
  | invalidPageStatus
  | outOfBounds
  deriving DecidableEq, Repr

/-- An index at which `PageTable[i]` is inside the allocated array. -/
def validIndex (s : State) (i : Int) : Prop := 0 ≤ i ∧ i < s.nPages

instance (s : State) (i : Int) : Decidable (validIndex s i) :=
  inferInstanceAs (Decidable (0 ≤ i ∧ i < s.nPages))

/-- An assignment through a pointer `&PageTable[i]`. -/
def modifyEntry (s : State) (i : Int) (f : PTE → PTE) : State :=
  { s with table := fun j => if j = i then f (s.table i) else s.table j }

/-! ## Collaborators -/

/-- Modelled from the spec: `countPageFault` of `Stats.h`, not under `src/`;
it counts one fault. -/
def countPageFault (s : State) : State :=
  { s with log := s.log ++ [Event.countPageFault] }

/-- Modelled from the spec: `countPageHit` of `Stats.h`, not under `src/`;
it counts one hit. -/
def countPageHit (s : State) : State :=
  { s with log := s.log ++ [Event.countPageHit] }

/-- Modelled from the spec: `findFreeFrame` of `Memory.h`, not under `src/`.
The frame pool hands out each of its `nFrames` frames once, in index order,
and answers `NONE` from then on. -/
def findFreeFrame (s : State) : Int × State :=
  if s.nUsed < s.nFrames then
    ((s.nUsed : Int), { s with nUsed := s.nUsed + 1, log := s.log ++ [Event.findFreeFrame] })
  else
    (NONE, { s with log := s.log ++ [Event.findFreeFrame] })

/-- Modelled from the spec: `saveFrame` of `Memory.h`, not under `src/`; an
opaque operation of which only the call is observable. -/
def saveFrame (s : State) (fno : Int) : State :=
  { s with log := s.log ++ [Event.saveFrame fno] }

/-- Modelled from the spec: `loadFrame` of `Memory.h`, not under `src/`; an
opaque operation of which only the call is observable. -/
def loadFrame (s : State) (fno pno time : Int) : State :=
  { s with log := s.log ++ [Event.loadFrame fno pno time] }

/-! ## Operations of `PageTable.c` -/

/-- The entry written by the loop of `initPageTable`, lines 72-80. -/
def initPTE : PTE :=
  { status := NOT_USED, modified := false, frame := NONE, accessTime := NONE,
    loadTime := NONE, nPeeks := 0, nPokes := 0, next := NONE, prev := NONE }

/-- Lines 57-82: `initPageTable`.  The third argument is the size of the frame
pool, which the driver sets up next to the page table. -/
def initPageTable (policy : Policy) (np : Int) (nFrames : Nat) : State :=
  { table := fun _ => initPTE
    nPages := np
    replacePolicy := policy
    fifoList := NONE
    fifoLast := NONE
    first := NONE
    last := NONE
    isupdated := NOTUPDATED
    nFrames := nFrames
    nUsed := 0
    log := [] }

/-- Lines 159-175: `findVictim`. -/
def findVictim (s : State) (_pno : Int) (_time : Int) : Int :=
  match s.replacePolicy with
  | Policy.REPL_LRU => s.first
  | Policy.REPL_FIFO => s.first
  | Policy.REPL_CLOCK => 0

/-- Lines 213-220: `updatePageTable`. -/
def updatePageTable (s : State) (pno fno time : Int) : State :=
  modifyEntry s pno fun e =>
    { e with status := IN_MEMORY, modified := false, frame := fno, loadTime := time }

/-- Lines 222-230: `updateVictimTable`. -/
def updateVictimTable (s : State) (vno : Int) (_time : Int) : State :=
  modifyEntry s vno fun e =>
    { e with status := ON_DISK, modified := false, frame := NONE,
             accessTime := NONE, loadTime := NONE }

/-- Lines 232-242: `updateList`.  It reads `PageTable[first].next` and writes
`PageTable[last].next`; the caller `evict` checks that both cursors are valid
indices before it runs. -/
def updateList (s : State) (pno : Int) : State :=
  let s1 := { s with first := (s.table s.first).next }
  let s2 := modifyEntry s1 s.last fun e => { e with next := pno }
  let s3 := modifyEntry s2 pno fun e => { e with prev := s.last }
  { s3 with last := pno, isupdated := UPDATED }

/-- Lines 111-113: save the victim's frame when the victim is modified. -/
def saveIfModified (s : State) (vno : Int) : State :=
  if (s.table vno).modified = true then saveFrame s (s.table vno).frame else s

/-- Lines 104-115: the eviction path of `requestPage`, taken when
`findFreeFrame` answered `NONE`.  It yields the frame taken from the victim,
or nothing when `PageTable[vno]`, `PageTable[first]` or `PageTable[last]` is
outside the array. -/
def evict (s : State) (pno time : Int) : State × Option Int :=
  let vno := findVictim s pno time
  if validIndex s vno then
    let fno := (s.table vno).frame
    let s1 := saveIfModified s vno
    let s2 := updateVictimTable s1 vno time
    if validIndex s2 s2.first ∧ validIndex s2 s2.last then
      (updateList s2 pno, some fno)
    else
      (s2, none)
  else
    (s, none)

/-- Lines 123-133: the insertion at the tail of the list, done when
`updateList` has not run in this call. -/
def appendToList (s : State) (pno : Int) : State :=
  if s.isupdated = NOTUPDATED then
    if s.first = NONE then
      { s with first := pno, last := pno }
    else
      let s1 := modifyEntry s pno fun e => { e with prev := s.last }
      let s2 := modifyEntry s1 s.last fun e => { e with next := pno }
      { s2 with last := pno }
  else
    s

/-- Lines 128-130 index the table at `last`: that access is inside the array. -/
def appendInBounds (s : State) : Prop :=
  s.isupdated = NOTUPDATED → s.first ≠ NONE → validIndex s s.last

instance (s : State) : Decidable (appendInBounds s) :=
  inferInstanceAs (Decidable (s.isupdated = NOTUPDATED → s.first ≠ NONE → validIndex s s.last))

/-- Lines 145-153: the access itself, and the returned frame. -/
def applyAccess (s : State) (pno : Int) (mode : Char) (time : Int) : State × Result :=
  let s1 :=
    if mode = 'r' then modifyEntry s pno fun e => { e with nPeeks := e.nPeeks + 1 }
    else if mode = 'w' then
      modifyEntry s pno fun e => { e with nPokes := e.nPokes + 1, modified := true }
    else s
  let s2 := modifyEntry s1 pno fun e => { e with accessTime := time }
  (s2, Result.ok (s2.table pno).frame)

/-- Lines 117-133: load the page into frame `fno`, update its entry and put it
at the tail of the list. -/
def loadInto (s : State) (pno fno : Int) (mode : Char) (time : Int) : State × Result :=
  let s1 := loadFrame s fno pno time
  let s2 := updatePageTable s1 pno fno time
  if appendInBounds s2 then
    applyAccess (appendToList s2 pno) pno mode time
  else
    (s2, Result.outOfBounds)

/-- Lines 89-154: `requestPage`. -/
def requestPage (s : State) (pno : Int) (mode : Char) (time : Int) : State × Result :=
  if pno < 0 ∨ pno ≥ s.nPages then
    (s, Result.invalidPageReference)
  else
    let s0 := { s with isupdated := NOTUPDATED }
    let st := (s0.table pno).status
    if st = NOT_USED ∨ st = ON_DISK then
      let s1 := countPageFault s0
      let ff := findFreeFrame s1
      if ff.1 = NONE then
        match evict ff.2 pno time with
        | (s2, some fno) => loadInto s2 pno fno mode time
        | (s2, none) => (s2, Result.outOfBounds)
      else
        loadInto ff.2 pno ff.1 mode time
    else if st = IN_MEMORY then
      let s1 := countPageHit s0
      let s2 := modifyEntry s1 pno fun e => { e with accessTime := time }
      applyAccess s2 pno mode time
    else
      (s0, Result.invalidPageStatus)

/-! ## Sequences of calls -/

/-- One record of the trace: `requestPage(pno, mode, time)`. -/
structure Access where
  pno : Int
  mode : Char
  time : Int
  deriving DecidableEq, Repr

/-- Run a sequence of calls; `none` as soon as a call does not return. -/
def run (s : State) : List Access → Option State
  | [] => some s
  | a :: rest =>
    match requestPage s a.pno a.mode a.time with
    | (s1, Result.ok _) => run s1 rest
    | _ => none

/-! ## The three ways a call returns

`requestPage` returns a frame along one of three paths: a hit, a fault served
by a free frame, a fault served by evicting a victim.  The state each path
ends in is written out below as a composition of the operations above, and
`requestPage` is proved equal to it. -/

/-- The page is not in memory: the two `case` labels of lines 99-100. -/
def isFault (s : State) (pno : Int) : Prop :=
  (s.table pno).status = NOT_USED ∨ (s.table pno).status = ON_DISK

instance (s : State) (pno : Int) : Decidable (isFault s pno) :=
  inferInstanceAs (Decidable (_ ∨ _))

/-- The state at line 103, after the fault was counted and the allocator asked. -/
def afterFindFree (s : State) : State :=
  (findFreeFrame (countPageFault { s with isupdated := NOTUPDATED })).2

/-- The state returned by a hit: lines 96, 137-138, 145-152. -/
def hitStep (s : State) (pno : Int) (mode : Char) (time : Int) : State :=
  (applyAccess
    (modifyEntry (countPageHit { s with isupdated := NOTUPDATED }) pno
      fun e => { e with accessTime := time })
    pno mode time).1

/-- The state returned by a fault that finds the free frame `fno`: lines 96,
101-102, 117-133, 145-152. -/
def freeStep (s : State) (pno : Int) (mode : Char) (time : Int) : State :=
  let fno := (s.nUsed : Int)
  (applyAccess
    (appendToList (updatePageTable (loadFrame (afterFindFree s) fno pno time) pno fno time) pno)
    pno mode time).1

/-- The state returned by a fault that evicts the page `findVictim` names:
lines 96, 101-121, 145-152. -/
def evictStep (s : State) (pno : Int) (mode : Char) (time : Int) : State :=
  let s1 := afterFindFree s
  let vno := findVictim s1 pno time
  let fno := (s1.table vno).frame
  let s2 := saveIfModified s1 vno
  let s3 := updateList (updateVictimTable s2 vno time) pno
  (applyAccess
    (appendToList (updatePageTable (loadFrame s3 fno pno time) pno fno time) pno)
    pno mode time).1

/-! ## Vocabulary of the properties -/

/-- The collaborator calls made by one call of `requestPage`, in order: what
the call appended to the log. -/
def callEvents (s : State) (pno : Int) (mode : Char) (time : Int) : List Event :=
  (requestPage s pno mode time).1.log.drop s.log.length

/-- The event is a call of `saveFrame`. -/
def Event.isSave : Event → Bool
  | Event.saveFrame _ => true
  | _ => false

/-- The event is a call of `loadFrame`. -/
def Event.isLoad : Event → Bool
  | Event.loadFrame _ _ _ => true
  | _ => false

/-- The page is resident: a valid index whose entry is `IN_MEMORY`. -/
def resident (s : State) (i : Int) : Prop :=
  validIndex s i ∧ (s.table i).status = IN_MEMORY

instance (s : State) (i : Int) : Decidable (resident s i) :=
  inferInstanceAs (Decidable (_ ∧ _))

/-- The pages `0 .. nPages-1` that are `IN_MEMORY`, in index order. -/
def residentList (s : State) : List Int :=
  ((List.range s.nPages.toNat).map fun k : Nat => (k : Int)).filter
    fun i => decide ((s.table i).status = IN_MEMORY)

/-- The number of pages that are `IN_MEMORY`. -/
def residentCount (s : State) : Nat := (residentList s).length

/-- The number of calls `requestPage(p, mode, _)` in a sequence. -/
def countMode (accs : List Access) (p : Int) (mode : Char) : Int :=
  ((accs.filter fun a => decide (a.pno = p ∧ a.mode = mode)).length : Int)

/-- The calls of a run paired with whether the call loaded its page, that is,
whether the page was not `IN_MEMORY` when the call was entered. -/
def history (s : State) : List Access → List (Access × Bool)
  | [] => []
  | a :: rest =>
    (a, decide ((s.table a.pno).status ≠ IN_MEMORY)) ::
      history (requestPage s a.pno a.mode a.time).1 rest

/-- Reading a history from its most recent call backwards: page `p` has been
written by a call at or after its most recent load.  A write to `p` answers
yes; a call that loaded `p` without writing it answers no; any other call
defers to the earlier part of the history. -/
def writtenSinceLoad : List (Access × Bool) → Int → Bool
  | [], _ => false
  | (a, loaded) :: earlier, p =>
    if a.pno = p then
      decide (a.mode = 'w') || (!loaded && writtenSinceLoad earlier p)
    else
      writtenSinceLoad earlier p

/-- The meaning of the modified flag, relative to a history read from its most
recent call backwards. -/
def ModifiedMeans (s : State) (h : List (Access × Bool)) : Prop :=
  ∀ p, (s.table p).modified = true ↔
    ((s.table p).status = IN_MEMORY ∧ writtenSinceLoad h p = true)

/-! ## The invariant of the list policies -/

/-- Following `next` from `x` visits the pages of the list one after the other
and stops at the cursor `last`. -/
def Linked (nxt : Int → Int) (last : Int) : Int → List Int → Prop
  | x, [] => x = last
  | x, y :: t => nxt x = y ∧ Linked nxt last y t

/-- The list `L` is what the cursors `first` and `last` delimit. -/
def Queue (s : State) : List Int → Prop
  | [] => s.first = NONE
  | a :: t => s.first = a ∧ Linked (fun i => (s.table i).next) s.last a t

/-- The pages of `L` are exactly the resident pages, each once, they are as
many as the frames handed out, and they hold distinct frames among these. -/
structure Core (s : State) (L : List Int) : Prop where
  nodup : L.Nodup
  mem : ∀ i, i ∈ L ↔ resident s i
  len : L.length = s.nUsed
  used : s.nUsed ≤ s.nFrames
  frame_lt : ∀ i ∈ L, 0 ≤ (s.table i).frame ∧ (s.table i).frame < (s.nUsed : Int)
  frame_inj : ∀ i ∈ L, ∀ j ∈ L, (s.table i).frame = (s.table j).frame → i = j
  status_ok : ∀ i, (s.table i).status = NOT_USED ∨ (s.table i).status = IN_MEMORY ∨
    (s.table i).status = ON_DISK

/-- The invariant of the states reached under `REPL_LRU` and `REPL_FIFO`.  With
two frames or more the cursors delimit the list of resident pages.  With one
frame they do so until the first eviction, which leaves `first = NONE`. -/
def Inv (s : State) : Prop :=
  s.replacePolicy ≠ Policy.REPL_CLOCK ∧
  ∃ L, Core s L ∧
    ((Queue s L ∧ (2 ≤ s.nFrames ∨ ∀ i, (s.table i).next = NONE)) ∨
     (s.nFrames ≤ 1 ∧ s.first = NONE ∧ s.nUsed = s.nFrames))

/-! ## Vocabulary of runs -/

/-- The calls a run makes, each with the state it is entered in.  The run stops
after the first call that does not return. -/
def trace (s : State) : List Access → List (State × Access)
  | [] => []
  | a :: rest =>
    (s, a) ::
      (match requestPage s a.pno a.mode a.time with
        | (s1, Result.ok _) => trace s1 rest
        | _ => [])

/-- The state a run stops in: the state after the last call, or the state in
which the first call that does not return stopped. -/
def exec (s : State) : List Access → State
  | [] => s
  | a :: rest =>
    match requestPage s a.pno a.mode a.time with
    | (s1, Result.ok _) => exec s1 rest
    | (s1, _) => s1

/-- The results of the calls of a run, in order. -/
def results (s : State) (accs : List Access) : List Result :=
  (trace s accs).map fun c => (requestPage c.1 c.2.pno c.2.mode c.2.time).2

/-- The call reaches line 104 and invokes `findVictim`: its page is in range
and not in memory, and no frame is free. -/
def evicts (s : State) (a : Access) : Prop :=
  validIndex s a.pno ∧ isFault s a.pno ∧ s.nFrames ≤ s.nUsed

instance (s : State) (a : Access) : Decidable (evicts s a) :=
  inferInstanceAs (Decidable (_ ∧ _ ∧ _))

/-- The page `findVictim` returns in a call that invokes it. -/
def victimOf (c : State × Access) : Option Int :=
  if evicts c.1 c.2 then some (findVictim (afterFindFree c.1) c.2.pno c.2.time) else none

/-- The victims chosen during a run, in order. -/
def victims (s : State) (accs : List Access) : List Int :=
  (trace s accs).filterMap victimOf

/-- The number of calls of a run that invoke `findVictim` and find the
`modified` flag of the victim set. -/
def modifiedEvictions (s : State) (accs : List Access) : Nat :=
  ((trace s accs).filter fun c =>
    decide (evicts c.1 c.2 ∧
      (c.1.table (findVictim (afterFindFree c.1) c.2.pno c.2.time)).modified = true)).length

/-- The page is on the list: it is reached from the cursor `first` by following
`next`, not going past the cursor `last`.  The list is empty when `first` is
`NONE`. -/
inductive OnList (s : State) : Int → Prop where
  | head : s.first ≠ NONE → OnList s s.first
  | step (x : Int) : OnList s x → x ≠ s.last → OnList s (s.table x).next

/-- The pages visited by starting at `x` and following `next`, `n` pages in
all. -/
def walk (s : State) : Nat → Int → List Int
  | 0, _ => []
  | n + 1, x => x :: walk s n (s.table x).next

/-- Every entry has one of the three statuses. -/
def StatusOk (s : State) : Prop :=
  ∀ i, (s.table i).status = NOT_USED ∨ (s.table i).status = IN_MEMORY ∨
    (s.table i).status = ON_DISK

/-- The time of the latest call of a sequence; `T` when the sequence is empty. -/
def latestTime (T : Int) : List Access → Int
  | [] => T
  | a :: rest => latestTime a.time rest

/-- The fields that depend on the status are consistent with it, `T` bounding
the access times: a page that is not `IN_MEMORY` has no frame and no
timestamps; a page that is `IN_MEMORY` was loaded at a time `≥ 0` and accessed
last between its load and `T`. -/
def FieldsOk (s : State) (T : Int) : Prop :=
  ∀ p,
    ((s.table p).status ≠ IN_MEMORY →
      (s.table p).frame = NONE ∧ (s.table p).accessTime = NONE ∧
        (s.table p).loadTime = NONE) ∧
    ((s.table p).status = IN_MEMORY →
      0 ≤ (s.table p).loadTime ∧ (s.table p).loadTime ≤ (s.table p).accessTime ∧
        (s.table p).accessTime ≤ T)

/-- The state with the policy variable `replacePolicy` set to `q`. -/
def withPolicy (q : Policy) (s : State) : State :=
  { s with replacePolicy := q }

/-- The invariant of the list policies with two frames or more, with load
times: the cursors delimit the list of resident pages, the pages are on it in
the order of their load times, and no load time exceeds `T`. -/
def TimedQueue (s : State) (T : Int) : Prop :=
  s.replacePolicy ≠ Policy.REPL_CLOCK ∧ 2 ≤ s.nFrames ∧
  ∃ L, Core s L ∧ Queue s L ∧
    L.Pairwise (fun i j => (s.table i).loadTime ≤ (s.table j).loadTime) ∧
    ∀ i ∈ L, (s.table i).loadTime ≤ T

/-! ## Field-by-field effect of each operation -/

@[simp] theorem modifyEntry_nPages (s : State) (i : Int) (f : PTE → PTE) :
    (modifyEntry s i f).nPages = s.nPages := rfl

@[simp] theorem modifyEntry_replacePolicy (s : State) (i : Int) (f : PTE → PTE) :
    (modifyEntry s i f).replacePolicy = s.replacePolicy := rfl

@[simp] theorem modifyEntry_first (s : State) (i : Int) (f : PTE → PTE) :
    (modifyEntry s i f).first = s.first := rfl

@[simp] theorem modifyEntry_last (s : State) (i : Int) (f : PTE → PTE) :
    (modifyEntry s i f).last = s.last := rfl

@[simp] theorem modifyEntry_isupdated (s : State) (i : Int) (f : PTE → PTE) :
    (modifyEntry s i f).isupdated = s.isupdated := rfl

@[simp] theorem modifyEntry_nFrames (s : State) (i : Int) (f : PTE → PTE) :
    (modifyEntry s i f).nFrames = s.nFrames := rfl

@[simp] theorem modifyEntry_nUsed (s : State) (i : Int) (f : PTE → PTE) :
    (modifyEntry s i f).nUsed = s.nUsed := rfl

@[simp] theorem modifyEntry_log (s : State) (i : Int) (f : PTE → PTE) :
    (modifyEntry s i f).log = s.log := rfl

@[simp] theorem modifyEntry_table (s : State) (i : Int) (f : PTE → PTE) (j : Int) :
    (modifyEntry s i f).table j = if j = i then f (s.table i) else s.table j := rfl

@[simp] theorem countPageFault_nPages (s : State) :
    (countPageFault s).nPages = s.nPages := rfl

@[simp] theorem countPageFault_replacePolicy (s : State) :
    (countPageFault s).replacePolicy = s.replacePolicy := rfl

@[simp] theorem countPageFault_first (s : State) :
    (countPageFault s).first = s.first := rfl

@[simp] theorem countPageFault_last (s : State) :
    (countPageFault s).last = s.last := rfl

@[simp] theorem countPageFault_isupdated (s : State) :
    (countPageFault s).isupdated = s.isupdated := rfl

@[simp] theorem countPageFault_nFrames (s : State) :
    (countPageFault s).nFrames = s.nFrames := rfl

@[simp] theorem countPageFault_nUsed (s : State) :
    (countPageFault s).nUsed = s.nUsed := rfl

@[simp] theorem countPageFault_log (s : State) :
    (countPageFault s).log = s.log ++ [Event.countPageFault] := rfl

@[simp] theorem countPageFault_table_status (s : State) (j : Int) :
    ((countPageFault s).table j).status = (s.table j).status := rfl

@[simp] theorem countPageFault_table_modified (s : State) (j : Int) :
    ((countPageFault s).table j).modified = (s.table j).modified := rfl

@[simp] theorem countPageFault_table_frame (s : State) (j : Int) :
    ((countPageFault s).table j).frame = (s.table j).frame := rfl

@[simp] theorem countPageFault_table_accessTime (s : State) (j : Int) :
    ((countPageFault s).table j).accessTime = (s.table j).accessTime := rfl

@[simp] theorem countPageFault_table_loadTime (s : State) (j : Int) :
    ((countPageFault s).table j).loadTime = (s.table j).loadTime := rfl

@[simp] theorem countPageFault_table_nPeeks (s : State) (j : Int) :
    ((countPageFault s).table j).nPeeks = (s.table j).nPeeks := rfl

@[simp] theorem countPageFault_table_nPokes (s : State) (j : Int) :
    ((countPageFault s).table j).nPokes = (s.table j).nPokes := rfl

@[simp] theorem countPageFault_table_next (s : State) (j : Int) :
    ((countPageFault s).table j).next = (s.table j).next := rfl

@[simp] theorem countPageFault_table_prev (s : State) (j : Int) :
    ((countPageFault s).table j).prev = (s.table j).prev := rfl

@[simp] theorem countPageHit_nPages (s : State) :
    (countPageHit s).nPages = s.nPages := rfl

@[simp] theorem countPageHit_replacePolicy (s : State) :
    (countPageHit s).replacePolicy = s.replacePolicy := rfl

@[simp] theorem countPageHit_first (s : State) :
    (countPageHit s).first = s.first := rfl

@[simp] theorem countPageHit_last (s : State) :
    (countPageHit s).last = s.last := rfl

@[simp] theorem countPageHit_isupdated (s : State) :
    (countPageHit s).isupdated = s.isupdated := rfl

@[simp] theorem countPageHit_nFrames (s : State) :
    (countPageHit s).nFrames = s.nFrames := rfl

@[simp] theorem countPageHit_nUsed (s : State) :
    (countPageHit s).nUsed = s.nUsed := rfl

@[simp] theorem countPageHit_log (s : State) :
    (countPageHit s).log = s.log ++ [Event.countPageHit] := rfl

@[simp] theorem countPageHit_table_status (s : State) (j : Int) :
    ((countPageHit s).table j).status = (s.table j).status := rfl

@[simp] theorem countPageHit_table_modified (s : State) (j : Int) :
    ((countPageHit s).table j).modified = (s.table j).modified := rfl

@[simp] theorem countPageHit_table_frame (s : State) (j : Int) :
    ((countPageHit s).table j).frame = (s.table j).frame := rfl

@[simp] theorem countPageHit_table_accessTime (s : State) (j : Int) :
    ((countPageHit s).table j).accessTime = (s.table j).accessTime := rfl

@[simp] theorem countPageHit_table_loadTime (s : State) (j : Int) :
    ((countPageHit s).table j).loadTime = (s.table j).loadTime := rfl

@[simp] theorem countPageHit_table_nPeeks (s : State) (j : Int) :
    ((countPageHit s).table j).nPeeks = (s.table j).nPeeks := rfl

@[simp] theorem countPageHit_table_nPokes (s : State) (j : Int) :
    ((countPageHit s).table j).nPokes = (s.table j).nPokes := rfl

@[simp] theorem countPageHit_table_next (s : State) (j : Int) :
    ((countPageHit s).table j).next = (s.table j).next := rfl

@[simp] theorem countPageHit_table_prev (s : State) (j : Int) :
    ((countPageHit s).table j).prev = (s.table j).prev := rfl

@[simp] theorem saveFrame_nPages (s : State) (fno : Int) :
    (saveFrame s fno).nPages = s.nPages := rfl

@[simp] theorem saveFrame_replacePolicy (s : State) (fno : Int) :
    (saveFrame s fno).replacePolicy = s.replacePolicy := rfl

@[simp] theorem saveFrame_first (s : State) (fno : Int) :
    (saveFrame s fno).first = s.first := rfl

@[simp] theorem saveFrame_last (s : State) (fno : Int) :
    (saveFrame s fno).last = s.last := rfl

@[simp] theorem saveFrame_isupdated (s : State) (fno : Int) :
    (saveFrame s fno).isupdated = s.isupdated := rfl

@[simp] theorem saveFrame_nFrames (s : State) (fno : Int) :
    (saveFrame s fno).nFrames = s.nFrames := rfl

@[simp] theorem saveFrame_nUsed (s : State) (fno : Int) :
    (saveFrame s fno).nUsed = s.nUsed := rfl

@[simp] theorem saveFrame_log (s : State) (fno : Int) :
    (saveFrame s fno).log = s.log ++ [Event.saveFrame fno] := rfl

@[simp] theorem saveFrame_table_status (s : State) (fno : Int) (j : Int) :
    ((saveFrame s fno).table j).status = (s.table j).status := rfl

@[simp] theorem saveFrame_table_modified (s : State) (fno : Int) (j : Int) :
    ((saveFrame s fno).table j).modified = (s.table j).modified := rfl

@[simp] theorem saveFrame_table_frame (s : State) (fno : Int) (j : Int) :
    ((saveFrame s fno).table j).frame = (s.table j).frame := rfl

@[simp] theorem saveFrame_table_accessTime (s : State) (fno : Int) (j : Int) :
    ((saveFrame s fno).table j).accessTime = (s.table j).accessTime := rfl

@[simp] theorem saveFrame_table_loadTime (s : State) (fno : Int) (j : Int) :
    ((saveFrame s fno).table j).loadTime = (s.table j).loadTime := rfl

@[simp] theorem saveFrame_table_nPeeks (s : State) (fno : Int) (j : Int) :
    ((saveFrame s fno).table j).nPeeks = (s.table j).nPeeks := rfl

@[simp] theorem saveFrame_table_nPokes (s : State) (fno : Int) (j : Int) :
    ((saveFrame s fno).table j).nPokes = (s.table j).nPokes := rfl

@[simp] theorem saveFrame_table_next (s : State) (fno : Int) (j : Int) :
    ((saveFrame s fno).table j).next = (s.table j).next := rfl

@[simp] theorem saveFrame_table_prev (s : State) (fno : Int) (j : Int) :
    ((saveFrame s fno).table j).prev = (s.table j).prev := rfl

@[simp] theorem saveIfModified_nPages (s : State) (vno : Int) :
    (saveIfModified s vno).nPages = s.nPages := by
  simp only [saveIfModified, saveFrame]
  split_ifs <;> rfl

@[simp] theorem saveIfModified_replacePolicy (s : State) (vno : Int) :
    (saveIfModified s vno).replacePolicy = s.replacePolicy := by
  simp only [saveIfModified, saveFrame]
  split_ifs <;> rfl

@[simp] theorem saveIfModified_first (s : State) (vno : Int) :
    (saveIfModified s vno).first = s.first := by
  simp only [saveIfModified, saveFrame]
  split_ifs <;> rfl

@[simp] theorem saveIfModified_last (s : State) (vno : Int) :
    (saveIfModified s vno).last = s.last := by
  simp only [saveIfModified, saveFrame]
  split_ifs <;> rfl

@[simp] theorem saveIfModified_isupdated (s : State) (vno : Int) :
    (saveIfModified s vno).isupdated = s.isupdated := by
  simp only [saveIfModified, saveFrame]
  split_ifs <;> rfl

@[simp] theorem saveIfModified_nFrames (s : State) (vno : Int) :
    (saveIfModified s vno).nFrames = s.nFrames := by
  simp only [saveIfModified, saveFrame]
  split_ifs <;> rfl

@[simp] theorem saveIfModified_nUsed (s : State) (vno : Int) :
    (saveIfModified s vno).nUsed = s.nUsed := by
  simp only [saveIfModified, saveFrame]
  split_ifs <;> rfl

@[simp] theorem saveIfModified_log (s : State) (vno : Int) :
    (saveIfModified s vno).log = if (s.table vno).modified = true then s.log ++ [Event.saveFrame (s.table vno).frame] else s.log := by
  simp only [saveIfModified, saveFrame]
  split_ifs <;> rfl

@[simp] theorem saveIfModified_table_status (s : State) (vno : Int) (j : Int) :
    ((saveIfModified s vno).table j).status = (s.table j).status := by
  simp only [saveIfModified, saveFrame]
  split_ifs <;> rfl

@[simp] theorem saveIfModified_table_modified (s : State) (vno : Int) (j : Int) :
    ((saveIfModified s vno).table j).modified = (s.table j).modified := by
  simp only [saveIfModified, saveFrame]
  split_ifs <;> rfl

@[simp] theorem saveIfModified_table_frame (s : State) (vno : Int) (j : Int) :
    ((saveIfModified s vno).table j).frame = (s.table j).frame := by
  simp only [saveIfModified, saveFrame]
  split_ifs <;> rfl

@[simp] theorem saveIfModified_table_accessTime (s : State) (vno : Int) (j : Int) :
    ((saveIfModified s vno).table j).accessTime = (s.table j).accessTime := by
  simp only [saveIfModified, saveFrame]
  split_ifs <;> rfl

@[simp] theorem saveIfModified_table_loadTime (s : State) (vno : Int) (j : Int) :
    ((saveIfModified s vno).table j).loadTime = (s.table j).loadTime := by
  simp only [saveIfModified, saveFrame]
  split_ifs <;> rfl

@[simp] theorem saveIfModified_table_nPeeks (s : State) (vno : Int) (j : Int) :
    ((saveIfModified s vno).table j).nPeeks = (s.table j).nPeeks := by
  simp only [saveIfModified, saveFrame]
  split_ifs <;> rfl

@[simp] theorem saveIfModified_table_nPokes (s : State) (vno : Int) (j : Int) :
    ((saveIfModified s vno).table j).nPokes = (s.table j).nPokes := by
  simp only [saveIfModified, saveFrame]
  split_ifs <;> rfl

@[simp] theorem saveIfModified_table_next (s : State) (vno : Int) (j : Int) :
    ((saveIfModified s vno).table j).next = (s.table j).next := by
  simp only [saveIfModified, saveFrame]
  split_ifs <;> rfl

@[simp] theorem saveIfModified_table_prev (s : State) (vno : Int) (j : Int) :
    ((saveIfModified s vno).table j).prev = (s.table j).prev := by
  simp only [saveIfModified, saveFrame]
  split_ifs <;> rfl

@[simp] theorem loadFrame_nPages (s : State) (fno pno time : Int) :
    (loadFrame s fno pno time).nPages = s.nPages := rfl

@[simp] theorem loadFrame_replacePolicy (s : State) (fno pno time : Int) :
    (loadFrame s fno pno time).replacePolicy = s.replacePolicy := rfl

@[simp] theorem loadFrame_first (s : State) (fno pno time : Int) :
    (loadFrame s fno pno time).first = s.first := rfl

@[simp] theorem loadFrame_last (s : State) (fno pno time : Int) :
    (loadFrame s fno pno time).last = s.last := rfl

@[simp] theorem loadFrame_isupdated (s : State) (fno pno time : Int) :
    (loadFrame s fno pno time).isupdated = s.isupdated := rfl

@[simp] theorem loadFrame_nFrames (s : State) (fno pno time : Int) :
    (loadFrame s fno pno time).nFrames = s.nFrames := rfl

@[simp] theorem loadFrame_nUsed (s : State) (fno pno time : Int) :
    (loadFrame s fno pno time).nUsed = s.nUsed := rfl

@[simp] theorem loadFrame_log (s : State) (fno pno time : Int) :
    (loadFrame s fno pno time).log = s.log ++ [Event.loadFrame fno pno time] := rfl

@[simp] theorem loadFrame_table_status (s : State) (fno pno time : Int) (j : Int) :
    ((loadFrame s fno pno time).table j).status = (s.table j).status := rfl

@[simp] theorem loadFrame_table_modified (s : State) (fno pno time : Int) (j : Int) :
    ((loadFrame s fno pno time).table j).modified = (s.table j).modified := rfl

@[simp] theorem loadFrame_table_frame (s : State) (fno pno time : Int) (j : Int) :
    ((loadFrame s fno pno time).table j).frame = (s.table j).frame := rfl

@[simp] theorem loadFrame_table_accessTime (s : State) (fno pno time : Int) (j : Int) :
    ((loadFrame s fno pno time).table j).accessTime = (s.table j).accessTime := rfl

@[simp] theorem loadFrame_table_loadTime (s : State) (fno pno time : Int) (j : Int) :
    ((loadFrame s fno pno time).table j).loadTime = (s.table j).loadTime := rfl

@[simp] theorem loadFrame_table_nPeeks (s : State) (fno pno time : Int) (j : Int) :
    ((loadFrame s fno pno time).table j).nPeeks = (s.table j).nPeeks := rfl

@[simp] theorem loadFrame_table_nPokes (s : State) (fno pno time : Int) (j : Int) :
    ((loadFrame s fno pno time).table j).nPokes = (s.table j).nPokes := rfl

@[simp] theorem loadFrame_table_next (s : State) (fno pno time : Int) (j : Int) :
    ((loadFrame s fno pno time).table j).next = (s.table j).next := rfl

@[simp] theorem loadFrame_table_prev (s : State) (fno pno time : Int) (j : Int) :
    ((loadFrame s fno pno time).table j).prev = (s.table j).prev := rfl

@[simp] theorem afterFindFree_nPages (s : State) :
    (afterFindFree s).nPages = s.nPages := by
  simp only [afterFindFree, findFreeFrame, countPageFault, modifyEntry]
  split_ifs <;> simp_all

@[simp] theorem afterFindFree_replacePolicy (s : State) :
    (afterFindFree s).replacePolicy = s.replacePolicy := by
  simp only [afterFindFree, findFreeFrame, countPageFault, modifyEntry]
  split_ifs <;> simp_all

@[simp] theorem afterFindFree_first (s : State) :
    (afterFindFree s).first = s.first := by
  simp only [afterFindFree, findFreeFrame, countPageFault, modifyEntry]
  split_ifs <;> simp_all

@[simp] theorem afterFindFree_last (s : State) :
    (afterFindFree s).last = s.last := by
  simp only [afterFindFree, findFreeFrame, countPageFault, modifyEntry]
  split_ifs <;> simp_all

@[simp] theorem afterFindFree_isupdated (s : State) :
    (afterFindFree s).isupdated = NOTUPDATED := by
  simp only [afterFindFree, findFreeFrame, countPageFault, modifyEntry]
  split_ifs <;> simp_all

@[simp] theorem afterFindFree_nFrames (s : State) :
    (afterFindFree s).nFrames = s.nFrames := by
  simp only [afterFindFree, findFreeFrame, countPageFault, modifyEntry]
  split_ifs <;> simp_all

@[simp] theorem afterFindFree_nUsed (s : State) :
    (afterFindFree s).nUsed = if s.nUsed < s.nFrames then s.nUsed + 1 else s.nUsed := by
  simp only [afterFindFree, findFreeFrame, countPageFault, modifyEntry]
  split_ifs <;> simp_all

@[simp] theorem afterFindFree_log (s : State) :
    (afterFindFree s).log = s.log ++ [Event.countPageFault, Event.findFreeFrame] := by
  simp only [afterFindFree, findFreeFrame, countPageFault, modifyEntry]
  split_ifs <;> simp_all

@[simp] theorem afterFindFree_table_status (s : State) (j : Int) :
    ((afterFindFree s).table j).status = (s.table j).status := by
  simp only [afterFindFree, findFreeFrame, countPageFault]
  split_ifs <;> rfl

@[simp] theorem afterFindFree_table_modified (s : State) (j : Int) :
    ((afterFindFree s).table j).modified = (s.table j).modified := by
  simp only [afterFindFree, findFreeFrame, countPageFault]
  split_ifs <;> rfl

@[simp] theorem afterFindFree_table_frame (s : State) (j : Int) :
    ((afterFindFree s).table j).frame = (s.table j).frame := by
  simp only [afterFindFree, findFreeFrame, countPageFault]
  split_ifs <;> rfl

@[simp] theorem afterFindFree_table_accessTime (s : State) (j : Int) :
    ((afterFindFree s).table j).accessTime = (s.table j).accessTime := by
  simp only [afterFindFree, findFreeFrame, countPageFault]
  split_ifs <;> rfl

@[simp] theorem afterFindFree_table_loadTime (s : State) (j : Int) :
    ((afterFindFree s).table j).loadTime = (s.table j).loadTime := by
  simp only [afterFindFree, findFreeFrame, countPageFault]
  split_ifs <;> rfl

@[simp] theorem afterFindFree_table_nPeeks (s : State) (j : Int) :
    ((afterFindFree s).table j).nPeeks = (s.table j).nPeeks := by
  simp only [afterFindFree, findFreeFrame, countPageFault]
  split_ifs <;> rfl

@[simp] theorem afterFindFree_table_nPokes (s : State) (j : Int) :
    ((afterFindFree s).table j).nPokes = (s.table j).nPokes := by
  simp only [afterFindFree, findFreeFrame, countPageFault]
  split_ifs <;> rfl

@[simp] theorem afterFindFree_table_next (s : State) (j : Int) :
    ((afterFindFree s).table j).next = (s.table j).next := by
  simp only [afterFindFree, findFreeFrame, countPageFault]
  split_ifs <;> rfl

@[simp] theorem afterFindFree_table_prev (s : State) (j : Int) :
    ((afterFindFree s).table j).prev = (s.table j).prev := by
  simp only [afterFindFree, findFreeFrame, countPageFault]
  split_ifs <;> rfl

@[simp] theorem updatePageTable_nPages (s : State) (pno fno time : Int) :
    (updatePageTable s pno fno time).nPages = s.nPages := rfl

@[simp] theorem updatePageTable_replacePolicy (s : State) (pno fno time : Int) :
    (updatePageTable s pno fno time).replacePolicy = s.replacePolicy := rfl

@[simp] theorem updatePageTable_first (s : State) (pno fno time : Int) :
    (updatePageTable s pno fno time).first = s.first := rfl

@[simp] theorem updatePageTable_last (s : State) (pno fno time : Int) :
    (updatePageTable s pno fno time).last = s.last := rfl

@[simp] theorem updatePageTable_isupdated (s : State) (pno fno time : Int) :
    (updatePageTable s pno fno time).isupdated = s.isupdated := rfl

@[simp] theorem updatePageTable_nFrames (s : State) (pno fno time : Int) :
    (updatePageTable s pno fno time).nFrames = s.nFrames := rfl

@[simp] theorem updatePageTable_nUsed (s : State) (pno fno time : Int) :
    (updatePageTable s pno fno time).nUsed = s.nUsed := rfl

@[simp] theorem updatePageTable_log (s : State) (pno fno time : Int) :
    (updatePageTable s pno fno time).log = s.log := rfl

@[simp] theorem updatePageTable_table_status (s : State) (pno fno time : Int) (j : Int) :
    ((updatePageTable s pno fno time).table j).status = if j = pno then IN_MEMORY else (s.table j).status := by
  by_cases h1 : j = pno <;> simp [updatePageTable, modifyEntry, h1]

@[simp] theorem updatePageTable_table_modified (s : State) (pno fno time : Int) (j : Int) :
    ((updatePageTable s pno fno time).table j).modified = if j = pno then false else (s.table j).modified := by
  by_cases h1 : j = pno <;> simp [updatePageTable, modifyEntry, h1]

@[simp] theorem updatePageTable_table_frame (s : State) (pno fno time : Int) (j : Int) :
    ((updatePageTable s pno fno time).table j).frame = if j = pno then fno else (s.table j).frame := by
  by_cases h1 : j = pno <;> simp [updatePageTable, modifyEntry, h1]

@[simp] theorem updatePageTable_table_accessTime (s : State) (pno fno time : Int) (j : Int) :
    ((updatePageTable s pno fno time).table j).accessTime = (s.table j).accessTime := by
  by_cases h1 : j = pno <;> simp [updatePageTable, modifyEntry, h1]

@[simp] theorem updatePageTable_table_loadTime (s : State) (pno fno time : Int) (j : Int) :
    ((updatePageTable s pno fno time).table j).loadTime = if j = pno then time else (s.table j).loadTime := by
  by_cases h1 : j = pno <;> simp [updatePageTable, modifyEntry, h1]

@[simp] theorem updatePageTable_table_nPeeks (s : State) (pno fno time : Int) (j : Int) :
    ((updatePageTable s pno fno time).table j).nPeeks = (s.table j).nPeeks := by
  by_cases h1 : j = pno <;> simp [updatePageTable, modifyEntry, h1]

@[simp] theorem updatePageTable_table_nPokes (s : State) (pno fno time : Int) (j : Int) :
    ((updatePageTable s pno fno time).table j).nPokes = (s.table j).nPokes := by
  by_cases h1 : j = pno <;> simp [updatePageTable, modifyEntry, h1]

@[simp] theorem updatePageTable_table_next (s : State) (pno fno time : Int) (j : Int) :
    ((updatePageTable s pno fno time).table j).next = (s.table j).next := by
  by_cases h1 : j = pno <;> simp [updatePageTable, modifyEntry, h1]

@[simp] theorem updatePageTable_table_prev (s : State) (pno fno time : Int) (j : Int) :
    ((updatePageTable s pno fno time).table j).prev = (s.table j).prev := by
  by_cases h1 : j = pno <;> simp [updatePageTable, modifyEntry, h1]

@[simp] theorem updateVictimTable_nPages (s : State) (vno time : Int) :
    (updateVictimTable s vno time).nPages = s.nPages := rfl

@[simp] theorem updateVictimTable_replacePolicy (s : State) (vno time : Int) :
    (updateVictimTable s vno time).replacePolicy = s.replacePolicy := rfl

@[simp] theorem updateVictimTable_first (s : State) (vno time : Int) :
    (updateVictimTable s vno time).first = s.first := rfl

@[simp] theorem updateVictimTable_last (s : State) (vno time : Int) :
    (updateVictimTable s vno time).last = s.last := rfl

@[simp] theorem updateVictimTable_isupdated (s : State) (vno time : Int) :
    (updateVictimTable s vno time).isupdated = s.isupdated := rfl

@[simp] theorem updateVictimTable_nFrames (s : State) (vno time : Int) :
    (updateVictimTable s vno time).nFrames = s.nFrames := rfl

@[simp] theorem updateVictimTable_nUsed (s : State) (vno time : Int) :
    (updateVictimTable s vno time).nUsed = s.nUsed := rfl

@[simp] theorem updateVictimTable_log (s : State) (vno time : Int) :
    (updateVictimTable s vno time).log = s.log := rfl

@[simp] theorem updateVictimTable_table_status (s : State) (vno time : Int) (j : Int) :
    ((updateVictimTable s vno time).table j).status = if j = vno then ON_DISK else (s.table j).status := by
  by_cases h1 : j = vno <;> simp [updateVictimTable, modifyEntry, h1]

@[simp] theorem updateVictimTable_table_modified (s : State) (vno time : Int) (j : Int) :
    ((updateVictimTable s vno time).table j).modified = if j = vno then false else (s.table j).modified := by
  by_cases h1 : j = vno <;> simp [updateVictimTable, modifyEntry, h1]

@[simp] theorem updateVictimTable_table_frame (s : State) (vno time : Int) (j : Int) :
    ((updateVictimTable s vno time).table j).frame = if j = vno then NONE else (s.table j).frame := by
  by_cases h1 : j = vno <;> simp [updateVictimTable, modifyEntry, h1]

@[simp] theorem updateVictimTable_table_accessTime (s : State) (vno time : Int) (j : Int) :
    ((updateVictimTable s vno time).table j).accessTime = if j = vno then NONE else (s.table j).accessTime := by
  by_cases h1 : j = vno <;> simp [updateVictimTable, modifyEntry, h1]

@[simp] theorem updateVictimTable_table_loadTime (s : State) (vno time : Int) (j : Int) :
    ((updateVictimTable s vno time).table j).loadTime = if j = vno then NONE else (s.table j).loadTime := by
  by_cases h1 : j = vno <;> simp [updateVictimTable, modifyEntry, h1]

@[simp] theorem updateVictimTable_table_nPeeks (s : State) (vno time : Int) (j : Int) :
    ((updateVictimTable s vno time).table j).nPeeks = (s.table j).nPeeks := by
  by_cases h1 : j = vno <;> simp [updateVictimTable, modifyEntry, h1]

@[simp] theorem updateVictimTable_table_nPokes (s : State) (vno time : Int) (j : Int) :
    ((updateVictimTable s vno time).table j).nPokes = (s.table j).nPokes := by
  by_cases h1 : j = vno <;> simp [updateVictimTable, modifyEntry, h1]

@[simp] theorem updateVictimTable_table_next (s : State) (vno time : Int) (j : Int) :
    ((updateVictimTable s vno time).table j).next = (s.table j).next := by
  by_cases h1 : j = vno <;> simp [updateVictimTable, modifyEntry, h1]

@[simp] theorem updateVictimTable_table_prev (s : State) (vno time : Int) (j : Int) :
    ((updateVictimTable s vno time).table j).prev = (s.table j).prev := by
  by_cases h1 : j = vno <;> simp [updateVictimTable, modifyEntry, h1]

@[simp] theorem updateList_nPages (s : State) (pno : Int) :
    (updateList s pno).nPages = s.nPages := rfl

@[simp] theorem updateList_replacePolicy (s : State) (pno : Int) :
    (updateList s pno).replacePolicy = s.replacePolicy := rfl

@[simp] theorem updateList_first (s : State) (pno : Int) :
    (updateList s pno).first = (s.table s.first).next := rfl

@[simp] theorem updateList_last (s : State) (pno : Int) :
    (updateList s pno).last = pno := rfl

@[simp] theorem updateList_isupdated (s : State) (pno : Int) :
    (updateList s pno).isupdated = UPDATED := rfl

@[simp] theorem updateList_nFrames (s : State) (pno : Int) :
    (updateList s pno).nFrames = s.nFrames := rfl

@[simp] theorem updateList_nUsed (s : State) (pno : Int) :
    (updateList s pno).nUsed = s.nUsed := rfl

@[simp] theorem updateList_log (s : State) (pno : Int) :
    (updateList s pno).log = s.log := rfl

@[simp] theorem updateList_table_status (s : State) (pno : Int) (j : Int) :
    ((updateList s pno).table j).status = (s.table j).status := by
  by_cases h1 : j = s.last <;> by_cases h2 : j = pno <;>
    simp only [updateList, modifyEntry] <;> split_ifs <;> simp_all

@[simp] theorem updateList_table_modified (s : State) (pno : Int) (j : Int) :
    ((updateList s pno).table j).modified = (s.table j).modified := by
  by_cases h1 : j = s.last <;> by_cases h2 : j = pno <;>
    simp only [updateList, modifyEntry] <;> split_ifs <;> simp_all

@[simp] theorem updateList_table_frame (s : State) (pno : Int) (j : Int) :
    ((updateList s pno).table j).frame = (s.table j).frame := by
  by_cases h1 : j = s.last <;> by_cases h2 : j = pno <;>
    simp only [updateList, modifyEntry] <;> split_ifs <;> simp_all

@[simp] theorem updateList_table_accessTime (s : State) (pno : Int) (j : Int) :
    ((updateList s pno).table j).accessTime = (s.table j).accessTime := by
  by_cases h1 : j = s.last <;> by_cases h2 : j = pno <;>
    simp only [updateList, modifyEntry] <;> split_ifs <;> simp_all

@[simp] theorem updateList_table_loadTime (s : State) (pno : Int) (j : Int) :
    ((updateList s pno).table j).loadTime = (s.table j).loadTime := by
  by_cases h1 : j = s.last <;> by_cases h2 : j = pno <;>
    simp only [updateList, modifyEntry] <;> split_ifs <;> simp_all

@[simp] theorem updateList_table_nPeeks (s : State) (pno : Int) (j : Int) :
    ((updateList s pno).table j).nPeeks = (s.table j).nPeeks := by
  by_cases h1 : j = s.last <;> by_cases h2 : j = pno <;>
    simp only [updateList, modifyEntry] <;> split_ifs <;> simp_all

@[simp] theorem updateList_table_nPokes (s : State) (pno : Int) (j : Int) :
    ((updateList s pno).table j).nPokes = (s.table j).nPokes := by
  by_cases h1 : j = s.last <;> by_cases h2 : j = pno <;>
    simp only [updateList, modifyEntry] <;> split_ifs <;> simp_all

@[simp] theorem updateList_table_next (s : State) (pno : Int) (j : Int) :
    ((updateList s pno).table j).next = if j = s.last then pno else (s.table j).next := by
  by_cases h1 : j = s.last <;> by_cases h2 : j = pno <;>
    simp only [updateList, modifyEntry] <;> split_ifs <;> simp_all

@[simp] theorem updateList_table_prev (s : State) (pno : Int) (j : Int) :
    ((updateList s pno).table j).prev = if j = pno then s.last else (s.table j).prev := by
  by_cases h1 : j = s.last <;> by_cases h2 : j = pno <;>
    simp only [updateList, modifyEntry] <;> split_ifs <;> simp_all

@[simp] theorem appendToList_nPages (s : State) (pno : Int) :
    (appendToList s pno).nPages = s.nPages := by
  simp only [appendToList, findFreeFrame, countPageFault, modifyEntry]
  split_ifs <;> simp_all

@[simp] theorem appendToList_replacePolicy (s : State) (pno : Int) :
    (appendToList s pno).replacePolicy = s.replacePolicy := by
  simp only [appendToList, findFreeFrame, countPageFault, modifyEntry]
  split_ifs <;> simp_all

@[simp] theorem appendToList_first (s : State) (pno : Int) :
    (appendToList s pno).first = if s.isupdated = NOTUPDATED ∧ s.first = NONE then pno else s.first := by
  simp only [appendToList, findFreeFrame, countPageFault, modifyEntry]
  split_ifs <;> simp_all

@[simp] theorem appendToList_last (s : State) (pno : Int) :
    (appendToList s pno).last = if s.isupdated = NOTUPDATED then pno else s.last := by
  simp only [appendToList, findFreeFrame, countPageFault, modifyEntry]
  split_ifs <;> simp_all

@[simp] theorem appendToList_isupdated (s : State) (pno : Int) :
    (appendToList s pno).isupdated = s.isupdated := by
  simp only [appendToList, findFreeFrame, countPageFault, modifyEntry]
  split_ifs <;> simp_all

@[simp] theorem appendToList_nFrames (s : State) (pno : Int) :
    (appendToList s pno).nFrames = s.nFrames := by
  simp only [appendToList, findFreeFrame, countPageFault, modifyEntry]
  split_ifs <;> simp_all

@[simp] theorem appendToList_nUsed (s : State) (pno : Int) :
    (appendToList s pno).nUsed = s.nUsed := by
  simp only [appendToList, findFreeFrame, countPageFault, modifyEntry]
  split_ifs <;> simp_all

@[simp] theorem appendToList_log (s : State) (pno : Int) :
    (appendToList s pno).log = s.log := by
  simp only [appendToList, findFreeFrame, countPageFault, modifyEntry]
  split_ifs <;> simp_all

@[simp] theorem appendToList_table_status (s : State) (pno : Int) (j : Int) :
    ((appendToList s pno).table j).status = (s.table j).status := by
  by_cases h1 : j = s.last <;> by_cases h2 : j = pno <;>
    simp only [appendToList, modifyEntry] <;> split_ifs <;> simp_all

@[simp] theorem appendToList_table_modified (s : State) (pno : Int) (j : Int) :
    ((appendToList s pno).table j).modified = (s.table j).modified := by
  by_cases h1 : j = s.last <;> by_cases h2 : j = pno <;>
    simp only [appendToList, modifyEntry] <;> split_ifs <;> simp_all

@[simp] theorem appendToList_table_frame (s : State) (pno : Int) (j : Int) :
    ((appendToList s pno).table j).frame = (s.table j).frame := by
  by_cases h1 : j = s.last <;> by_cases h2 : j = pno <;>
    simp only [appendToList, modifyEntry] <;> split_ifs <;> simp_all

@[simp] theorem appendToList_table_accessTime (s : State) (pno : Int) (j : Int) :
    ((appendToList s pno).table j).accessTime = (s.table j).accessTime := by
  by_cases h1 : j = s.last <;> by_cases h2 : j = pno <;>
    simp only [appendToList, modifyEntry] <;> split_ifs <;> simp_all

@[simp] theorem appendToList_table_loadTime (s : State) (pno : Int) (j : Int) :
    ((appendToList s pno).table j).loadTime = (s.table j).loadTime := by
  by_cases h1 : j = s.last <;> by_cases h2 : j = pno <;>
    simp only [appendToList, modifyEntry] <;> split_ifs <;> simp_all

@[simp] theorem appendToList_table_nPeeks (s : State) (pno : Int) (j : Int) :
    ((appendToList s pno).table j).nPeeks = (s.table j).nPeeks := by
  by_cases h1 : j = s.last <;> by_cases h2 : j = pno <;>
    simp only [appendToList, modifyEntry] <;> split_ifs <;> simp_all

@[simp] theorem appendToList_table_nPokes (s : State) (pno : Int) (j : Int) :
    ((appendToList s pno).table j).nPokes = (s.table j).nPokes := by
  by_cases h1 : j = s.last <;> by_cases h2 : j = pno <;>
    simp only [appendToList, modifyEntry] <;> split_ifs <;> simp_all

@[simp] theorem appendToList_table_next (s : State) (pno : Int) (j : Int) :
    ((appendToList s pno).table j).next = if s.isupdated = NOTUPDATED ∧ s.first ≠ NONE ∧ j = s.last then pno else (s.table j).next := by
  by_cases h1 : j = s.last <;> by_cases h2 : j = pno <;>
    simp only [appendToList, modifyEntry] <;> split_ifs <;> simp_all

@[simp] theorem appendToList_table_prev (s : State) (pno : Int) (j : Int) :
    ((appendToList s pno).table j).prev = if s.isupdated = NOTUPDATED ∧ s.first ≠ NONE ∧ j = pno then s.last else (s.table j).prev := by
  by_cases h1 : j = s.last <;> by_cases h2 : j = pno <;>
    simp only [appendToList, modifyEntry] <;> split_ifs <;> simp_all

@[simp] theorem applyAccess_nPages (s : State) (pno : Int) (mode : Char) (time : Int) :
    (applyAccess s pno mode time).1.nPages = s.nPages := by
  simp only [applyAccess, modifyEntry]
  split_ifs <;> rfl

@[simp] theorem applyAccess_replacePolicy (s : State) (pno : Int) (mode : Char) (time : Int) :
    (applyAccess s pno mode time).1.replacePolicy = s.replacePolicy := by
  simp only [applyAccess, modifyEntry]
  split_ifs <;> rfl

@[simp] theorem applyAccess_first (s : State) (pno : Int) (mode : Char) (time : Int) :
    (applyAccess s pno mode time).1.first = s.first := by
  simp only [applyAccess, modifyEntry]
  split_ifs <;> rfl

@[simp] theorem applyAccess_last (s : State) (pno : Int) (mode : Char) (time : Int) :
    (applyAccess s pno mode time).1.last = s.last := by
  simp only [applyAccess, modifyEntry]
  split_ifs <;> rfl

@[simp] theorem applyAccess_isupdated (s : State) (pno : Int) (mode : Char) (time : Int) :
    (applyAccess s pno mode time).1.isupdated = s.isupdated := by
  simp only [applyAccess, modifyEntry]
  split_ifs <;> rfl

@[simp] theorem applyAccess_nFrames (s : State) (pno : Int) (mode : Char) (time : Int) :
    (applyAccess s pno mode time).1.nFrames = s.nFrames := by
  simp only [applyAccess, modifyEntry]
  split_ifs <;> rfl

@[simp] theorem applyAccess_nUsed (s : State) (pno : Int) (mode : Char) (time : Int) :
    (applyAccess s pno mode time).1.nUsed = s.nUsed := by
  simp only [applyAccess, modifyEntry]
  split_ifs <;> rfl

@[simp] theorem applyAccess_log (s : State) (pno : Int) (mode : Char) (time : Int) :
    (applyAccess s pno mode time).1.log = s.log := by
  simp only [applyAccess, modifyEntry]
  split_ifs <;> rfl

@[simp] theorem applyAccess_table_status (s : State) (pno : Int) (mode : Char) (time : Int) (j : Int) :
    ((applyAccess s pno mode time).1.table j).status = (s.table j).status := by
  by_cases h1 : j = pno <;> simp only [applyAccess, modifyEntry] <;> split_ifs <;> simp_all

@[simp] theorem applyAccess_table_modified (s : State) (pno : Int) (mode : Char) (time : Int) (j : Int) :
    ((applyAccess s pno mode time).1.table j).modified = if j = pno ∧ mode = 'w' then true else (s.table j).modified := by
  by_cases h1 : j = pno <;> simp only [applyAccess, modifyEntry] <;> split_ifs <;> simp_all

@[simp] theorem applyAccess_table_frame (s : State) (pno : Int) (mode : Char) (time : Int) (j : Int) :
    ((applyAccess s pno mode time).1.table j).frame = (s.table j).frame := by
  by_cases h1 : j = pno <;> simp only [applyAccess, modifyEntry] <;> split_ifs <;> simp_all

@[simp] theorem applyAccess_table_accessTime (s : State) (pno : Int) (mode : Char) (time : Int) (j : Int) :
    ((applyAccess s pno mode time).1.table j).accessTime = if j = pno then time else (s.table j).accessTime := by
  by_cases h1 : j = pno <;> simp only [applyAccess, modifyEntry] <;> split_ifs <;> simp_all

@[simp] theorem applyAccess_table_loadTime (s : State) (pno : Int) (mode : Char) (time : Int) (j : Int) :
    ((applyAccess s pno mode time).1.table j).loadTime = (s.table j).loadTime := by
  by_cases h1 : j = pno <;> simp only [applyAccess, modifyEntry] <;> split_ifs <;> simp_all

@[simp] theorem applyAccess_table_nPeeks (s : State) (pno : Int) (mode : Char) (time : Int) (j : Int) :
    ((applyAccess s pno mode time).1.table j).nPeeks = if j = pno ∧ mode = 'r' then (s.table j).nPeeks + 1 else (s.table j).nPeeks := by
  by_cases h1 : j = pno <;> simp only [applyAccess, modifyEntry] <;> split_ifs <;> simp_all

@[simp] theorem applyAccess_table_nPokes (s : State) (pno : Int) (mode : Char) (time : Int) (j : Int) :
    ((applyAccess s pno mode time).1.table j).nPokes = if j = pno ∧ mode = 'w' then (s.table j).nPokes + 1 else (s.table j).nPokes := by
  by_cases h1 : j = pno <;> simp only [applyAccess, modifyEntry] <;> split_ifs <;> simp_all

@[simp] theorem applyAccess_table_next (s : State) (pno : Int) (mode : Char) (time : Int) (j : Int) :
    ((applyAccess s pno mode time).1.table j).next = (s.table j).next := by
  by_cases h1 : j = pno <;> simp only [applyAccess, modifyEntry] <;> split_ifs <;> simp_all

@[simp] theorem applyAccess_table_prev (s : State) (pno : Int) (mode : Char) (time : Int) (j : Int) :
    ((applyAccess s pno mode time).1.table j).prev = (s.table j).prev := by
  by_cases h1 : j = pno <;> simp only [applyAccess, modifyEntry] <;> split_ifs <;> simp_all
/-! ## Field-by-field effect of each returning path -/

theorem findVictim_afterFindFree (s : State) (pno time : Int) :
    findVictim (afterFindFree s) pno time = findVictim s pno time := by
  unfold afterFindFree findFreeFrame countPageFault findVictim
  split_ifs <;> rfl

theorem hitStep_nPages (s : State) (pno : Int) (mode : Char) (time : Int) :
    (hitStep s pno mode time).nPages =
      s.nPages := by
  simp only [hitStep, findVictim_afterFindFree]
  simp

theorem hitStep_replacePolicy (s : State) (pno : Int) (mode : Char) (time : Int) :
    (hitStep s pno mode time).replacePolicy =
      s.replacePolicy := by
  simp only [hitStep, findVictim_afterFindFree]
  simp

theorem hitStep_first (s : State) (pno : Int) (mode : Char) (time : Int) :
    (hitStep s pno mode time).first =
      s.first := by
  simp only [hitStep, findVictim_afterFindFree]
  simp

theorem hitStep_last (s : State) (pno : Int) (mode : Char) (time : Int) :
    (hitStep s pno mode time).last =
      s.last := by
  simp only [hitStep, findVictim_afterFindFree]
  simp

theorem hitStep_isupdated (s : State) (pno : Int) (mode : Char) (time : Int) :
    (hitStep s pno mode time).isupdated =
      NOTUPDATED := by
  simp only [hitStep, findVictim_afterFindFree]
  simp

theorem hitStep_nFrames (s : State) (pno : Int) (mode : Char) (time : Int) :
    (hitStep s pno mode time).nFrames =
      s.nFrames := by
  simp only [hitStep, findVictim_afterFindFree]
  simp

theorem hitStep_nUsed (s : State) (pno : Int) (mode : Char) (time : Int) :
    (hitStep s pno mode time).nUsed =
      s.nUsed := by
  simp only [hitStep, findVictim_afterFindFree]
  simp

theorem hitStep_log (s : State) (pno : Int) (mode : Char) (time : Int) :
    (hitStep s pno mode time).log =
      s.log ++ [Event.countPageHit] := by
  simp only [hitStep, findVictim_afterFindFree]
  simp

theorem hitStep_table_status (s : State) (pno : Int) (mode : Char) (time : Int) (j : Int) :
    ((hitStep s pno mode time).table j).status =
      (s.table j).status := by
  simp only [hitStep]
  by_cases h1 : j = pno
  · subst h1
    simp
  · simp [h1]

theorem hitStep_table_modified (s : State) (pno : Int) (mode : Char) (time : Int) (j : Int) :
    ((hitStep s pno mode time).table j).modified =
      if j = pno ∧ mode = 'w' then true else (s.table j).modified := by
  simp only [hitStep]
  by_cases h1 : j = pno
  · subst h1
    simp
  · simp [h1]

theorem hitStep_table_frame (s : State) (pno : Int) (mode : Char) (time : Int) (j : Int) :
    ((hitStep s pno mode time).table j).frame =
      (s.table j).frame := by
  simp only [hitStep]
  by_cases h1 : j = pno
  · subst h1
    simp
  · simp [h1]

theorem hitStep_table_accessTime (s : State) (pno : Int) (mode : Char) (time : Int) (j : Int) :
    ((hitStep s pno mode time).table j).accessTime =
      if j = pno then time else (s.table j).accessTime := by
  simp only [hitStep]
  by_cases h1 : j = pno
  · subst h1
    simp
  · simp [h1]

theorem hitStep_table_loadTime (s : State) (pno : Int) (mode : Char) (time : Int) (j : Int) :
    ((hitStep s pno mode time).table j).loadTime =
      (s.table j).loadTime := by
  simp only [hitStep]
  by_cases h1 : j = pno
  · subst h1
    simp
  · simp [h1]

theorem hitStep_table_nPeeks (s : State) (pno : Int) (mode : Char) (time : Int) (j : Int) :
    ((hitStep s pno mode time).table j).nPeeks =
      if j = pno ∧ mode = 'r' then (s.table j).nPeeks + 1 else (s.table j).nPeeks := by
  simp only [hitStep]
  by_cases h1 : j = pno
  · subst h1
    simp
  · simp [h1]

theorem hitStep_table_nPokes (s : State) (pno : Int) (mode : Char) (time : Int) (j : Int) :
    ((hitStep s pno mode time).table j).nPokes =
      if j = pno ∧ mode = 'w' then (s.table j).nPokes + 1 else (s.table j).nPokes := by
  simp only [hitStep]
  by_cases h1 : j = pno
  · subst h1
    simp
  · simp [h1]

theorem hitStep_table_next (s : State) (pno : Int) (mode : Char) (time : Int) (j : Int) :
    ((hitStep s pno mode time).table j).next =
      (s.table j).next := by
  simp only [hitStep]
  by_cases h1 : j = pno
  · subst h1
    simp
  · simp [h1]

theorem hitStep_table_prev (s : State) (pno : Int) (mode : Char) (time : Int) (j : Int) :
    ((hitStep s pno mode time).table j).prev =
      (s.table j).prev := by
  simp only [hitStep]
  by_cases h1 : j = pno
  · subst h1
    simp
  · simp [h1]

theorem freeStep_nPages (s : State) (pno : Int) (mode : Char) (time : Int) :
    (freeStep s pno mode time).nPages =
      s.nPages := by
  simp only [freeStep, findVictim_afterFindFree]
  simp

theorem freeStep_replacePolicy (s : State) (pno : Int) (mode : Char) (time : Int) :
    (freeStep s pno mode time).replacePolicy =
      s.replacePolicy := by
  simp only [freeStep, findVictim_afterFindFree]
  simp

theorem freeStep_first (s : State) (pno : Int) (mode : Char) (time : Int) :
    (freeStep s pno mode time).first =
      if s.first = NONE then pno else s.first := by
  simp only [freeStep, findVictim_afterFindFree]
  simp

theorem freeStep_last (s : State) (pno : Int) (mode : Char) (time : Int) :
    (freeStep s pno mode time).last =
      pno := by
  simp only [freeStep, findVictim_afterFindFree]
  simp

theorem freeStep_isupdated (s : State) (pno : Int) (mode : Char) (time : Int) :
    (freeStep s pno mode time).isupdated =
      NOTUPDATED := by
  simp only [freeStep, findVictim_afterFindFree]
  simp

theorem freeStep_nFrames (s : State) (pno : Int) (mode : Char) (time : Int) :
    (freeStep s pno mode time).nFrames =
      s.nFrames := by
  simp only [freeStep, findVictim_afterFindFree]
  simp

theorem freeStep_nUsed (s : State) (pno : Int) (mode : Char) (time : Int) :
    (freeStep s pno mode time).nUsed =
      if s.nUsed < s.nFrames then s.nUsed + 1 else s.nUsed := by
  simp only [freeStep, findVictim_afterFindFree]
  simp

theorem freeStep_log (s : State) (pno : Int) (mode : Char) (time : Int) :
    (freeStep s pno mode time).log =
      s.log ++ [Event.countPageFault, Event.findFreeFrame, Event.loadFrame (s.nUsed : Int) pno time] := by
  simp only [freeStep, findVictim_afterFindFree]
  simp

theorem freeStep_table_status (s : State) (pno : Int) (mode : Char) (time : Int) (j : Int) :
    ((freeStep s pno mode time).table j).status =
      if j = pno then IN_MEMORY else (s.table j).status := by
  simp only [freeStep]
  by_cases h1 : j = pno
  · subst h1
    simp
  · simp [h1]

theorem freeStep_table_modified (s : State) (pno : Int) (mode : Char) (time : Int) (j : Int) :
    ((freeStep s pno mode time).table j).modified =
      if j = pno then decide (mode = 'w') else (s.table j).modified := by
  simp only [freeStep]
  by_cases h1 : j = pno
  · subst h1
    simp
  · simp [h1]

theorem freeStep_table_frame (s : State) (pno : Int) (mode : Char) (time : Int) (j : Int) :
    ((freeStep s pno mode time).table j).frame =
      if j = pno then (s.nUsed : Int) else (s.table j).frame := by
  simp only [freeStep]
  by_cases h1 : j = pno
  · subst h1
    simp
  · simp [h1]

theorem freeStep_table_accessTime (s : State) (pno : Int) (mode : Char) (time : Int) (j : Int) :
    ((freeStep s pno mode time).table j).accessTime =
      if j = pno then time else (s.table j).accessTime := by
  simp only [freeStep]
  by_cases h1 : j = pno
  · subst h1
    simp
  · simp [h1]

theorem freeStep_table_loadTime (s : State) (pno : Int) (mode : Char) (time : Int) (j : Int) :
    ((freeStep s pno mode time).table j).loadTime =
      if j = pno then time else (s.table j).loadTime := by
  simp only [freeStep]
  by_cases h1 : j = pno
  · subst h1
    simp
  · simp [h1]

theorem freeStep_table_nPeeks (s : State) (pno : Int) (mode : Char) (time : Int) (j : Int) :
    ((freeStep s pno mode time).table j).nPeeks =
      if j = pno ∧ mode = 'r' then (s.table j).nPeeks + 1 else (s.table j).nPeeks := by
  simp only [freeStep]
  by_cases h1 : j = pno
  · subst h1
    simp
  · simp [h1]

theorem freeStep_table_nPokes (s : State) (pno : Int) (mode : Char) (time : Int) (j : Int) :
    ((freeStep s pno mode time).table j).nPokes =
      if j = pno ∧ mode = 'w' then (s.table j).nPokes + 1 else (s.table j).nPokes := by
  simp only [freeStep]
  by_cases h1 : j = pno
  · subst h1
    simp
  · simp [h1]

theorem freeStep_table_next (s : State) (pno : Int) (mode : Char) (time : Int) (j : Int) :
    ((freeStep s pno mode time).table j).next =
      if s.first ≠ NONE ∧ j = s.last then pno else (s.table j).next := by
  simp only [freeStep]
  by_cases h1 : j = pno
  · subst h1
    simp
  · simp [h1]

theorem freeStep_table_prev (s : State) (pno : Int) (mode : Char) (time : Int) (j : Int) :
    ((freeStep s pno mode time).table j).prev =
      if s.first ≠ NONE ∧ j = pno then s.last else (s.table j).prev := by
  simp only [freeStep]
  by_cases h1 : j = pno
  · subst h1
    simp
  · simp [h1]

theorem evictStep_nPages (s : State) (pno : Int) (mode : Char) (time : Int) :
    (evictStep s pno mode time).nPages =
      s.nPages := by
  simp only [evictStep, findVictim_afterFindFree]
  simp

theorem evictStep_replacePolicy (s : State) (pno : Int) (mode : Char) (time : Int) :
    (evictStep s pno mode time).replacePolicy =
      s.replacePolicy := by
  simp only [evictStep, findVictim_afterFindFree]
  simp

theorem evictStep_first (s : State) (pno : Int) (mode : Char) (time : Int) :
    (evictStep s pno mode time).first =
      (s.table s.first).next := by
  simp only [evictStep, findVictim_afterFindFree]
  simp

theorem evictStep_last (s : State) (pno : Int) (mode : Char) (time : Int) :
    (evictStep s pno mode time).last =
      pno := by
  simp only [evictStep, findVictim_afterFindFree]
  simp

theorem evictStep_isupdated (s : State) (pno : Int) (mode : Char) (time : Int) :
    (evictStep s pno mode time).isupdated =
      UPDATED := by
  simp only [evictStep, findVictim_afterFindFree]
  simp

theorem evictStep_nFrames (s : State) (pno : Int) (mode : Char) (time : Int) :
    (evictStep s pno mode time).nFrames =
      s.nFrames := by
  simp only [evictStep, findVictim_afterFindFree]
  simp

theorem evictStep_nUsed (s : State) (pno : Int) (mode : Char) (time : Int) :
    (evictStep s pno mode time).nUsed =
      if s.nUsed < s.nFrames then s.nUsed + 1 else s.nUsed := by
  simp only [evictStep, findVictim_afterFindFree]
  simp

theorem evictStep_log (s : State) (pno : Int) (mode : Char) (time : Int) :
    (evictStep s pno mode time).log =
      s.log ++ [Event.countPageFault, Event.findFreeFrame] ++
      (if (s.table (findVictim s pno time)).modified = true then [Event.saveFrame (s.table (findVictim s pno time)).frame] else []) ++
      [Event.loadFrame (s.table (findVictim s pno time)).frame pno time] := by
  simp only [evictStep, findVictim_afterFindFree]
  by_cases h : (s.table (findVictim s pno time)).modified = true <;> simp [h]

theorem evictStep_table_status (s : State) (pno : Int) (mode : Char) (time : Int) (j : Int) :
    ((evictStep s pno mode time).table j).status =
      if j = pno then IN_MEMORY else if j = findVictim s pno time then ON_DISK else (s.table j).status := by
  simp only [evictStep, findVictim_afterFindFree]
  by_cases h1 : j = pno
  · subst h1
    simp
  · by_cases h2 : j = findVictim s pno time
    · subst h2
      simp [h1]
    · simp [h1, h2]

theorem evictStep_table_modified (s : State) (pno : Int) (mode : Char) (time : Int) (j : Int) :
    ((evictStep s pno mode time).table j).modified =
      if j = pno then decide (mode = 'w') else if j = findVictim s pno time then false else (s.table j).modified := by
  simp only [evictStep, findVictim_afterFindFree]
  by_cases h1 : j = pno
  · subst h1
    simp
  · by_cases h2 : j = findVictim s pno time
    · subst h2
      simp [h1]
    · simp [h1, h2]

theorem evictStep_table_frame (s : State) (pno : Int) (mode : Char) (time : Int) (j : Int) :
    ((evictStep s pno mode time).table j).frame =
      if j = pno then (s.table (findVictim s pno time)).frame else if j = findVictim s pno time then NONE else (s.table j).frame := by
  simp only [evictStep, findVictim_afterFindFree]
  by_cases h1 : j = pno
  · subst h1
    simp
  · by_cases h2 : j = findVictim s pno time
    · subst h2
      simp [h1]
    · simp [h1, h2]

theorem evictStep_table_accessTime (s : State) (pno : Int) (mode : Char) (time : Int) (j : Int) :
    ((evictStep s pno mode time).table j).accessTime =
      if j = pno then time else if j = findVictim s pno time then NONE else (s.table j).accessTime := by
  simp only [evictStep, findVictim_afterFindFree]
  by_cases h1 : j = pno
  · subst h1
    simp
  · by_cases h2 : j = findVictim s pno time
    · subst h2
      simp [h1]
    · simp [h1, h2]

theorem evictStep_table_loadTime (s : State) (pno : Int) (mode : Char) (time : Int) (j : Int) :
    ((evictStep s pno mode time).table j).loadTime =
      if j = pno then time else if j = findVictim s pno time then NONE else (s.table j).loadTime := by
  simp only [evictStep, findVictim_afterFindFree]
  by_cases h1 : j = pno
  · subst h1
    simp
  · by_cases h2 : j = findVictim s pno time
    · subst h2
      simp [h1]
    · simp [h1, h2]

theorem evictStep_table_nPeeks (s : State) (pno : Int) (mode : Char) (time : Int) (j : Int) :
    ((evictStep s pno mode time).table j).nPeeks =
      if j = pno ∧ mode = 'r' then (s.table j).nPeeks + 1 else (s.table j).nPeeks := by
  simp only [evictStep, findVictim_afterFindFree]
  by_cases h1 : j = pno
  · subst h1
    simp
  · by_cases h2 : j = findVictim s pno time
    · subst h2
      simp [h1]
    · simp [h1, h2]

theorem evictStep_table_nPokes (s : State) (pno : Int) (mode : Char) (time : Int) (j : Int) :
    ((evictStep s pno mode time).table j).nPokes =
      if j = pno ∧ mode = 'w' then (s.table j).nPokes + 1 else (s.table j).nPokes := by
  simp only [evictStep, findVictim_afterFindFree]
  by_cases h1 : j = pno
  · subst h1
    simp
  · by_cases h2 : j = findVictim s pno time
    · subst h2
      simp [h1]
    · simp [h1, h2]

theorem evictStep_table_next (s : State) (pno : Int) (mode : Char) (time : Int) (j : Int) :
    ((evictStep s pno mode time).table j).next =
      if j = s.last then pno else (s.table j).next := by
  simp only [evictStep, findVictim_afterFindFree]
  by_cases h1 : j = pno
  · subst h1
    simp
  · by_cases h2 : j = findVictim s pno time
    · subst h2
      simp [h1]
    · simp [h1, h2]

theorem evictStep_table_prev (s : State) (pno : Int) (mode : Char) (time : Int) (j : Int) :
    ((evictStep s pno mode time).table j).prev =
      if j = pno then s.last else (s.table j).prev := by
  simp only [evictStep, findVictim_afterFindFree]
  by_cases h1 : j = pno
  · subst h1
    simp
  · by_cases h2 : j = findVictim s pno time
    · subst h2
      simp [h1]
    · simp [h1, h2]

/-! ## `requestPage` along each path -/

theorem applyAccess_snd (s : State) (pno : Int) (mode : Char) (time : Int) :
    (applyAccess s pno mode time).2 = Result.ok (s.table pno).frame := by
  simp only [applyAccess]
  split_ifs <;> simp

theorem applyAccess_pair (s : State) (pno : Int) (mode : Char) (time : Int) (f : Int)
    (hf : (s.table pno).frame = f) :
    applyAccess s pno mode time = ((applyAccess s pno mode time).1, Result.ok f) := by
  rw [← hf]
  exact Prod.ext rfl (applyAccess_snd s pno mode time)

theorem requestPage_invalid (s : State) (pno : Int) (mode : Char) (time : Int)
    (hp : ¬ validIndex s pno) :
    requestPage s pno mode time = (s, Result.invalidPageReference) := by
  have h : pno < 0 ∨ pno ≥ s.nPages := by
    unfold validIndex at hp
    omega
  simp only [requestPage, h, if_true]

theorem requestPage_hit (s : State) (pno : Int) (mode : Char) (time : Int)
    (hp : validIndex s pno) (hs : (s.table pno).status = IN_MEMORY) :
    requestPage s pno mode time = (hitStep s pno mode time, Result.ok (s.table pno).frame) := by
  have h0 : ¬ pno < 0 := not_lt.mpr hp.1
  have h1 : ¬ pno ≥ s.nPages := not_le.mpr hp.2
  simp only [requestPage, h0, h1, or_self, if_false, hs, hitStep]
  simp only [show ¬ (IN_MEMORY = NOT_USED ∨ IN_MEMORY = ON_DISK) by decide, if_false, if_true]
  apply applyAccess_pair
  simp

theorem requestPage_free (s : State) (pno : Int) (mode : Char) (time : Int)
    (hp : validIndex s pno) (hf : isFault s pno) (hfree : s.nUsed < s.nFrames)
    (hl : s.first = NONE ∨ validIndex s s.last) :
    requestPage s pno mode time = (freeStep s pno mode time, Result.ok (s.nUsed : Int)) := by
  have h0 : ¬ pno < 0 := not_lt.mpr hp.1
  have h1 : ¬ pno ≥ s.nPages := not_le.mpr hp.2
  have hne : ¬ ((s.nUsed : Int) = NONE) := by simp only [NONE]; omega
  have hb : appendInBounds
      (updatePageTable (loadFrame (afterFindFree s) (s.nUsed : Int) pno time) pno
        (s.nUsed : Int) time) := by
    intro _ hfirst
    rcases hl with hl | hl
    · exact absurd hl (by simpa using hfirst)
    · simpa [validIndex] using hl
  unfold isFault at hf
  simp only [requestPage, h0, h1, or_self, if_false, hf, if_true, freeStep]
  have e1 : (findFreeFrame (countPageFault { s with isupdated := NOTUPDATED })).1
      = (s.nUsed : Int) := by
    simp [findFreeFrame, countPageFault, hfree]
  have e2 : (findFreeFrame (countPageFault { s with isupdated := NOTUPDATED })).2
      = afterFindFree s := rfl
  simp only [e1, e2, hne, if_false, loadInto, hb, if_true]
  apply applyAccess_pair
  simp

theorem requestPage_evict (s : State) (pno : Int) (mode : Char) (time : Int)
    (hp : validIndex s pno) (hf : isFault s pno) (hfull : s.nFrames ≤ s.nUsed)
    (hv : validIndex s (findVictim s pno time))
    (h1 : validIndex s s.first) (h2 : validIndex s s.last) :
    requestPage s pno mode time
      = (evictStep s pno mode time, Result.ok (s.table (findVictim s pno time)).frame) := by
  have hfull' : ¬ s.nUsed < s.nFrames := not_lt.mpr hfull
  have h0 : ¬ pno < 0 := not_lt.mpr hp.1
  have h1' : ¬ pno ≥ s.nPages := not_le.mpr hp.2
  unfold isFault at hf
  simp only [requestPage, h0, h1', or_self, if_false, hf, if_true, evictStep]
  have e1 : (findFreeFrame (countPageFault { s with isupdated := NOTUPDATED })).1 = NONE := by
    simp [findFreeFrame, countPageFault, hfull']
  have e2 : (findFreeFrame (countPageFault { s with isupdated := NOTUPDATED })).2
      = afterFindFree s := rfl
  have hv' : validIndex (afterFindFree s) (findVictim (afterFindFree s) pno time) := by
    simpa [validIndex, findVictim_afterFindFree] using hv
  simp only [e1, e2, if_true, evict, hv']
  rw [if_pos]
  · simp only [loadInto]
    rw [if_pos]
    · apply applyAccess_pair
      simp [findVictim_afterFindFree]
    · intro h
      simp at h
  · simpa [validIndex] using And.intro h1 h2

theorem requestPage_invalidStatus (s : State) (pno : Int) (mode : Char) (time : Int)
    (hp : validIndex s pno) (hs : (s.table pno).status ≠ IN_MEMORY) (hf : ¬ isFault s pno) :
    requestPage s pno mode time
      = ({ s with isupdated := NOTUPDATED }, Result.invalidPageStatus) := by
  have h0 : ¬ pno < 0 := not_lt.mpr hp.1
  have h1 : ¬ pno ≥ s.nPages := not_le.mpr hp.2
  unfold isFault at hf
  simp only [requestPage, h0, h1, or_self, if_false, hf, hs]

theorem requestPage_free_outOfBounds (s : State) (pno : Int) (mode : Char) (time : Int)
    (hp : validIndex s pno) (hf : isFault s pno) (hfree : s.nUsed < s.nFrames)
    (hl : ¬ (s.first = NONE ∨ validIndex s s.last)) :
    requestPage s pno mode time
      = (updatePageTable (loadFrame (afterFindFree s) (s.nUsed : Int) pno time) pno
          (s.nUsed : Int) time, Result.outOfBounds) := by
  have h0 : ¬ pno < 0 := not_lt.mpr hp.1
  have h1 : ¬ pno ≥ s.nPages := not_le.mpr hp.2
  have hne : ¬ ((s.nUsed : Int) = NONE) := by simp only [NONE]; omega
  have hb : ¬ appendInBounds
      (updatePageTable (loadFrame (afterFindFree s) (s.nUsed : Int) pno time) pno
        (s.nUsed : Int) time) := by
    intro hb
    apply hl
    by_cases hfirst : s.first = NONE
    · exact Or.inl hfirst
    · right
      have := hb (by simp) (by simpa using hfirst)
      simpa [validIndex] using this
  unfold isFault at hf
  simp only [requestPage, h0, h1, or_self, if_false, hf, if_true]
  have e1 : (findFreeFrame (countPageFault { s with isupdated := NOTUPDATED })).1
      = (s.nUsed : Int) := by
    simp [findFreeFrame, countPageFault, hfree]
  have e2 : (findFreeFrame (countPageFault { s with isupdated := NOTUPDATED })).2
      = afterFindFree s := rfl
  simp only [e1, e2, hne, if_false, loadInto, hb]

theorem requestPage_victim_outOfBounds (s : State) (pno : Int) (mode : Char) (time : Int)
    (hp : validIndex s pno) (hf : isFault s pno) (hfull : s.nFrames ≤ s.nUsed)
    (hv : ¬ validIndex s (findVictim s pno time)) :
    requestPage s pno mode time = (afterFindFree s, Result.outOfBounds) := by
  have hfull' : ¬ s.nUsed < s.nFrames := not_lt.mpr hfull
  have h0 : ¬ pno < 0 := not_lt.mpr hp.1
  have h1' : ¬ pno ≥ s.nPages := not_le.mpr hp.2
  unfold isFault at hf
  simp only [requestPage, h0, h1', or_self, if_false, hf, if_true]
  have e1 : (findFreeFrame (countPageFault { s with isupdated := NOTUPDATED })).1 = NONE := by
    simp [findFreeFrame, countPageFault, hfull']
  have e2 : (findFreeFrame (countPageFault { s with isupdated := NOTUPDATED })).2
      = afterFindFree s := rfl
  have hv' : ¬ validIndex (afterFindFree s) (findVictim (afterFindFree s) pno time) := by
    simpa [validIndex, findVictim_afterFindFree] using hv
  simp only [e1, e2, if_true, evict, hv', if_false]

theorem requestPage_cursor_outOfBounds (s : State) (pno : Int) (mode : Char) (time : Int)
    (hp : validIndex s pno) (hf : isFault s pno) (hfull : s.nFrames ≤ s.nUsed)
    (hv : validIndex s (findVictim s pno time))
    (hc : ¬ (validIndex s s.first ∧ validIndex s s.last)) :
    requestPage s pno mode time
      = (updateVictimTable (saveIfModified (afterFindFree s) (findVictim s pno time))
          (findVictim s pno time) time, Result.outOfBounds) := by
  have hfull' : ¬ s.nUsed < s.nFrames := not_lt.mpr hfull
  have h0 : ¬ pno < 0 := not_lt.mpr hp.1
  have h1' : ¬ pno ≥ s.nPages := not_le.mpr hp.2
  unfold isFault at hf
  simp only [requestPage, h0, h1', or_self, if_false, hf, if_true]
  have e1 : (findFreeFrame (countPageFault { s with isupdated := NOTUPDATED })).1 = NONE := by
    simp [findFreeFrame, countPageFault, hfull']
  have e2 : (findFreeFrame (countPageFault { s with isupdated := NOTUPDATED })).2
      = afterFindFree s := rfl
  have hv' : validIndex (afterFindFree s) (findVictim (afterFindFree s) pno time) := by
    simpa [validIndex, findVictim_afterFindFree] using hv
  simp only [e1, e2, if_true, evict, hv']
  rw [if_neg]
  · simp only [findVictim_afterFindFree]
  · intro h
    apply hc
    simpa [validIndex] using h

/-- Every way `requestPage` can return a frame. -/
theorem requestPage_ok_cases (s s' : State) (pno : Int) (mode : Char) (time f : Int)
    (h : requestPage s pno mode time = (s', Result.ok f)) :
    validIndex s pno ∧
    (((s.table pno).status = IN_MEMORY ∧ s' = hitStep s pno mode time ∧
        f = (s.table pno).frame) ∨
     (isFault s pno ∧ s.nUsed < s.nFrames ∧ (s.first = NONE ∨ validIndex s s.last) ∧
        s' = freeStep s pno mode time ∧ f = (s.nUsed : Int)) ∨
     (isFault s pno ∧ s.nFrames ≤ s.nUsed ∧ validIndex s (findVictim s pno time) ∧
        validIndex s s.first ∧ validIndex s s.last ∧
        s' = evictStep s pno mode time ∧ f = (s.table (findVictim s pno time)).frame)) := by
  by_cases hp : validIndex s pno
  swap
  · rw [requestPage_invalid s pno mode time hp] at h
    simp at h
  refine ⟨hp, ?_⟩
  by_cases hs : (s.table pno).status = IN_MEMORY
  · rw [requestPage_hit s pno mode time hp hs] at h
    simp only [Prod.mk.injEq, Result.ok.injEq] at h
    exact Or.inl ⟨hs, h.1.symm, h.2.symm⟩
  by_cases hf : isFault s pno
  swap
  · exfalso
    have h0 : ¬ pno < 0 := not_lt.mpr hp.1
    have h1 : ¬ pno ≥ s.nPages := not_le.mpr hp.2
    unfold isFault at hf
    simp only [requestPage, h0, h1, or_self, if_false, hf, hs] at h
    simp at h
  by_cases hfree : s.nUsed < s.nFrames
  · by_cases hl : s.first = NONE ∨ validIndex s s.last
    · rw [requestPage_free s pno mode time hp hf hfree hl] at h
      simp only [Prod.mk.injEq, Result.ok.injEq] at h
      exact Or.inr (Or.inl ⟨hf, hfree, hl, h.1.symm, h.2.symm⟩)
    · exfalso
      rw [requestPage_free_outOfBounds s pno mode time hp hf hfree hl] at h
      simp at h
  · have hfull : s.nFrames ≤ s.nUsed := not_lt.mp hfree
    by_cases hv : validIndex s (findVictim s pno time)
    swap
    · exfalso
      rw [requestPage_victim_outOfBounds s pno mode time hp hf hfull hv] at h
      simp at h
    by_cases hc : validIndex s s.first ∧ validIndex s s.last
    · rw [requestPage_evict s pno mode time hp hf hfull hv hc.1 hc.2] at h
      simp only [Prod.mk.injEq, Result.ok.injEq] at h
      exact Or.inr (Or.inr ⟨hf, hfull, hv, hc.1, hc.2, h.1.symm, h.2.symm⟩)
    · exfalso
      rw [requestPage_cursor_outOfBounds s pno mode time hp hf hfull hv hc] at h
      simp at h

/-! ## The collaborator calls of one call -/

theorem callEvents_of_log (s : State) (pno : Int) (mode : Char) (time : Int) (evs : List Event)
    (h : (requestPage s pno mode time).1.log = s.log ++ evs) :
    callEvents s pno mode time = evs := by
  unfold callEvents
  rw [h]
  simp

theorem callEvents_invalid (s : State) (pno : Int) (mode : Char) (time : Int)
    (hp : ¬ validIndex s pno) : callEvents s pno mode time = [] := by
  apply callEvents_of_log
  rw [requestPage_invalid s pno mode time hp]
  simp

theorem callEvents_hit (s : State) (pno : Int) (mode : Char) (time : Int)
    (hp : validIndex s pno) (hs : (s.table pno).status = IN_MEMORY) :
    callEvents s pno mode time = [Event.countPageHit] := by
  apply callEvents_of_log
  rw [requestPage_hit s pno mode time hp hs]
  simp [hitStep_log]

theorem callEvents_free (s : State) (pno : Int) (mode : Char) (time : Int)
    (hp : validIndex s pno) (hf : isFault s pno) (hfree : s.nUsed < s.nFrames) :
    callEvents s pno mode time
      = [Event.countPageFault, Event.findFreeFrame, Event.loadFrame (s.nUsed : Int) pno time] := by
  apply callEvents_of_log
  by_cases hl : s.first = NONE ∨ validIndex s s.last
  · rw [requestPage_free s pno mode time hp hf hfree hl]
    simp [freeStep_log]
  · rw [requestPage_free_outOfBounds s pno mode time hp hf hfree hl]
    simp

theorem callEvents_evict (s : State) (pno : Int) (mode : Char) (time : Int)
    (hp : validIndex s pno) (hf : isFault s pno) (hfull : s.nFrames ≤ s.nUsed)
    (hv : validIndex s (findVictim s pno time)) :
    callEvents s pno mode time
      = [Event.countPageFault, Event.findFreeFrame] ++
        (if (s.table (findVictim s pno time)).modified = true
          then [Event.saveFrame (s.table (findVictim s pno time)).frame] else []) ++
        (if validIndex s s.first ∧ validIndex s s.last
          then [Event.loadFrame (s.table (findVictim s pno time)).frame pno time] else []) := by
  apply callEvents_of_log
  by_cases hc : validIndex s s.first ∧ validIndex s s.last
  · rw [requestPage_evict s pno mode time hp hf hfull hv hc.1 hc.2]
    simp [evictStep_log, hc]
  · rw [requestPage_cursor_outOfBounds s pno mode time hp hf hfull hv hc]
    by_cases hm : (s.table (findVictim s pno time)).modified = true <;> simp [hc, hm]

theorem callEvents_noVictim (s : State) (pno : Int) (mode : Char) (time : Int)
    (hp : validIndex s pno) (hf : isFault s pno) (hfull : s.nFrames ≤ s.nUsed)
    (hv : ¬ validIndex s (findVictim s pno time)) :
    callEvents s pno mode time = [Event.countPageFault, Event.findFreeFrame] := by
  apply callEvents_of_log
  rw [requestPage_victim_outOfBounds s pno mode time hp hf hfull hv]
  simp

/-! ## Sequences of calls -/

theorem run_cons (s s' : State) (a : Access) (rest : List Access)
    (h : run s (a :: rest) = some s') :
    ∃ s1 f, requestPage s a.pno a.mode a.time = (s1, Result.ok f) ∧ run s1 rest = some s' := by
  rcases hr : requestPage s a.pno a.mode a.time with ⟨s1, r⟩
  cases r with
  | ok f =>
    refine ⟨s1, f, rfl, ?_⟩
    simpa [run, hr] using h
  | invalidPageReference => simp [run, hr] at h
  | invalidPageStatus => simp [run, hr] at h
  | outOfBounds => simp [run, hr] at h

theorem run_cons_of_ok (s s1 : State) (a : Access) (rest : List Access) (f : Int)
    (h : requestPage s a.pno a.mode a.time = (s1, Result.ok f)) :
    run s (a :: rest) = run s1 rest := by
  simp [run, h]

/-- Counters after one returning call. -/
theorem requestPage_counters (s s' : State) (pno : Int) (mode : Char) (time f : Int)
    (h : requestPage s pno mode time = (s', Result.ok f)) (j : Int) :
    (s'.table j).nPeeks
        = (if j = pno ∧ mode = 'r' then (s.table j).nPeeks + 1 else (s.table j).nPeeks) ∧
    (s'.table j).nPokes
        = (if j = pno ∧ mode = 'w' then (s.table j).nPokes + 1 else (s.table j).nPokes) := by
  obtain ⟨_, hc⟩ := requestPage_ok_cases s s' pno mode time f h
  rcases hc with ⟨_, rfl, _⟩ | ⟨_, _, _, rfl, _⟩ | ⟨_, _, _, _, _, rfl, _⟩
  · exact ⟨hitStep_table_nPeeks s pno mode time j, hitStep_table_nPokes s pno mode time j⟩
  · exact ⟨freeStep_table_nPeeks s pno mode time j, freeStep_table_nPokes s pno mode time j⟩
  · exact ⟨evictStep_table_nPeeks s pno mode time j, evictStep_table_nPokes s pno mode time j⟩

theorem countMode_cons (a : Access) (rest : List Access) (p : Int) (mode : Char) :
    countMode (a :: rest) p mode
      = (if a.pno = p ∧ a.mode = mode then 1 else 0) + countMode rest p mode := by
  unfold countMode
  by_cases h : a.pno = p ∧ a.mode = mode
  · simp [List.filter_cons, h]
    ring
  · simp [List.filter_cons, h]

theorem run_counters (accs : List Access) :
    ∀ (s s' : State), run s accs = some s' → ∀ p : Int,
      (s'.table p).nPeeks = (s.table p).nPeeks + countMode accs p 'r' ∧
      (s'.table p).nPokes = (s.table p).nPokes + countMode accs p 'w' := by
  induction accs with
  | nil =>
    intro s s' h p
    simp only [run, Option.some.injEq] at h
    subst h
    simp [countMode]
  | cons a rest ih =>
    intro s s' h p
    obtain ⟨s1, f, h1, h2⟩ := run_cons s s' a rest h
    obtain ⟨e1, e2⟩ := ih s1 s' h2 p
    obtain ⟨c1, c2⟩ := requestPage_counters s s1 a.pno a.mode a.time f h1 p
    rw [e1, e2, c1, c2, countMode_cons, countMode_cons]
    by_cases hp : p = a.pno
    · subst hp
      constructor
      · by_cases hm : a.mode = 'r'
        · simp only [hm, and_self, if_true]
          ring
        · simp only [hm, and_false, if_false]
          ring
      · by_cases hm : a.mode = 'w'
        · simp only [hm, and_self, if_true]
          ring
        · simp only [hm, and_false, if_false]
          ring
    · have hp' : ¬ a.pno = p := fun h => hp h.symm
      simp [hp, hp']

theorem countMode_nonneg (accs : List Access) (p : Int) (mode : Char) :
    0 ≤ countMode accs p mode := by
  unfold countMode
  exact Int.natCast_nonneg _

theorem run_append_ok (s s1 : State) (l1 l2 : List Access) (h : run s l1 = some s1) :
    run s (l1 ++ l2) = run s1 l2 := by
  induction l1 generalizing s with
  | nil =>
    simp only [run, Option.some.injEq] at h
    subst h
    rfl
  | cons a rest ih =>
    obtain ⟨s2, f, h1, h2⟩ := run_cons s s1 a rest h
    rw [List.cons_append, run_cons_of_ok s s2 a _ f h1]
    exact ih s2 h2

/-! ## The modified flag -/

theorem requestPage_status_modified (s s' : State) (pno : Int) (mode : Char) (time f : Int)
    (h : requestPage s pno mode time = (s', Result.ok f)) :
    (s'.table pno).status = IN_MEMORY ∧
    ((s'.table pno).modified =
      if (s.table pno).status = IN_MEMORY then ((s.table pno).modified || decide (mode = 'w'))
      else decide (mode = 'w')) ∧
    ∀ j, j ≠ pno →
      (((s'.table j).status = (s.table j).status ∧ (s'.table j).modified = (s.table j).modified) ∨
       ((s'.table j).status = ON_DISK ∧ (s'.table j).modified = false)) := by
  obtain ⟨_, hc⟩ := requestPage_ok_cases s s' pno mode time f h
  rcases hc with ⟨hs, rfl, _⟩ | ⟨hf, _, _, rfl, _⟩ | ⟨hf, _, _, _, _, rfl, _⟩
  · refine ⟨by simp [hitStep_table_status, hs], ?_, ?_⟩
    · rw [hitStep_table_modified]
      by_cases hm : mode = 'w' <;> simp [hs, hm]
    · intro j hj
      left
      simp [hitStep_table_status, hitStep_table_modified, hj]
  · have hs : (s.table pno).status ≠ IN_MEMORY := by
      rcases hf with hf | hf <;> rw [hf] <;> decide
    refine ⟨by simp [freeStep_table_status], ?_, ?_⟩
    · simp [freeStep_table_modified, hs]
    · intro j hj
      left
      simp [freeStep_table_status, freeStep_table_modified, hj]
  · have hs : (s.table pno).status ≠ IN_MEMORY := by
      rcases hf with hf | hf <;> rw [hf] <;> decide
    refine ⟨by simp [evictStep_table_status], ?_, ?_⟩
    · simp [evictStep_table_modified, hs]
    · intro j hj
      by_cases hv : j = findVictim s pno time
      · right
        simp [evictStep_table_status, evictStep_table_modified, hj, ← hv]
      · left
        simp [evictStep_table_status, evictStep_table_modified, hj, hv]

theorem modifiedMeans_step (s s' : State) (a : Access) (f : Int) (hist : List (Access × Bool))
    (h : requestPage s a.pno a.mode a.time = (s', Result.ok f))
    (hm : ModifiedMeans s hist) :
    ModifiedMeans s' ((a, decide ((s.table a.pno).status ≠ IN_MEMORY)) :: hist) := by
  obtain ⟨h1, h2, h3⟩ := requestPage_status_modified s s' a.pno a.mode a.time f h
  intro p
  by_cases hp : p = a.pno
  · subst hp
    rw [h2]
    simp only [writtenSinceLoad, if_true, h1, true_and]
    by_cases hs : (s.table a.pno).status = IN_MEMORY
    · have := hm a.pno
      by_cases hw : a.mode = 'w'
      · simp [hs, hw]
      · simp only [hs, hw, if_true, decide_False, Bool.or_false, Bool.false_or, Bool.not_false,
          Bool.true_and, decide_not, decide_True, Bool.not_true]
        rw [this]
        simp [hs]
    · simp [hs]
  · have hp' : ¬ a.pno = p := fun h => hp h.symm
    simp only [writtenSinceLoad, hp', if_false]
    rcases h3 p hp with ⟨e1, e2⟩ | ⟨e1, e2⟩
    · rw [e1, e2]
      exact hm p
    · rw [e1, e2]
      simp

theorem history_cons (s : State) (a : Access) (rest : List Access) :
    history s (a :: rest)
      = (a, decide ((s.table a.pno).status ≠ IN_MEMORY)) ::
          history (requestPage s a.pno a.mode a.time).1 rest := rfl

theorem modifiedMeans_run (accs : List Access) :
    ∀ (s s' : State) (hist : List (Access × Bool)), run s accs = some s' →
      ModifiedMeans s hist → ModifiedMeans s' ((history s accs).reverse ++ hist) := by
  induction accs with
  | nil =>
    intro s s' hist h hm
    simp only [run, Option.some.injEq] at h
    subst h
    simpa [history] using hm
  | cons a rest ih =>
    intro s s' hist h hm
    obtain ⟨s1, f, h1, h2⟩ := run_cons s s' a rest h
    have := ih s1 s' _ h2 (modifiedMeans_step s s1 a f hist h1 hm)
    rw [history_cons, h1]
    simpa using this

theorem modifiedMeans_init (policy : Policy) (np : Int) (nFrames : Nat) :
    ModifiedMeans (initPageTable policy np nFrames) [] := by
  intro p
  simp [initPageTable, initPTE, writtenSinceLoad]

/-! ## The list of resident pages -/

theorem linked_last_mem {nxt : Int → Int} {last : Int} :
    ∀ {x : Int} {t : List Int}, Linked nxt last x t → last ∈ x :: t := by
  intro x t
  induction t generalizing x with
  | nil =>
    intro h
    simp only [Linked] at h
    simp [h]
  | cons y t ih =>
    intro h
    simp only [Linked] at h
    exact List.mem_cons_of_mem _ (ih h.2)

theorem linked_append (nxt nxt' : Int → Int) (last pno : Int)
    (hn : ∀ j, j ≠ last → nxt' j = nxt j) (hl : nxt' last = pno) :
    ∀ {x : Int} {t : List Int}, Linked nxt last x t → (x :: t).Nodup →
      Linked nxt' pno x (t ++ [pno]) := by
  intro x t
  induction t generalizing x with
  | nil =>
    intro h _
    simp only [Linked] at h
    subst h
    simp [Linked, hl]
  | cons y t ih =>
    intro h hnd
    simp only [Linked] at h
    have hx : x ≠ last := by
      intro hx
      have hm := linked_last_mem h.2
      rw [← hx] at hm
      exact (List.nodup_cons.mp hnd).1 hm
    simp only [List.cons_append, Linked]
    exact ⟨by rw [hn x hx]; exact h.1, ih h.2 (List.nodup_cons.mp hnd).2⟩

theorem linked_congr {nxt nxt' : Int → Int} {last last' : Int}
    (hn : ∀ j, nxt' j = nxt j) (hl : last' = last) {x : Int} {t : List Int}
    (h : Linked nxt last x t) : Linked nxt' last' x t := by
  have : nxt' = nxt := funext hn
  rw [this, hl]
  exact h

theorem queue_cursors_valid {s : State} {L : List Int} (hq : Queue s L) (hc : Core s L)
    (hne : L ≠ []) : validIndex s s.first ∧ validIndex s s.last := by
  cases L with
  | nil => exact absurd rfl hne
  | cons a t =>
    simp only [Queue] at hq
    constructor
    · rw [hq.1]
      exact ((hc.mem a).mp (List.mem_cons_self a t)).1
    · exact ((hc.mem s.last).mp (linked_last_mem hq.2)).1

theorem validIndex_ne_NONE {s : State} {i : Int} (h : validIndex s i) : i ≠ NONE := by
  intro hi
  rw [hi] at h
  exact absurd h.1 (by decide)

/-! ### A hit keeps the invariant -/

theorem core_hit {s : State} {L : List Int} (hc : Core s L) (pno : Int) (mode : Char)
    (time : Int) : Core (hitStep s pno mode time) L where
  nodup := hc.nodup
  mem := by
    intro i
    rw [hc.mem i]
    simp [resident, validIndex, hitStep_nPages, hitStep_table_status]
  len := by rw [hitStep_nUsed]; exact hc.len
  used := by rw [hitStep_nUsed, hitStep_nFrames]; exact hc.used
  frame_lt := by
    intro i hi
    rw [hitStep_table_frame, hitStep_nUsed]
    exact hc.frame_lt i hi
  frame_inj := by
    intro i hi j hj
    rw [hitStep_table_frame, hitStep_table_frame]
    exact hc.frame_inj i hi j hj
  status_ok := by
    intro i
    rw [hitStep_table_status]
    exact hc.status_ok i

theorem queue_hit {s : State} {L : List Int} (hq : Queue s L) (pno : Int) (mode : Char)
    (time : Int) : Queue (hitStep s pno mode time) L := by
  cases L with
  | nil =>
    simp only [Queue] at hq ⊢
    rw [hitStep_first]
    exact hq
  | cons a t =>
    simp only [Queue] at hq ⊢
    rw [hitStep_first]
    refine ⟨hq.1, linked_congr ?_ ?_ hq.2⟩
    · intro j
      exact hitStep_table_next s pno mode time j
    · exact hitStep_last s pno mode time

theorem inv_hit {s : State} (h : Inv s) (pno : Int) (mode : Char) (time : Int) :
    Inv (hitStep s pno mode time) := by
  obtain ⟨hpol, L, hc, hq⟩ := h
  refine ⟨by rw [hitStep_replacePolicy]; exact hpol, L, core_hit hc pno mode time, ?_⟩
  rcases hq with ⟨hq, h2⟩ | ⟨h1, h2, h3⟩
  · left
    refine ⟨queue_hit hq pno mode time, ?_⟩
    rcases h2 with h2 | h2
    · left
      rw [hitStep_nFrames]
      exact h2
    · right
      intro i
      rw [hitStep_table_next]
      exact h2 i
  · right
    rw [hitStep_nFrames, hitStep_first, hitStep_nUsed]
    exact ⟨h1, h2, h3⟩

/-! ### A fault served by a free frame keeps the invariant -/

theorem core_free {s : State} {L : List Int} (hc : Core s L) (pno : Int) (mode : Char)
    (time : Int) (hp : validIndex s pno) (hf : isFault s pno) (hfree : s.nUsed < s.nFrames) :
    Core (freeStep s pno mode time) (L ++ [pno]) := by
  have hs : (s.table pno).status ≠ IN_MEMORY := by
    rcases hf with hf | hf <;> rw [hf] <;> decide
  have hnot : pno ∉ L := fun h => hs ((hc.mem pno).mp h).2
  have hne : ∀ i ∈ L, i ≠ pno := fun i hi h => hnot (h ▸ hi)
  constructor
  · exact List.Nodup.append hc.nodup (List.nodup_singleton pno) (by simpa using hnot)
  · intro i
    simp only [List.mem_append, List.mem_singleton, resident, validIndex, freeStep_nPages,
      freeStep_table_status]
    by_cases hi : i = pno
    · subst hi
      simp [hp.1, hp.2]
    · simp only [hi, or_false, if_false]
      exact hc.mem i
  · simp [freeStep_nUsed, hfree, hc.len]
  · simp only [freeStep_nUsed, hfree, if_true, freeStep_nFrames]
    omega
  · intro i hi
    simp only [freeStep_table_frame, freeStep_nUsed, hfree, if_true]
    rcases List.mem_append.mp hi with hi | hi
    · simp only [hne i hi, if_false]
      have := hc.frame_lt i hi
      constructor
      · exact this.1
      · push_cast
        omega
    · have : i = pno := by simpa using hi
      simp only [this, if_true]
      constructor
      · omega
      · push_cast
        omega
  · intro i hi j hj
    simp only [freeStep_table_frame]
    rcases List.mem_append.mp hi with hi | hi <;> rcases List.mem_append.mp hj with hj | hj
    · simp only [hne i hi, hne j hj, if_false]
      exact hc.frame_inj i hi j hj
    · have ej : j = pno := by simpa using hj
      have := (hc.frame_lt i hi).2
      simp only [hne i hi, ej, if_false, if_true]
      intro h
      omega
    · have ei : i = pno := by simpa using hi
      have := (hc.frame_lt j hj).2
      simp only [hne j hj, ei, if_false, if_true]
      intro h
      omega
    · have ei : i = pno := by simpa using hi
      have ej : j = pno := by simpa using hj
      intro _
      rw [ei, ej]
  · intro i
    rw [freeStep_table_status]
    by_cases hi : i = pno
    · simp [hi]
    · simp only [hi, if_false]
      exact hc.status_ok i

theorem queue_free {s : State} {L : List Int} (hq : Queue s L) (hc : Core s L) (pno : Int)
    (mode : Char) (time : Int) : Queue (freeStep s pno mode time) (L ++ [pno]) := by
  cases L with
  | nil =>
    simp only [Queue] at hq
    simp [Queue, Linked, freeStep_first, freeStep_last, hq]
  | cons a t =>
    have hv := queue_cursors_valid hq hc (List.cons_ne_nil a t)
    have hne : s.first ≠ NONE := validIndex_ne_NONE hv.1
    simp only [Queue] at hq
    simp only [List.cons_append, Queue, freeStep_first, hne, if_false, freeStep_last]
    refine ⟨hq.1, linked_append _ _ s.last pno ?_ ?_ hq.2 hc.nodup⟩
    · intro j hj
      simp [freeStep_table_next, hj]
    · simp [freeStep_table_next, hne]

theorem inv_free {s : State} (h : Inv s) (pno : Int) (mode : Char) (time : Int)
    (hp : validIndex s pno) (hf : isFault s pno) (hfree : s.nUsed < s.nFrames) :
    Inv (freeStep s pno mode time) := by
  obtain ⟨hpol, L, hc, hq⟩ := h
  refine ⟨by rw [freeStep_replacePolicy]; exact hpol, L ++ [pno],
    core_free hc pno mode time hp hf hfree, ?_⟩
  rcases hq with ⟨hq, h2⟩ | ⟨_, _, h3⟩
  · left
    refine ⟨queue_free hq hc pno mode time, ?_⟩
    rcases h2 with h2 | h2
    · left
      rw [freeStep_nFrames]
      exact h2
    · by_cases hN : 2 ≤ s.nFrames
      · left
        rw [freeStep_nFrames]
        exact hN
      · right
        have hL : L = [] := by
          apply List.eq_nil_of_length_eq_zero
          have := hc.len
          omega
        subst hL
        simp only [Queue] at hq
        intro i
        simp [freeStep_table_next, hq, h2 i]
  · omega

/-! ### A fault served by evicting the head of the list keeps the invariant -/

theorem findVictim_of_list {s : State} (hpol : s.replacePolicy ≠ Policy.REPL_CLOCK)
    (pno time : Int) : findVictim s pno time = s.first := by
  unfold findVictim
  cases hp : s.replacePolicy with
  | REPL_LRU => rfl
  | REPL_FIFO => rfl
  | REPL_CLOCK => exact absurd hp hpol

theorem core_evict {s : State} {a : Int} {t : List Int} (hc : Core s (a :: t)) (pno : Int)
    (mode : Char) (time : Int) (hp : validIndex s pno) (hf : isFault s pno)
    (hfull : s.nFrames ≤ s.nUsed) (hv : findVictim s pno time = a) :
    Core (evictStep s pno mode time) (t ++ [pno]) := by
  have hs : (s.table pno).status ≠ IN_MEMORY := by
    rcases hf with hf | hf <;> rw [hf] <;> decide
  have hnot : pno ∉ a :: t := fun h => hs ((hc.mem pno).mp h).2
  have hat : a ∉ t := (List.nodup_cons.mp hc.nodup).1
  have hnd : t.Nodup := (List.nodup_cons.mp hc.nodup).2
  have hpa : pno ≠ a := fun h => hnot (h ▸ List.mem_cons_self a t)
  have hpt : pno ∉ t := fun h => hnot (List.mem_cons_of_mem _ h)
  have hne : ∀ i ∈ t, i ≠ pno ∧ i ≠ a :=
    fun i hi => ⟨fun h => hpt (h ▸ hi), fun h => hat (h ▸ hi)⟩
  have hfreeN : ¬ s.nUsed < s.nFrames := not_lt.mpr hfull
  constructor
  · exact List.Nodup.append hnd (List.nodup_singleton pno) (by simpa using hpt)
  · intro i
    simp only [List.mem_append, List.mem_singleton, resident, validIndex, evictStep_nPages,
      evictStep_table_status, hv]
    by_cases hi : i = pno
    · subst hi
      simp [hp.1, hp.2]
    · by_cases hia : i = a
      · subst hia
        simp [hi, hat]
      · simp only [hi, or_false, if_false, hia]
        have := hc.mem i
        simp only [List.mem_cons, hia, false_or, resident, validIndex] at this
        exact this
  · have hlen := hc.len
    simp only [List.length_cons] at hlen
    rw [evictStep_nUsed, if_neg hfreeN, List.length_append, List.length_singleton, hlen]
  · simp only [evictStep_nUsed, hfreeN, if_false, evictStep_nFrames]
    exact hc.used
  · intro i hi
    simp only [evictStep_table_frame, evictStep_nUsed, hfreeN, if_false, hv]
    rcases List.mem_append.mp hi with hi | hi
    · simp only [(hne i hi).1, (hne i hi).2, if_false]
      exact hc.frame_lt i (List.mem_cons_of_mem _ hi)
    · have : i = pno := by simpa using hi
      simp only [this, if_true]
      exact hc.frame_lt a (List.mem_cons_self a t)
  · intro i hi j hj
    simp only [evictStep_table_frame, hv]
    rcases List.mem_append.mp hi with hi | hi <;> rcases List.mem_append.mp hj with hj | hj
    · simp only [(hne i hi).1, (hne i hi).2, (hne j hj).1, (hne j hj).2, if_false]
      exact hc.frame_inj i (List.mem_cons_of_mem _ hi) j (List.mem_cons_of_mem _ hj)
    · have ej : j = pno := by simpa using hj
      simp only [(hne i hi).1, (hne i hi).2, ej, if_false, if_true]
      intro h
      exact absurd (hc.frame_inj i (List.mem_cons_of_mem _ hi) a (List.mem_cons_self a t) h)
        (hne i hi).2
    · have ei : i = pno := by simpa using hi
      simp only [(hne j hj).1, (hne j hj).2, ei, if_false, if_true]
      intro h
      exact absurd (hc.frame_inj j (List.mem_cons_of_mem _ hj) a (List.mem_cons_self a t) h.symm)
        (hne j hj).2
    · have ei : i = pno := by simpa using hi
      have ej : j = pno := by simpa using hj
      intro _
      rw [ei, ej]
  · intro i
    rw [evictStep_table_status]
    by_cases hi : i = pno
    · simp [hi]
    · by_cases hia : i = findVictim s pno time
      · right
        right
        subst hia
        simp only [hi, if_false, if_true]
      · simp only [hi, hia, if_false]
        exact hc.status_ok i

theorem inv_evict {s : State} (h : Inv s) (pno : Int) (mode : Char) (time : Int)
    (hp : validIndex s pno) (hf : isFault s pno) (hfull : s.nFrames ≤ s.nUsed)
    (h1 : validIndex s s.first) :
    Inv (evictStep s pno mode time) := by
  obtain ⟨hpol, L, hc, hq⟩ := h
  have hvic := findVictim_of_list hpol pno time
  rcases hq with ⟨hq, h2⟩ | ⟨_, hnone, _⟩
  swap
  · exact absurd hnone (validIndex_ne_NONE h1)
  cases L with
  | nil =>
    simp only [Queue] at hq
    exact absurd hq (validIndex_ne_NONE h1)
  | cons a t =>
    have hq' := hq
    simp only [Queue] at hq
    have hcore := core_evict hc pno mode time hp hf hfull (hvic.trans hq.1)
    refine ⟨by rw [evictStep_replacePolicy]; exact hpol, t ++ [pno], hcore, ?_⟩
    have hlen := hc.len
    have hused := hc.used
    cases t with
    | nil =>
      right
      simp only [List.length_cons, List.length_nil] at hlen
      have hN : s.nFrames = 1 := by omega
      have hnext : ∀ i, (s.table i).next = NONE := by
        rcases h2 with h2 | h2
        · omega
        · exact h2
      have hfreeN : ¬ s.nUsed < s.nFrames := not_lt.mpr hfull
      simp only [evictStep_nFrames, evictStep_first, evictStep_nUsed, hfreeN, if_false]
      exact ⟨by omega, hnext _, by omega⟩
    | cons b t' =>
      left
      simp only [Linked] at hq
      have hN : 2 ≤ s.nFrames := by
        simp only [List.length_cons] at hlen
        omega
      refine ⟨?_, Or.inl (by rw [evictStep_nFrames]; exact hN)⟩
      simp only [List.cons_append, Queue, evictStep_first, evictStep_last]
      refine ⟨by rw [hq.1]; exact hq.2.1, ?_⟩
      refine linked_append _ _ s.last pno ?_ ?_ hq.2.2 (List.nodup_cons.mp hc.nodup).2
      · intro j hj
        simp [evictStep_table_next, hj]
      · simp [evictStep_table_next]

/-! ### The invariant along a run -/

theorem inv_init (policy : Policy) (np : Int) (nFrames : Nat)
    (hpol : policy ≠ Policy.REPL_CLOCK) : Inv (initPageTable policy np nFrames) := by
  refine ⟨hpol, [], ?_, Or.inl ⟨rfl, Or.inr (fun _ => rfl)⟩⟩
  constructor
  · exact List.nodup_nil
  · intro i
    simp [resident, initPageTable, initPTE]
  · rfl
  · exact Nat.zero_le _
  · intro i hi
    simp at hi
  · intro i hi
    simp at hi
  · intro i
    left
    rfl

theorem inv_step {s s' : State} (h : Inv s) (pno : Int) (mode : Char) (time f : Int)
    (hr : requestPage s pno mode time = (s', Result.ok f)) : Inv s' := by
  obtain ⟨hp, hc⟩ := requestPage_ok_cases s s' pno mode time f hr
  rcases hc with ⟨_, rfl, _⟩ | ⟨hf, hfree, _, rfl, _⟩ | ⟨hf, hfull, _, h1, _, rfl, _⟩
  · exact inv_hit h pno mode time
  · exact inv_free h pno mode time hp hf hfree
  · exact inv_evict h pno mode time hp hf hfull h1

theorem inv_run (accs : List Access) :
    ∀ (s s' : State), Inv s → run s accs = some s' → Inv s' := by
  induction accs with
  | nil =>
    intro s s' h hr
    simp only [run, Option.some.injEq] at hr
    exact hr ▸ h
  | cons a rest ih =>
    intro s s' h hr
    obtain ⟨s1, f, h1, h2⟩ := run_cons s s' a rest hr
    exact ih s1 s' (inv_step h a.pno a.mode a.time f h1) h2

/-! ### Parameters are constant, and calls return -/

theorem requestPage_params (s s' : State) (pno : Int) (mode : Char) (time f : Int)
    (h : requestPage s pno mode time = (s', Result.ok f)) :
    s'.nPages = s.nPages ∧ s'.nFrames = s.nFrames ∧ s'.replacePolicy = s.replacePolicy := by
  obtain ⟨_, hc⟩ := requestPage_ok_cases s s' pno mode time f h
  rcases hc with ⟨_, rfl, _⟩ | ⟨_, _, _, rfl, _⟩ | ⟨_, _, _, _, _, rfl, _⟩
  · exact ⟨hitStep_nPages .., hitStep_nFrames .., hitStep_replacePolicy ..⟩
  · exact ⟨freeStep_nPages .., freeStep_nFrames .., freeStep_replacePolicy ..⟩
  · exact ⟨evictStep_nPages .., evictStep_nFrames .., evictStep_replacePolicy ..⟩

theorem run_params (accs : List Access) :
    ∀ (s s' : State), run s accs = some s' →
      s'.nPages = s.nPages ∧ s'.nFrames = s.nFrames ∧ s'.replacePolicy = s.replacePolicy := by
  induction accs with
  | nil =>
    intro s s' h
    simp only [run, Option.some.injEq] at h
    subst h
    exact ⟨rfl, rfl, rfl⟩
  | cons a rest ih =>
    intro s s' h
    obtain ⟨s1, f, h1, h2⟩ := run_cons s s' a rest h
    obtain ⟨e1, e2, e3⟩ := requestPage_params s s1 a.pno a.mode a.time f h1
    obtain ⟨d1, d2, d3⟩ := ih s1 s' h2
    exact ⟨d1.trans e1, d2.trans e2, d3.trans e3⟩

/-- With two frames or more the cursors always delimit the list. -/
theorem inv_queue {s : State} (h : Inv s) (hN : 2 ≤ s.nFrames) : ∃ L, Core s L ∧ Queue s L := by
  obtain ⟨_, L, hc, hq⟩ := h
  rcases hq with ⟨hq, _⟩ | ⟨h1, _, _⟩
  · exact ⟨L, hc, hq⟩
  · omega

/-- With two frames or more, a fault without a free frame finds the head of a
list of at least two resident pages. -/
theorem inv_victim {s : State} (h : Inv s) (hN : 2 ≤ s.nFrames) (hfull : s.nFrames ≤ s.nUsed)
    (pno time : Int) :
    s.first ≠ NONE ∧ findVictim s pno time = s.first ∧ resident s s.first ∧
    validIndex s s.last ∧ 0 ≤ (s.table s.first).frame ∧
    (s.table s.first).frame < (s.nFrames : Int) := by
  have hpol := h.1
  obtain ⟨L, hc, hq⟩ := inv_queue h hN
  have hlen := hc.len
  have hused := hc.used
  cases L with
  | nil =>
    simp only [List.length_nil] at hlen
    omega
  | cons a t =>
    have hv := queue_cursors_valid hq hc (List.cons_ne_nil a t)
    simp only [Queue] at hq
    have ha := (hc.mem a).mp (List.mem_cons_self a t)
    have hfr := hc.frame_lt a (List.mem_cons_self a t)
    rw [hq.1]
    refine ⟨validIndex_ne_NONE ha.1, ?_, ha, hv.2, hfr.1, ?_⟩
    · rw [findVictim_of_list hpol, hq.1]
    · have : (s.nUsed : Int) ≤ (s.nFrames : Int) := by exact_mod_cast hused
      omega

theorem inv_returns {s : State} (h : Inv s) (hN : 2 ≤ s.nFrames) (pno : Int) (mode : Char)
    (time : Int) (hp : validIndex s pno) :
    ∃ s' f, requestPage s pno mode time = (s', Result.ok f) := by
  by_cases hs : (s.table pno).status = IN_MEMORY
  · exact ⟨_, _, requestPage_hit s pno mode time hp hs⟩
  obtain ⟨L, hc, hq⟩ := inv_queue h hN
  have hf : isFault s pno := by
    rcases hc.status_ok pno with h0 | h1 | h2
    · exact Or.inl h0
    · exact absurd h1 hs
    · exact Or.inr h2
  by_cases hfree : s.nUsed < s.nFrames
  · refine ⟨_, _, requestPage_free s pno mode time hp hf hfree ?_⟩
    cases L with
    | nil => exact Or.inl hq
    | cons a t => exact Or.inr (queue_cursors_valid hq hc (List.cons_ne_nil a t)).2
  · have hfull : s.nFrames ≤ s.nUsed := not_lt.mp hfree
    obtain ⟨_, hv, hr, hl, _⟩ := inv_victim h hN hfull pno time
    exact ⟨_, _, requestPage_evict s pno mode time hp hf hfull (hv ▸ hr.1) hr.1 hl⟩

theorem inv_run_returns (accs : List Access) :
    ∀ (s : State), Inv s → 2 ≤ s.nFrames → (∀ a ∈ accs, validIndex s a.pno) →
      ∃ s', run s accs = some s' := by
  induction accs with
  | nil =>
    intro s _ _ _
    exact ⟨s, rfl⟩
  | cons a rest ih =>
    intro s h hN hacc
    obtain ⟨s1, f, h1⟩ := inv_returns h hN a.pno a.mode a.time (hacc a (List.mem_cons_self a rest))
    obtain ⟨e1, e2, _⟩ := requestPage_params s s1 a.pno a.mode a.time f h1
    have hacc' : ∀ b ∈ rest, validIndex s1 b.pno := by
      intro b hb
      have := hacc b (List.mem_cons_of_mem _ hb)
      simpa [validIndex, e1] using this
    obtain ⟨s', h2⟩ := ih s1 (inv_step h a.pno a.mode a.time f h1) (by rw [e2]; exact hN) hacc'
    exact ⟨s', by rw [run_cons_of_ok s s1 a rest f h1]; exact h2⟩

/-! ### Counting the resident pages -/

theorem mem_residentList (s : State) (i : Int) : i ∈ residentList s ↔ resident s i := by
  simp only [residentList, List.mem_filter, List.mem_map, List.mem_range, decide_eq_true_eq,
    resident, validIndex]
  constructor
  · rintro ⟨⟨k, hk, rfl⟩, hs⟩
    refine ⟨⟨Int.ofNat_nonneg k, ?_⟩, hs⟩
    have : (k : Int) < (s.nPages.toNat : Int) := by exact_mod_cast hk
    have h2 : (s.nPages.toNat : Int) = max s.nPages 0 := Int.toNat_eq_max s.nPages
    omega
  · rintro ⟨⟨h0, h1⟩, hs⟩
    refine ⟨⟨i.toNat, ?_, ?_⟩, hs⟩
    · apply (Int.toNat_lt h0).mpr
      have h2 : (s.nPages.toNat : Int) = max s.nPages 0 := Int.toNat_eq_max s.nPages
      omega
    · exact Int.toNat_of_nonneg h0

theorem nodup_residentList (s : State) : (residentList s).Nodup := by
  unfold residentList
  apply List.Nodup.filter
  apply List.Nodup.map
  · intro a b h
    exact Int.ofNat.inj h
  · exact List.nodup_range _

theorem core_count {s : State} {L : List Int} (hc : Core s L) : residentCount s = s.nUsed := by
  unfold residentCount
  rw [← hc.len]
  apply List.Perm.length_eq
  apply (List.perm_ext_iff_of_nodup (nodup_residentList s) hc.nodup).mpr
  intro i
  rw [mem_residentList, hc.mem]

/-! ## The replacement policies (C1 - C5) -/

/-- C1 (LRU ordering law), evaluated on an input where the code departs from
it.  Three pages, two frames, policy `REPL_LRU`: after `read(0,1)`, `read(1,2)`
and the hit `read(0,3)`, the call `read(2,4)` faults with no free frame and
`findVictim` names page 0, whose `accessTime` is 3, although the resident page
1 was accessed last at time 2; the call then evicts page 0 and keeps page 1. -/
theorem lru_victim_not_least_recently_used :
    ∃ s, run (initPageTable Policy.REPL_LRU 3 2) [⟨0, 'r', 1⟩, ⟨1, 'r', 2⟩, ⟨0, 'r', 3⟩] = some s ∧
      validIndex s 2 ∧ isFault s 2 ∧ s.nFrames ≤ s.nUsed ∧
      findVictim (afterFindFree s) 2 4 = 0 ∧
      resident s 0 ∧ (s.table 0).accessTime = 3 ∧
      resident s 1 ∧ (s.table 1).accessTime = 2 ∧
      ((requestPage s 2 'r' 4).1.table 0).status = ON_DISK ∧
      ((requestPage s 2 'r' 4).1.table 1).status = IN_MEMORY :=
  ⟨_, rfl, by decide, by decide, by decide, by decide, by decide, by decide, by decide,
    by decide, by decide, by decide⟩

/-- C2 (FIFO ordering law), evaluated on an input where the code departs from
it.  Two pages, one frame, policy `REPL_FIFO`: after `read(0,1)` and `read(1,2)`
page 1 is resident, yet the next fault `read(0,3)` finds no free frame and
`findVictim` returns `NONE`, which is no page at all; the call indexes the
table out of bounds. -/
theorem fifo_one_frame_victim_is_none :
    ∃ s, run (initPageTable Policy.REPL_FIFO 2 1) [⟨0, 'r', 1⟩, ⟨1, 'r', 2⟩] = some s ∧
      validIndex s 0 ∧ isFault s 0 ∧ s.nFrames ≤ s.nUsed ∧
      resident s 1 ∧ (s.table 1).loadTime = 2 ∧
      findVictim (afterFindFree s) 0 3 = NONE ∧
      ¬ resident s (findVictim (afterFindFree s) 0 3) ∧
      (requestPage s 0 'r' 3).2 = Result.outOfBounds :=
  ⟨_, rfl, by decide, by decide, by decide, by decide, by decide, by decide, by decide,
    by decide⟩

/-- C3 (victim is always resident) fails for `REPL_CLOCK`.  Three pages, two
frames: after `read(1,1)` and `read(2,2)` the call `read(0,3)` faults with no
free frame, and `findVictim` returns page 0, which is `NOT_USED` and holds the
frame `NONE`. -/
theorem clock_victim_not_resident :
    ∃ s, run (initPageTable Policy.REPL_CLOCK 3 2) [⟨1, 'r', 1⟩, ⟨2, 'r', 2⟩] = some s ∧
      validIndex s 0 ∧ isFault s 0 ∧ s.nFrames ≤ s.nUsed ∧
      findVictim (afterFindFree s) 0 3 = 0 ∧
      (s.table (findVictim (afterFindFree s) 0 3)).status = NOT_USED ∧
      ¬ resident s (findVictim (afterFindFree s) 0 3) ∧
      (s.table (findVictim (afterFindFree s) 0 3)).frame = NONE :=
  ⟨_, rfl, by decide, by decide, by decide, by decide, by decide, by decide, by decide⟩

/-- C3, amended to the list policies with two frames or more.  For `REPL_LRU`
and `REPL_FIFO`, a frame pool of `N ≥ 2` frames and every sequence of calls
with pages in `[0, nPages)`: every call returns, and in the state reached,
whenever a further call faults with no free frame, the list is non-empty
(`first ≠ NONE`) and the page `findVictim` returns is a valid index whose entry
is `IN_MEMORY` and whose frame is a frame of the pool, not `NONE`. -/
theorem victim_resident_list_policies (policy : Policy)
    (hpol : policy = Policy.REPL_LRU ∨ policy = Policy.REPL_FIFO)
    (np : Int) (N : Nat) (hN : 2 ≤ N) (accs : List Access)
    (hacc : ∀ a ∈ accs, 0 ≤ a.pno ∧ a.pno < np) :
    ∃ s, run (initPageTable policy np N) accs = some s ∧
      ∀ pno time : Int, validIndex s pno → isFault s pno → s.nFrames ≤ s.nUsed →
        s.first ≠ NONE ∧
        resident s (findVictim (afterFindFree s) pno time) ∧
        (s.table (findVictim (afterFindFree s) pno time)).frame ≠ NONE ∧
        0 ≤ (s.table (findVictim (afterFindFree s) pno time)).frame ∧
        (s.table (findVictim (afterFindFree s) pno time)).frame < (N : Int) := by
  have hclock : policy ≠ Policy.REPL_CLOCK := by
    rcases hpol with h | h <;> rw [h] <;> decide
  have hinit := inv_init policy np N hclock
  obtain ⟨s, hs⟩ := inv_run_returns accs (initPageTable policy np N) hinit hN
    (fun a ha => hacc a ha)
  have hinv := inv_run accs _ s hinit hs
  obtain ⟨_, hfr, _⟩ := run_params accs _ s hs
  have hfr' : s.nFrames = N := hfr
  refine ⟨s, hs, ?_⟩
  intro pno time _ _ hfull
  obtain ⟨h1, h2, h3, _, h5, h6⟩ := inv_victim hinv (by omega) hfull pno time
  rw [findVictim_afterFindFree, h2]
  refine ⟨h1, h3, ?_, h5, by rw [← hfr']; exact h6⟩
  intro h
  rw [h] at h5
  exact absurd h5 (by decide)

/-- C3, amended, at a concrete input: `REPL_FIFO`, three pages, two frames,
`read(0,1)`, `write(1,2)`, `read(2,3)`. -/
theorem victim_resident_list_policies_witness :
    ∃ s, run (initPageTable Policy.REPL_FIFO 3 2) [⟨0, 'r', 1⟩, ⟨1, 'w', 2⟩, ⟨2, 'r', 3⟩]
        = some s ∧
      ∀ pno time : Int, validIndex s pno → isFault s pno → s.nFrames ≤ s.nUsed →
        s.first ≠ NONE ∧
        resident s (findVictim (afterFindFree s) pno time) ∧
        (s.table (findVictim (afterFindFree s) pno time)).frame ≠ NONE ∧
        0 ≤ (s.table (findVictim (afterFindFree s) pno time)).frame ∧
        (s.table (findVictim (afterFindFree s) pno time)).frame < ((2 : Nat) : Int) :=
  victim_resident_list_policies Policy.REPL_FIFO (Or.inr rfl) 3 2 (by decide)
    [⟨0, 'r', 1⟩, ⟨1, 'w', 2⟩, ⟨2, 'r', 3⟩] (by decide)

/-- C4 (residency bijection) fails for `REPL_CLOCK`.  Three pages, two frames:
`read(1,1)`, `read(2,2)`, `read(0,3)` all return, and afterwards three pages
are `IN_MEMORY` although the pool has two frames, and the resident page 0
holds the frame `NONE`, which is no frame index in `[0, 2)`. -/
theorem clock_breaks_residency :
    ∃ s, run (initPageTable Policy.REPL_CLOCK 3 2) [⟨1, 'r', 1⟩, ⟨2, 'r', 2⟩, ⟨0, 'r', 3⟩]
        = some s ∧
      resident s 0 ∧ (s.table 0).frame = NONE ∧ ¬ (0 ≤ (s.table 0).frame) ∧
      residentCount s = 3 ∧ ¬ (residentCount s ≤ 2) :=
  ⟨_, rfl, by decide, by decide, by decide, by decide, by decide⟩

/-- C4, amended to the list policies.  For `REPL_LRU` and `REPL_FIFO`, every
frame-pool size `N` and every sequence of calls, in every state reached from
`initPageTable` by calls that all return: no two `IN_MEMORY` pages have the
same frame, the frame of every `IN_MEMORY` page is a frame index in `[0, N)`,
and at most `N` pages are `IN_MEMORY`. -/
theorem residency_bijection_list_policies (policy : Policy)
    (hpol : policy = Policy.REPL_LRU ∨ policy = Policy.REPL_FIFO)
    (np : Int) (N : Nat) (accs : List Access) (s : State)
    (h : run (initPageTable policy np N) accs = some s) :
    (∀ i j, resident s i → resident s j → (s.table i).frame = (s.table j).frame → i = j) ∧
    (∀ i, resident s i → 0 ≤ (s.table i).frame ∧ (s.table i).frame < (N : Int)) ∧
    residentCount s ≤ N := by
  have hclock : policy ≠ Policy.REPL_CLOCK := by
    rcases hpol with h | h <;> rw [h] <;> decide
  have hinv := inv_run accs _ s (inv_init policy np N hclock) h
  obtain ⟨_, hfr, _⟩ := run_params accs _ s h
  have hfr' : s.nFrames = N := hfr
  obtain ⟨_, L, hc, _⟩ := hinv
  have hused : (s.nUsed : Int) ≤ (N : Int) := by
    have := hc.used
    rw [hfr'] at this
    exact_mod_cast this
  refine ⟨?_, ?_, ?_⟩
  · intro i j hi hj
    exact hc.frame_inj i ((hc.mem i).mpr hi) j ((hc.mem j).mpr hj)
  · intro i hi
    have := hc.frame_lt i ((hc.mem i).mpr hi)
    exact ⟨this.1, by omega⟩
  · rw [core_count hc, ← hfr']
    exact hc.used

/-- C4, amended, at a concrete input: `REPL_LRU`, three pages, two frames,
`read(0,1)`, `read(1,2)`, `read(2,3)`. -/
theorem residency_bijection_list_policies_witness :
    ∃ s, run (initPageTable Policy.REPL_LRU 3 2) [⟨0, 'r', 1⟩, ⟨1, 'r', 2⟩, ⟨2, 'r', 3⟩]
        = some s ∧
      (∀ i j, resident s i → resident s j → (s.table i).frame = (s.table j).frame → i = j) ∧
      (∀ i, resident s i → 0 ≤ (s.table i).frame ∧ (s.table i).frame < ((2 : Nat) : Int)) ∧
      residentCount s ≤ 2 :=
  ⟨_, rfl, residency_bijection_list_policies Policy.REPL_LRU (Or.inl rfl) 3 2
    [⟨0, 'r', 1⟩, ⟨1, 'r', 2⟩, ⟨2, 'r', 3⟩] _ rfl⟩

/-- C5 (ordering-structure invariant), evaluated on an input where the code
departs from it.  Two pages, one frame, policy `REPL_LRU`: after `read(0,1)`
and `read(1,2)` page 1 is `IN_MEMORY`, yet the cursor `first` is `NONE`, so the
list reached from `first` is empty and does not contain page 1. -/
theorem one_frame_list_loses_resident_page :
    ∃ s, run (initPageTable Policy.REPL_LRU 2 1) [⟨0, 'r', 1⟩, ⟨1, 'r', 2⟩] = some s ∧
      resident s 1 ∧ s.first = NONE ∧ s.last = 1 :=
  ⟨_, rfl, by decide, by decide, by decide⟩

/-! ## Single calls and counters (C6 - C10) -/

/-- C6 (save-on-evict law).  A call that faults with no free frame and whose
victim is a valid page makes these collaborator calls, in this order: the
fault count, `findFreeFrame`, then `saveFrame` on the victim's frame exactly
when the victim's `modified` flag is set, then `loadFrame` into that frame
(which is reached when the list cursors are valid indices); so `saveFrame` is
called once before `loadFrame` for a modified victim and not at all
otherwise.  A call that hits, and a call that faults while a frame is free,
never call `saveFrame`.  Scenario: with three pages and two frames,
`write(0,1)`, `read(1,2)` and then `read(2,3)`, which evicts page 0, issue
exactly one save; with `read(0,1)` in place of the write, none. -/
theorem save_on_evict (s : State) (pno : Int) (mode : Char) (time : Int) :
    (validIndex s pno → isFault s pno → s.nFrames ≤ s.nUsed →
      validIndex s (findVictim (afterFindFree s) pno time) →
        callEvents s pno mode time
          = [Event.countPageFault, Event.findFreeFrame] ++
            (if (s.table (findVictim (afterFindFree s) pno time)).modified = true
              then [Event.saveFrame (s.table (findVictim (afterFindFree s) pno time)).frame]
              else []) ++
            (if validIndex s s.first ∧ validIndex s s.last
              then [Event.loadFrame (s.table (findVictim (afterFindFree s) pno time)).frame
                      pno time]
              else []) ∧
        (callEvents s pno mode time).filter Event.isSave
          = (if (s.table (findVictim (afterFindFree s) pno time)).modified = true
              then [Event.saveFrame (s.table (findVictim (afterFindFree s) pno time)).frame]
              else [])) ∧
    (validIndex s pno → (s.table pno).status = IN_MEMORY →
      (callEvents s pno mode time).filter Event.isSave = []) ∧
    (validIndex s pno → isFault s pno → s.nUsed < s.nFrames →
      (callEvents s pno mode time).filter Event.isSave = []) ∧
    callEvents
        (requestPage (requestPage (initPageTable Policy.REPL_LRU 3 2) 0 'w' 1).1 1 'r' 2).1
        2 'r' 3
      = [Event.countPageFault, Event.findFreeFrame, Event.saveFrame 0,
          Event.loadFrame 0 2 3] ∧
    callEvents
        (requestPage (requestPage (initPageTable Policy.REPL_LRU 3 2) 0 'r' 1).1 1 'r' 2).1
        2 'r' 3
      = [Event.countPageFault, Event.findFreeFrame, Event.loadFrame 0 2 3] := by
  refine ⟨?_, ?_, ?_, by decide, by decide⟩
  · intro hp hf hfull hv
    rw [findVictim_afterFindFree] at hv ⊢
    rw [callEvents_evict s pno mode time hp hf hfull hv]
    refine ⟨rfl, ?_⟩
    by_cases hm : (s.table (findVictim s pno time)).modified = true <;>
      by_cases hc : validIndex s s.first ∧ validIndex s s.last <;>
      simp [hm, hc, List.filter, Event.isSave]
  · intro hp hs
    rw [callEvents_hit s pno mode time hp hs]
    rfl
  · intro hp hf hfree
    rw [callEvents_free s pno mode time hp hf hfree]
    rfl

/-- C6 at a concrete input: the victim of the call `read(2,3)` after
`write(0,1)`, `read(1,2)` is the modified page 0. -/
theorem save_on_evict_witness :
    (callEvents
        (requestPage (requestPage (initPageTable Policy.REPL_LRU 3 2) 0 'w' 1).1 1 'r' 2).1
        2 'r' 3).filter Event.isSave = [Event.saveFrame 0] :=
  ((save_on_evict
      (requestPage (requestPage (initPageTable Policy.REPL_LRU 3 2) 0 'w' 1).1 1 'r' 2).1
      2 'r' 3).1 (by decide) (by decide) (by decide) (by decide)).2

/-- C7 (meaning of the modified flag).  After every sequence of calls that all
return, started from `initPageTable` under any policy and any frame-pool size,
and for every page `p`: the `modified` flag of `p` is set if and only if `p` is
`IN_MEMORY` and some call at or after the most recent load of `p` wrote `p`
(the call that loaded it counts).  In particular the flag is clear for every
`NOT_USED` and every `ON_DISK` page. -/
theorem modified_flag_meaning (policy : Policy) (np : Int) (N : Nat) (accs : List Access)
    (s : State) (h : run (initPageTable policy np N) accs = some s) (p : Int) :
    ((s.table p).modified = true ↔
      ((s.table p).status = IN_MEMORY ∧
        writtenSinceLoad (history (initPageTable policy np N) accs).reverse p = true)) ∧
    ((s.table p).status = NOT_USED ∨ (s.table p).status = ON_DISK →
      (s.table p).modified = false) := by
  have hm := modifiedMeans_run accs _ s [] h (modifiedMeans_init policy np N)
  rw [List.append_nil] at hm
  refine ⟨hm p, ?_⟩
  intro hs
  have hne : (s.table p).status ≠ IN_MEMORY := by
    rcases hs with hs | hs <;> rw [hs] <;> decide
  cases hmod : (s.table p).modified with
  | false => rfl
  | true => exact absurd ((hm p).mp hmod).1 hne

/-- C7 at a concrete input: `write(0,1)`, `read(1,2)`, `read(0,3)`, `read(2,4)`
with two frames under `REPL_FIFO`; page 0 is evicted by the last call. -/
theorem modified_flag_meaning_witness :
    ∃ s, run (initPageTable Policy.REPL_FIFO 3 2)
        [⟨0, 'w', 1⟩, ⟨1, 'r', 2⟩, ⟨0, 'r', 3⟩, ⟨2, 'r', 4⟩] = some s ∧
      (((s.table 0).modified = true ↔
        ((s.table 0).status = IN_MEMORY ∧
          writtenSinceLoad (history (initPageTable Policy.REPL_FIFO 3 2)
            [⟨0, 'w', 1⟩, ⟨1, 'r', 2⟩, ⟨0, 'r', 3⟩, ⟨2, 'r', 4⟩]).reverse 0 = true)) ∧
      ((s.table 0).status = NOT_USED ∨ (s.table 0).status = ON_DISK →
        (s.table 0).modified = false)) :=
  ⟨_, rfl, modified_flag_meaning Policy.REPL_FIFO 3 2
    [⟨0, 'w', 1⟩, ⟨1, 'r', 2⟩, ⟨0, 'r', 3⟩, ⟨2, 'r', 4⟩] _ rfl 0⟩

/-- C8 (fault/hit exclusivity).  A call with page in `[0, nPages)` whose entry
has one of the three statuses calls exactly one of `countPageFault` and
`countPageHit`, exactly once, and it is `countPageFault` if and only if the
status at entry was not `IN_MEMORY`.  This holds also for a call that stops
later on an out-of-bounds index. -/
theorem fault_hit_exclusive (s : State) (pno : Int) (mode : Char) (time : Int)
    (hp : validIndex s pno)
    (hst : (s.table pno).status = NOT_USED ∨ (s.table pno).status = IN_MEMORY ∨
      (s.table pno).status = ON_DISK) :
    (callEvents s pno mode time).count Event.countPageFault
      + (callEvents s pno mode time).count Event.countPageHit = 1 ∧
    ((callEvents s pno mode time).count Event.countPageFault = 1 ↔
      (s.table pno).status ≠ IN_MEMORY) := by
  by_cases hs : (s.table pno).status = IN_MEMORY
  · rw [callEvents_hit s pno mode time hp hs]
    simp [hs]
  · have hf : isFault s pno := by
      rcases hst with h | h | h
      · exact Or.inl h
      · exact absurd h hs
      · exact Or.inr h
    by_cases hfree : s.nUsed < s.nFrames
    · rw [callEvents_free s pno mode time hp hf hfree]
      simp [hs]
    · have hfull : s.nFrames ≤ s.nUsed := not_lt.mp hfree
      by_cases hv : validIndex s (findVictim s pno time)
      · rw [callEvents_evict s pno mode time hp hf hfull hv]
        by_cases hm : (s.table (findVictim s pno time)).modified = true <;>
          by_cases hc : validIndex s s.first ∧ validIndex s s.last <;>
          simp [hm, hc, hs]
      · rw [callEvents_noVictim s pno mode time hp hf hfull hv]
        simp [hs]

/-- C8 at a concrete input: the first call `read(0,1)` on a fresh table. -/
theorem fault_hit_exclusive_witness :
    (callEvents (initPageTable Policy.REPL_LRU 3 2) 0 'r' 1).count Event.countPageFault
      + (callEvents (initPageTable Policy.REPL_LRU 3 2) 0 'r' 1).count Event.countPageHit = 1 ∧
    ((callEvents (initPageTable Policy.REPL_LRU 3 2) 0 'r' 1).count Event.countPageFault = 1 ↔
      ((initPageTable Policy.REPL_LRU 3 2).table 0).status ≠ IN_MEMORY) :=
  fault_hit_exclusive (initPageTable Policy.REPL_LRU 3 2) 0 'r' 1 (by decide) (by decide)

/-- C9 (access counters).  First, for every call `requestPage(pno, mode, time)`
that returns: an `'r'` call adds exactly one to `nPeeks` of `pno` and leaves its
`nPokes`, a `'w'` call adds exactly one to `nPokes` of `pno` and leaves its
`nPeeks`, and `nPeeks` and `nPokes` of every other page, an evicted victim
included, are unchanged.  Second, along every sequence of calls that all
return, from any state, and for every page `p`: `nPeeks` of `p` grows by the
number of `'r'` calls on `p` and `nPokes` of `p` by the number of `'w'` calls on
`p`, and neither decreases; from `initPageTable`, where all counters are 0,
the counters equal these numbers of calls. -/
theorem access_counters :
    (∀ (s s' : State) (pno : Int) (mode : Char) (time f : Int),
      requestPage s pno mode time = (s', Result.ok f) →
        (mode = 'r' → (s'.table pno).nPeeks = (s.table pno).nPeeks + 1 ∧
          (s'.table pno).nPokes = (s.table pno).nPokes) ∧
        (mode = 'w' → (s'.table pno).nPokes = (s.table pno).nPokes + 1 ∧
          (s'.table pno).nPeeks = (s.table pno).nPeeks) ∧
        (∀ j, j ≠ pno → (s'.table j).nPeeks = (s.table j).nPeeks ∧
          (s'.table j).nPokes = (s.table j).nPokes)) ∧
    (∀ (s s' : State) (accs : List Access), run s accs = some s' → ∀ p : Int,
      (s'.table p).nPeeks = (s.table p).nPeeks + countMode accs p 'r' ∧
      (s'.table p).nPokes = (s.table p).nPokes + countMode accs p 'w' ∧
      (s.table p).nPeeks ≤ (s'.table p).nPeeks ∧
      (s.table p).nPokes ≤ (s'.table p).nPokes) ∧
    (∀ (policy : Policy) (np : Int) (N : Nat) (s' : State) (accs : List Access),
      run (initPageTable policy np N) accs = some s' → ∀ p : Int,
        (s'.table p).nPeeks = countMode accs p 'r' ∧
        (s'.table p).nPokes = countMode accs p 'w') := by
  refine ⟨?_, ?_, ?_⟩
  · intro s s' pno mode time f h
    refine ⟨?_, ?_, ?_⟩
    · intro hm
      obtain ⟨c1, c2⟩ := requestPage_counters s s' pno mode time f h pno
      rw [c1, c2]
      simp [hm]
    · intro hm
      obtain ⟨c1, c2⟩ := requestPage_counters s s' pno mode time f h pno
      rw [c1, c2]
      simp [hm]
    · intro j hj
      obtain ⟨c1, c2⟩ := requestPage_counters s s' pno mode time f h j
      rw [c1, c2]
      simp [hj]
  · intro s s' accs h p
    obtain ⟨h1, h2⟩ := run_counters accs s s' h p
    have n1 := countMode_nonneg accs p 'r'
    have n2 := countMode_nonneg accs p 'w'
    exact ⟨h1, h2, by omega, by omega⟩
  · intro policy np N s' accs h p
    obtain ⟨h1, h2⟩ := run_counters accs _ s' h p
    rw [h1, h2]
    simp [initPageTable, initPTE]

/-- C9 at a concrete input: page 0 is read, evicted, and written after its
reload (`REPL_LRU`, three pages, two frames); it ends `IN_MEMORY` with one peek
and one poke. -/
theorem access_counters_witness :
    ∃ s', run (initPageTable Policy.REPL_LRU 3 2)
        [⟨0, 'r', 1⟩, ⟨1, 'r', 2⟩, ⟨2, 'r', 3⟩, ⟨0, 'w', 4⟩] = some s' ∧
      (s'.table 0).status = IN_MEMORY ∧
      (s'.table 0).nPeeks = 1 ∧ (s'.table 0).nPokes = 1 :=
  ⟨_, rfl, by decide,
    access_counters.2.2 Policy.REPL_LRU 3 2 _
      [⟨0, 'r', 1⟩, ⟨1, 'r', 2⟩, ⟨2, 'r', 3⟩, ⟨0, 'w', 4⟩] rfl 0⟩

/-- C10 (fault postcondition and return value).  Take a call
`requestPage(pno, mode, time)` with `pno` in `[0, nPages)` whose entry is
`NOT_USED` or `ON_DISK` and whose victim, if one is needed, is a resident
page, and let `f` be the frame `findFreeFrame` hands out if one is free and
otherwise the frame the victim holds at call entry.  If the call returns, it
returns `f`, and on return the entry of `pno` is `IN_MEMORY` with
`loadTime = time`, `accessTime = time`, `frame = f` and `modified` set exactly
when `mode` is `'w'`, and `loadFrame` was called exactly once, with
`(f, pno, time)`.  The call does return exactly when the list cursors it
indexes the table with are valid: `first = NONE` or `last` valid when a frame
is free, `first` and `last` valid when a victim is evicted. -/
theorem fault_postcondition (s : State) (pno : Int) (mode : Char) (time : Int)
    (hp : validIndex s pno) (hf : isFault s pno)
    (hv : s.nFrames ≤ s.nUsed → resident s (findVictim (afterFindFree s) pno time)) :
    (∀ s' r, requestPage s pno mode time = (s', Result.ok r) →
      r = (if s.nUsed < s.nFrames then (s.nUsed : Int)
            else (s.table (findVictim (afterFindFree s) pno time)).frame) ∧
      (s'.table pno).status = IN_MEMORY ∧
      (s'.table pno).loadTime = time ∧
      (s'.table pno).accessTime = time ∧
      ((s'.table pno).modified = true ↔ mode = 'w') ∧
      (s'.table pno).frame = r ∧
      (callEvents s pno mode time).filter Event.isLoad = [Event.loadFrame r pno time]) ∧
    ((∃ s' r, requestPage s pno mode time = (s', Result.ok r)) ↔
      ((s.nUsed < s.nFrames ∧ (s.first = NONE ∨ validIndex s s.last)) ∨
       (s.nFrames ≤ s.nUsed ∧ validIndex s s.first ∧ validIndex s s.last))) := by
  rw [findVictim_afterFindFree] at hv ⊢
  constructor
  · intro s' r h
    have hev : callEvents s pno mode time = s'.log.drop s.log.length := by
      unfold callEvents
      rw [h]
    obtain ⟨_, hc⟩ := requestPage_ok_cases s s' pno mode time r h
    rcases hc with ⟨hs, _, _⟩ | ⟨_, hfree, _, rfl, rfl⟩ | ⟨_, hfull, _, _, _, rfl, rfl⟩
    · rcases hf with hf | hf <;> rw [hf] at hs <;> exact absurd hs (by decide)
    · refine ⟨by simp [hfree], ?_, ?_, ?_, ?_, ?_, ?_⟩
      · simp [freeStep_table_status]
      · simp [freeStep_table_loadTime]
      · simp [freeStep_table_accessTime]
      · simp [freeStep_table_modified]
      · simp [freeStep_table_frame]
      · rw [hev, freeStep_log]
        simp [List.filter, Event.isLoad]
    · have hfreeN : ¬ s.nUsed < s.nFrames := not_lt.mpr hfull
      refine ⟨by simp [hfreeN], ?_, ?_, ?_, ?_, ?_, ?_⟩
      · simp [evictStep_table_status]
      · simp [evictStep_table_loadTime]
      · simp [evictStep_table_accessTime]
      · simp [evictStep_table_modified]
      · simp [evictStep_table_frame]
      · rw [hev, evictStep_log]
        by_cases hm : (s.table (findVictim s pno time)).modified = true <;>
          simp [hm, List.filter, Event.isLoad]
  · constructor
    · rintro ⟨s', r, h⟩
      obtain ⟨_, hc⟩ := requestPage_ok_cases s s' pno mode time r h
      rcases hc with ⟨hs, _, _⟩ | ⟨_, hfree, hl, _, _⟩ | ⟨_, hfull, _, h1, h2, _, _⟩
      · rcases hf with hf | hf <;> rw [hf] at hs <;> exact absurd hs (by decide)
      · exact Or.inl ⟨hfree, hl⟩
      · exact Or.inr ⟨hfull, h1, h2⟩
    · rintro (⟨hfree, hl⟩ | ⟨hfull, h1, h2⟩)
      · exact ⟨_, _, requestPage_free s pno mode time hp hf hfree hl⟩
      · exact ⟨_, _, requestPage_evict s pno mode time hp hf hfull (hv hfull).1 h1 h2⟩

/-- C10 at a concrete input: after `read(0,1)`, `read(1,2)` with two frames
under `REPL_LRU`, the call `write(2,3)` evicts page 0 and returns its frame 0. -/
theorem fault_postcondition_witness :
    (requestPage
        (requestPage (requestPage (initPageTable Policy.REPL_LRU 3 2) 0 'r' 1).1 1 'r' 2).1
        2 'w' 3).2 = Result.ok 0 ∧
    ∀ s' r,
      requestPage
        (requestPage (requestPage (initPageTable Policy.REPL_LRU 3 2) 0 'r' 1).1 1 'r' 2).1
        2 'w' 3 = (s', Result.ok r) →
      r = 0 ∧ (s'.table 2).status = IN_MEMORY ∧ (s'.table 2).loadTime = 3 ∧
      (s'.table 2).accessTime = 3 ∧ ((s'.table 2).modified = true ↔ 'w' = 'w') ∧
      (s'.table 2).frame = r ∧
      (callEvents
        (requestPage (requestPage (initPageTable Policy.REPL_LRU 3 2) 0 'r' 1).1 1 'r' 2).1
        2 'w' 3).filter Event.isLoad = [Event.loadFrame r 2 3] :=
  ⟨by decide,
    (fault_postcondition
      (requestPage (requestPage (initPageTable Policy.REPL_LRU 3 2) 0 'r' 1).1 1 'r' 2).1
      2 'w' 3 (by decide) (by decide) (fun _ => by decide)).1⟩

/-! ## Hits, evictions and errors (C11 - C14) -/

theorem pte_eq_of_fields (a b : PTE) (h1 : a.status = b.status) (h2 : a.modified = b.modified)
    (h3 : a.frame = b.frame) (h4 : a.accessTime = b.accessTime) (h5 : a.loadTime = b.loadTime)
    (h6 : a.nPeeks = b.nPeeks) (h7 : a.nPokes = b.nPokes) (h8 : a.next = b.next)
    (h9 : a.prev = b.prev) : a = b := by
  cases a
  cases b
  simp only [PTE.mk.injEq]
  exact ⟨h1, h2, h3, h4, h5, h6, h7, h8, h9⟩

theorem hitStep_table_other (s : State) (pno : Int) (mode : Char) (time : Int) (j : Int)
    (hj : j ≠ pno) : (hitStep s pno mode time).table j = s.table j := by
  apply pte_eq_of_fields
  · exact hitStep_table_status ..
  · simp [hitStep_table_modified, hj]
  · exact hitStep_table_frame ..
  · simp [hitStep_table_accessTime, hj]
  · exact hitStep_table_loadTime ..
  · simp [hitStep_table_nPeeks, hj]
  · simp [hitStep_table_nPokes, hj]
  · exact hitStep_table_next ..
  · exact hitStep_table_prev ..

/-- C11 (hit frame condition).  A call `requestPage(pno, mode, time)` on a page
in `[0, nPages)` whose status is `IN_MEMORY` at entry returns that page's
existing frame.  On return `status`, `frame`, `loadTime`, `next` and `prev` of
`pno` are unchanged, the whole entry of every other page is unchanged, and the
cursors `first` and `last` are unchanged.  The only collaborator call is
`countPageHit`, so `findFreeFrame`, `loadFrame` and `saveFrame` are not
called.  Of the entry of `pno` only three things change: `accessTime` becomes
`time`, the counter of the mode grows by one (`nPeeks` for `'r'`, `nPokes` for
`'w'`), and `modified` is set by a `'w'` and otherwise kept. -/
theorem hit_frame_condition (s : State) (pno : Int) (mode : Char) (time : Int)
    (hp : validIndex s pno) (hs : (s.table pno).status = IN_MEMORY) :
    ∃ s', requestPage s pno mode time = (s', Result.ok (s.table pno).frame) ∧
      (s'.table pno).status = (s.table pno).status ∧
      (s'.table pno).frame = (s.table pno).frame ∧
      (s'.table pno).loadTime = (s.table pno).loadTime ∧
      (s'.table pno).next = (s.table pno).next ∧
      (s'.table pno).prev = (s.table pno).prev ∧
      (∀ j, j ≠ pno → s'.table j = s.table j) ∧
      s'.first = s.first ∧ s'.last = s.last ∧
      callEvents s pno mode time = [Event.countPageHit] ∧
      (s'.table pno).accessTime = time ∧
      (s'.table pno).nPeeks
        = (if mode = 'r' then (s.table pno).nPeeks + 1 else (s.table pno).nPeeks) ∧
      (s'.table pno).nPokes
        = (if mode = 'w' then (s.table pno).nPokes + 1 else (s.table pno).nPokes) ∧
      (s'.table pno).modified
        = (if mode = 'w' then true else (s.table pno).modified) := by
  refine ⟨hitStep s pno mode time, requestPage_hit s pno mode time hp hs,
    hitStep_table_status .., hitStep_table_frame .., hitStep_table_loadTime ..,
    hitStep_table_next .., hitStep_table_prev .., ?_, hitStep_first .., hitStep_last ..,
    callEvents_hit s pno mode time hp hs, ?_, ?_, ?_, ?_⟩
  · intro j hj
    exact hitStep_table_other s pno mode time j hj
  · simp [hitStep_table_accessTime]
  · simp [hitStep_table_nPeeks]
  · simp [hitStep_table_nPokes]
  · simp [hitStep_table_modified]

/-- C11 at a concrete input: after `read(0,1)` the call `write(0,2)` is a hit
on frame 0. -/
theorem hit_frame_condition_witness :
    ∃ s', requestPage (requestPage (initPageTable Policy.REPL_LRU 3 2) 0 'r' 1).1 0 'w' 2
        = (s', Result.ok 0) ∧
      (s'.table 0).accessTime = 2 ∧ (s'.table 0).nPokes = 1 ∧ (s'.table 0).modified = true ∧
      callEvents (requestPage (initPageTable Policy.REPL_LRU 3 2) 0 'r' 1).1 0 'w' 2
        = [Event.countPageHit] := by
  obtain ⟨s', h⟩ := hit_frame_condition
    (requestPage (initPageTable Policy.REPL_LRU 3 2) 0 'r' 1).1 0 'w' 2
    (by decide) (by decide)
  exact ⟨s', h.1, h.2.2.2.2.2.2.2.2.2.2.1, h.2.2.2.2.2.2.2.2.2.2.2.2.1,
    h.2.2.2.2.2.2.2.2.2.2.2.2.2, h.2.2.2.2.2.2.2.2.2.1⟩

/-! ## Eviction (C12) -/

theorem linked_next_mem (nxt : Int → Int) (last : Int) :
    ∀ {a : Int} {t : List Int} (x : Int), Linked nxt last a t → x ∈ a :: t → x ≠ last →
      nxt x ∈ t := by
  intro a t
  induction t generalizing a with
  | nil =>
    intro x h hx hne
    simp only [Linked] at h
    simp only [List.mem_singleton] at hx
    exact absurd (hx.trans h) hne
  | cons y t ih =>
    intro x h hx hne
    simp only [Linked] at h
    rcases List.mem_cons.mp hx with hx | hx
    · rw [hx, h.1]
      exact List.mem_cons_self y t
    · exact List.mem_cons_of_mem _ (ih x h.2 hx hne)

/-- In the states of the list policies only resident pages are on the list. -/
theorem onList_resident {s : State} (h : Inv s) (x : Int) (hx : OnList s x) : resident s x := by
  obtain ⟨_, L, hc, hq⟩ := h
  rcases hq with ⟨hq, _⟩ | ⟨_, hnone, _⟩
  · have hmem : x ∈ L := by
      induction hx with
      | head hne =>
        cases L with
        | nil => exact absurd hq hne
        | cons a t =>
          simp only [Queue] at hq
          rw [hq.1]
          exact List.mem_cons_self a t
      | step y _ hy ih =>
        cases L with
        | nil => exact absurd ih (List.not_mem_nil y)
        | cons a t =>
          simp only [Queue] at hq
          exact List.mem_cons_of_mem _
            (linked_next_mem _ _ y hq.2 ih hy)
    exact (hc.mem x).mp hmem
  · exfalso
    induction hx with
    | head hne => exact hne hnone
    | step y _ _ ih => exact ih

/-- C12 (eviction postcondition) fails for `REPL_CLOCK`.  Three pages, two
frames: after `read(1,1)` and `read(0,2)` the call `read(2,3)` faults with no
free frame and evicts the resident page 0, which is not the requested page.
On return page 0 is `ON_DISK`, yet the cursor `first` is 0: the evicted page is
still on the list, as its head. -/
theorem clock_victim_stays_on_list :
    ∃ s, run (initPageTable Policy.REPL_CLOCK 3 2) [⟨1, 'r', 1⟩, ⟨0, 'r', 2⟩] = some s ∧
      isFault s 2 ∧ s.nFrames ≤ s.nUsed ∧
      findVictim (afterFindFree s) 2 3 = 0 ∧ resident s 0 ∧
      (requestPage s 2 'r' 3).2 = Result.ok 1 ∧
      ((requestPage s 2 'r' 3).1.table 0).status = ON_DISK ∧
      (requestPage s 2 'r' 3).1.first = 0 ∧
      OnList (requestPage s 2 'r' 3).1 0 :=
  ⟨_, rfl, by decide, by decide, by decide, by decide, by decide, by decide, by decide,
    OnList.head (by decide)⟩

/-- C12, amended.  Take a call that faults with no free frame, evicts a
resident victim `v` different from the requested page, and returns.  On
return the entry of `v` has status `ON_DISK`, `modified` clear, and `frame`,
`accessTime` and `loadTime` equal to `NONE`; and `status`, `frame`, `modified`,
`accessTime`, `loadTime`, `nPeeks` and `nPokes` of every page other than `v` and
the requested page are unchanged.  This holds in every state and under every
policy.  Under `REPL_LRU` and `REPL_FIFO`, in a state reached from
`initPageTable` by calls that all returned, `v` is moreover no longer
reachable from `first` by following `next` up to `last`. -/
theorem eviction_postcondition :
    (∀ (s s' : State) (pno : Int) (mode : Char) (time f : Int),
      requestPage s pno mode time = (s', Result.ok f) →
      isFault s pno → s.nFrames ≤ s.nUsed →
      resident s (findVictim (afterFindFree s) pno time) →
      findVictim (afterFindFree s) pno time ≠ pno →
        (s'.table (findVictim (afterFindFree s) pno time)).status = ON_DISK ∧
        (s'.table (findVictim (afterFindFree s) pno time)).modified = false ∧
        (s'.table (findVictim (afterFindFree s) pno time)).frame = NONE ∧
        (s'.table (findVictim (afterFindFree s) pno time)).accessTime = NONE ∧
        (s'.table (findVictim (afterFindFree s) pno time)).loadTime = NONE ∧
        ∀ j, j ≠ findVictim (afterFindFree s) pno time → j ≠ pno →
          (s'.table j).status = (s.table j).status ∧
          (s'.table j).frame = (s.table j).frame ∧
          (s'.table j).modified = (s.table j).modified ∧
          (s'.table j).accessTime = (s.table j).accessTime ∧
          (s'.table j).loadTime = (s.table j).loadTime ∧
          (s'.table j).nPeeks = (s.table j).nPeeks ∧
          (s'.table j).nPokes = (s.table j).nPokes) ∧
    (∀ (policy : Policy), policy = Policy.REPL_LRU ∨ policy = Policy.REPL_FIFO →
      ∀ (np : Int) (N : Nat) (accs : List Access) (s : State),
      run (initPageTable policy np N) accs = some s →
      ∀ (s' : State) (pno : Int) (mode : Char) (time f : Int),
      requestPage s pno mode time = (s', Result.ok f) →
      isFault s pno → s.nFrames ≤ s.nUsed →
        resident s (findVictim (afterFindFree s) pno time) ∧
        findVictim (afterFindFree s) pno time ≠ pno ∧
        ¬ OnList s' (findVictim (afterFindFree s) pno time)) := by
  constructor
  · intro s s' pno mode time f h hf hfull _ hne
    rw [findVictim_afterFindFree] at hne ⊢
    have hfreeN : ¬ s.nUsed < s.nFrames := not_lt.mpr hfull
    obtain ⟨_, hc⟩ := requestPage_ok_cases s s' pno mode time f h
    rcases hc with ⟨hs, _, _⟩ | ⟨_, hfree, _, _, _⟩ | ⟨_, _, _, _, _, rfl, _⟩
    · rcases hf with hf | hf <;> rw [hf] at hs <;> exact absurd hs (by decide)
    · exact absurd hfree hfreeN
    · refine ⟨?_, ?_, ?_, ?_, ?_, ?_⟩
      · rw [evictStep_table_status, if_neg hne, if_pos rfl]
      · rw [evictStep_table_modified, if_neg hne, if_pos rfl]
      · rw [evictStep_table_frame, if_neg hne, if_pos rfl]
      · rw [evictStep_table_accessTime, if_neg hne, if_pos rfl]
      · rw [evictStep_table_loadTime, if_neg hne, if_pos rfl]
      · intro j hjv hjp
        refine ⟨?_, ?_, ?_, ?_, ?_, ?_, ?_⟩
        · rw [evictStep_table_status, if_neg hjp, if_neg hjv]
        · rw [evictStep_table_frame, if_neg hjp, if_neg hjv]
        · rw [evictStep_table_modified, if_neg hjp, if_neg hjv]
        · rw [evictStep_table_accessTime, if_neg hjp, if_neg hjv]
        · rw [evictStep_table_loadTime, if_neg hjp, if_neg hjv]
        · rw [evictStep_table_nPeeks, if_neg (fun h => hjp h.1)]
        · rw [evictStep_table_nPokes, if_neg (fun h => hjp h.1)]
  · intro policy hpol np N accs s hrun s' pno mode time f h hf hfull
    rw [findVictim_afterFindFree]
    have hclock : policy ≠ Policy.REPL_CLOCK := by
      rcases hpol with h | h <;> rw [h] <;> decide
    have hinv := inv_run accs _ s (inv_init policy np N hclock) hrun
    have hinv' := inv_step hinv pno mode time f h
    have hfreeN : ¬ s.nUsed < s.nFrames := not_lt.mpr hfull
    obtain ⟨_, hc⟩ := requestPage_ok_cases s s' pno mode time f h
    rcases hc with ⟨hs, _, _⟩ | ⟨_, hfree, _, _, _⟩ | ⟨_, _, _, h1, _, rfl, _⟩
    · rcases hf with hf | hf <;> rw [hf] at hs <;> exact absurd hs (by decide)
    · exact absurd hfree hfreeN
    · have hv : findVictim s pno time = s.first := findVictim_of_list hinv.1 pno time
      have hres : resident s s.first :=
        onList_resident hinv s.first (OnList.head (validIndex_ne_NONE h1))
      have hne : s.first ≠ pno := by
        intro e
        rw [e] at hres
        rcases hf with hf | hf <;> rw [hres.2] at hf <;> exact absurd hf (by decide)
      rw [hv]
      refine ⟨hres, hne, ?_⟩
      intro hon
      have := (onList_resident hinv' s.first hon).2
      rw [evictStep_table_status, if_neg hne, hv, if_pos rfl] at this
      exact absurd this (by decide)

/-- C12, amended, at a concrete input: under `REPL_LRU` with two frames, after
`write(0,1)`, `read(1,2)`, the call `read(2,3)` evicts page 0. -/
theorem eviction_postcondition_witness :
    run (initPageTable Policy.REPL_LRU 3 2) [⟨0, 'w', 1⟩, ⟨1, 'r', 2⟩]
      = some (requestPage (requestPage (initPageTable Policy.REPL_LRU 3 2) 0 'w' 1).1 1 'r' 2).1 ∧
    ((requestPage (requestPage (requestPage (initPageTable Policy.REPL_LRU 3 2) 0 'w' 1).1
      1 'r' 2).1 2 'r' 3).1.table 0).status = ON_DISK ∧
    ((requestPage (requestPage (requestPage (initPageTable Policy.REPL_LRU 3 2) 0 'w' 1).1
      1 'r' 2).1 2 'r' 3).1.table 0).modified = false ∧
    ¬ OnList (requestPage (requestPage (requestPage (initPageTable Policy.REPL_LRU 3 2) 0 'w' 1).1
      1 'r' 2).1 2 'r' 3).1 0 :=
  ⟨rfl,
    (eviction_postcondition.1
      (requestPage (requestPage (initPageTable Policy.REPL_LRU 3 2) 0 'w' 1).1 1 'r' 2).1
      (requestPage (requestPage (requestPage (initPageTable Policy.REPL_LRU 3 2) 0 'w' 1).1
        1 'r' 2).1 2 'r' 3).1
      2 'r' 3 0 rfl (by decide) (by decide) (by decide) (by decide)).1,
    (eviction_postcondition.1
      (requestPage (requestPage (initPageTable Policy.REPL_LRU 3 2) 0 'w' 1).1 1 'r' 2).1
      (requestPage (requestPage (requestPage (initPageTable Policy.REPL_LRU 3 2) 0 'w' 1).1
        1 'r' 2).1 2 'r' 3).1
      2 'r' 3 0 rfl (by decide) (by decide) (by decide) (by decide)).2.1,
    (eviction_postcondition.2 Policy.REPL_LRU (Or.inl rfl) 3 2 [⟨0, 'w', 1⟩, ⟨1, 'r', 2⟩]
      (requestPage (requestPage (initPageTable Policy.REPL_LRU 3 2) 0 'w' 1).1 1 'r' 2).1 rfl
      (requestPage (requestPage (requestPage (initPageTable Policy.REPL_LRU 3 2) 0 'w' 1).1
        1 'r' 2).1 2 'r' 3).1
      2 'r' 3 0 rfl (by decide) (by decide)).2.2⟩

theorem statusOk_init (policy : Policy) (np : Int) (N : Nat) :
    StatusOk (initPageTable policy np N) := fun _ => Or.inl rfl

theorem statusOk_step (s s' : State) (pno : Int) (mode : Char) (time f : Int)
    (h : requestPage s pno mode time = (s', Result.ok f)) (hs : StatusOk s) : StatusOk s' := by
  obtain ⟨h1, _, h3⟩ := requestPage_status_modified s s' pno mode time f h
  intro j
  by_cases hj : j = pno
  · rw [hj, h1]
    exact Or.inr (Or.inl rfl)
  · rcases h3 j hj with ⟨e, _⟩ | ⟨e, _⟩
    · rw [e]
      exact hs j
    · rw [e]
      exact Or.inr (Or.inr rfl)

theorem statusOk_run (accs : List Access) :
    ∀ (s s' : State), run s accs = some s' → StatusOk s → StatusOk s' := by
  induction accs with
  | nil =>
    intro s s' h hs
    simp only [run, Option.some.injEq] at h
    exact h ▸ hs
  | cons a rest ih =>
    intro s s' h hs
    obtain ⟨s1, f, h1, h2⟩ := run_cons s s' a rest h
    exact ih s1 s' h2 (statusOk_step s s1 a.pno a.mode a.time f h1 hs)

/-- How a call with a page in range ends. -/
theorem requestPage_valid_result (s : State) (pno : Int) (mode : Char) (time : Int)
    (hp : validIndex s pno) :
    (∃ f, (requestPage s pno mode time).2 = Result.ok f) ∨
    (requestPage s pno mode time).2 = Result.outOfBounds ∨
    ((requestPage s pno mode time).2 = Result.invalidPageStatus ∧
      (s.table pno).status ≠ IN_MEMORY ∧ ¬ isFault s pno) := by
  by_cases hs : (s.table pno).status = IN_MEMORY
  · exact Or.inl ⟨_, by rw [requestPage_hit s pno mode time hp hs]⟩
  by_cases hf : isFault s pno
  swap
  · right
    right
    exact ⟨by rw [requestPage_invalidStatus s pno mode time hp hs hf], hs, hf⟩
  by_cases hfree : s.nUsed < s.nFrames
  · by_cases hl : s.first = NONE ∨ validIndex s s.last
    · exact Or.inl ⟨_, by rw [requestPage_free s pno mode time hp hf hfree hl]⟩
    · exact Or.inr (Or.inl (by rw [requestPage_free_outOfBounds s pno mode time hp hf hfree hl]))
  · have hfull : s.nFrames ≤ s.nUsed := not_lt.mp hfree
    by_cases hv : validIndex s (findVictim s pno time)
    swap
    · exact Or.inr (Or.inl (by rw [requestPage_victim_outOfBounds s pno mode time hp hf hfull hv]))
    by_cases hc : validIndex s s.first ∧ validIndex s s.last
    · exact Or.inl ⟨_, by rw [requestPage_evict s pno mode time hp hf hfull hv hc.1 hc.2]⟩
    · exact Or.inr (Or.inl
        (by rw [requestPage_cursor_outOfBounds s pno mode time hp hf hfull hv hc]))

/-- C13 (invalid reference is fatal).  A call `requestPage(pno, mode, time)`
ends with the "Invalid page reference" error if and only if `pno < 0` or
`pno ≥ nPages`.  When it does, it returns the state it was entered in, so no
page entry and no list cursor has changed, and it has made no collaborator
call: no fault or hit was counted and the Frame Allocator was not called.  In
a state produced by `initPageTable` followed by calls that all returned, no
call ends with the "Invalid page status" error, whatever its page. -/
theorem invalid_reference_fatal :
    (∀ (s : State) (pno : Int) (mode : Char) (time : Int),
      ((requestPage s pno mode time).2 = Result.invalidPageReference ↔
        (pno < 0 ∨ pno ≥ s.nPages)) ∧
      ((pno < 0 ∨ pno ≥ s.nPages) →
        requestPage s pno mode time = (s, Result.invalidPageReference) ∧
        callEvents s pno mode time = [])) ∧
    (∀ (policy : Policy) (np : Int) (N : Nat) (accs : List Access) (s : State),
      run (initPageTable policy np N) accs = some s →
        ∀ (pno : Int) (mode : Char) (time : Int),
          (requestPage s pno mode time).2 ≠ Result.invalidPageStatus) := by
  constructor
  · intro s pno mode time
    have hinv : (pno < 0 ∨ pno ≥ s.nPages) → ¬ validIndex s pno := by
      intro h hv
      unfold validIndex at hv
      omega
    constructor
    · constructor
      · intro h
        by_contra hn
        have hp : validIndex s pno := by
          unfold validIndex
          omega
        rcases requestPage_valid_result s pno mode time hp with ⟨f, e⟩ | e | ⟨e, _⟩ <;>
          rw [e] at h <;> exact Result.noConfusion h
      · intro h
        rw [requestPage_invalid s pno mode time (hinv h)]
    · intro h
      exact ⟨requestPage_invalid s pno mode time (hinv h),
        callEvents_invalid s pno mode time (hinv h)⟩
  · intro policy np N accs s h pno mode time
    have hs := statusOk_run accs _ s h (statusOk_init policy np N)
    by_cases hp : validIndex s pno
    · rcases requestPage_valid_result s pno mode time hp with ⟨f, e⟩ | e | ⟨_, h1, h2⟩
      · rw [e]
        exact fun h => Result.noConfusion h
      · rw [e]
        exact fun h => Result.noConfusion h
      · exfalso
        rcases hs pno with h0 | h0 | h0
        · exact h2 (Or.inl h0)
        · exact h1 h0
        · exact h2 (Or.inr h0)
    · rw [requestPage_invalid s pno mode time hp]
      exact fun h => Result.noConfusion h

/-- C13 at a concrete input: page 3 of a three-page table, and page -1. -/
theorem invalid_reference_fatal_witness :
    (requestPage (initPageTable Policy.REPL_LRU 3 2) 3 'r' 1).2 = Result.invalidPageReference ∧
    callEvents (initPageTable Policy.REPL_LRU 3 2) (-1) 'w' 1 = [] :=
  ⟨((invalid_reference_fatal.1 (initPageTable Policy.REPL_LRU 3 2) 3 'r' 1).1).mpr
      (by decide),
    ((invalid_reference_fatal.1 (initPageTable Policy.REPL_LRU 3 2) (-1) 'w' 1).2
      (by decide)).2⟩

theorem callEvents_invalidStatus (s : State) (pno : Int) (mode : Char) (time : Int)
    (hp : validIndex s pno) (hs : (s.table pno).status ≠ IN_MEMORY) (hf : ¬ isFault s pno) :
    callEvents s pno mode time = [] := by
  apply callEvents_of_log
  rw [requestPage_invalidStatus s pno mode time hp hs hf]
  simp

/-- One call loads at most once and saves at most once. -/
theorem callEvents_load_save_le (s : State) (pno : Int) (mode : Char) (time : Int) :
    ((callEvents s pno mode time).filter Event.isLoad).length ≤ 1 ∧
    ((callEvents s pno mode time).filter Event.isSave).length ≤ 1 := by
  by_cases hp : validIndex s pno
  swap
  · rw [callEvents_invalid s pno mode time hp]
    simp
  by_cases hs : (s.table pno).status = IN_MEMORY
  · rw [callEvents_hit s pno mode time hp hs]
    simp [List.filter, Event.isLoad, Event.isSave]
  by_cases hf : isFault s pno
  swap
  · rw [callEvents_invalidStatus s pno mode time hp hs hf]
    simp
  by_cases hfree : s.nUsed < s.nFrames
  · rw [callEvents_free s pno mode time hp hf hfree]
    simp [List.filter, Event.isLoad, Event.isSave]
  have hfull : s.nFrames ≤ s.nUsed := not_lt.mp hfree
  by_cases hv : validIndex s (findVictim s pno time)
  · rw [callEvents_evict s pno mode time hp hf hfull hv]
    by_cases hm : (s.table (findVictim s pno time)).modified = true <;>
      by_cases hc : validIndex s s.first ∧ validIndex s s.last <;>
      simp [hm, hc, List.filter, Event.isLoad, Event.isSave]
  · rw [callEvents_noVictim s pno mode time hp hf hfull hv]
    simp [List.filter, Event.isLoad, Event.isSave]

/-- The log after a returning call: loads match faults, and there is a save
exactly for an eviction of a modified victim. -/
theorem requestPage_ok_log (s s' : State) (a : Access) (f : Int)
    (h : requestPage s a.pno a.mode a.time = (s', Result.ok f)) :
    ∃ evs, s'.log = s.log ++ evs ∧
      (evs.filter Event.isLoad).length = evs.count Event.countPageFault ∧
      (evs.filter Event.isSave).length
        = (if evicts s a ∧
            (s.table (findVictim (afterFindFree s) a.pno a.time)).modified = true
          then 1 else 0) := by
  obtain ⟨hp, hc⟩ := requestPage_ok_cases s s' a.pno a.mode a.time f h
  rw [findVictim_afterFindFree]
  rcases hc with ⟨hs, rfl, _⟩ | ⟨hf, hfree, _, rfl, _⟩ | ⟨hf, hfull, _, _, _, rfl, _⟩
  · refine ⟨[Event.countPageHit], hitStep_log s a.pno a.mode a.time,
      by simp [List.filter, Event.isLoad], ?_⟩
    have hnf : ¬ isFault s a.pno := by
      intro hf
      rcases hf with hf | hf <;> rw [hf] at hs <;> exact absurd hs (by decide)
    simp [evicts, hnf, List.filter, Event.isSave]
  · refine ⟨_, freeStep_log s a.pno a.mode a.time, by simp [List.filter, Event.isLoad], ?_⟩
    have : ¬ s.nFrames ≤ s.nUsed := not_le.mpr hfree
    simp [evicts, this, List.filter, Event.isSave]
  · refine ⟨[Event.countPageFault, Event.findFreeFrame] ++
        (if (s.table (findVictim s a.pno a.time)).modified = true
          then [Event.saveFrame (s.table (findVictim s a.pno a.time)).frame] else []) ++
        [Event.loadFrame (s.table (findVictim s a.pno a.time)).frame a.pno a.time], ?_, ?_, ?_⟩
    · rw [evictStep_log]
      simp
    · by_cases hm : (s.table (findVictim s a.pno a.time)).modified = true <;>
        simp [hm, List.filter, Event.isLoad]
    · have he : evicts s a := ⟨hp, hf, hfull⟩
      by_cases hm : (s.table (findVictim s a.pno a.time)).modified = true <;>
        simp [hm, he, List.filter, Event.isSave]

theorem trace_cons_of_ok (s s1 : State) (a : Access) (rest : List Access) (f : Int)
    (h : requestPage s a.pno a.mode a.time = (s1, Result.ok f)) :
    trace s (a :: rest) = (s, a) :: trace s1 rest := by
  simp [trace, h]

theorem run_log_counts (accs : List Access) :
    ∀ (s s' : State), run s accs = some s' →
      (s'.log.filter Event.isLoad).length + s.log.count Event.countPageFault
        = s'.log.count Event.countPageFault + (s.log.filter Event.isLoad).length ∧
      (s'.log.filter Event.isSave).length
        = (s.log.filter Event.isSave).length + modifiedEvictions s accs := by
  induction accs with
  | nil =>
    intro s s' h
    simp only [run, Option.some.injEq] at h
    subst h
    simp only [modifiedEvictions, trace, List.filter_nil, List.length_nil, add_zero, and_true]
    omega
  | cons a rest ih =>
    intro s s' h
    obtain ⟨s1, f, h1, h2⟩ := run_cons s s' a rest h
    obtain ⟨e1, e2⟩ := ih s1 s' h2
    obtain ⟨evs, hl, c1, c2⟩ := requestPage_ok_log s s1 a f h1
    have hm : modifiedEvictions s (a :: rest)
        = (if evicts s a ∧
              (s.table (findVictim (afterFindFree s) a.pno a.time)).modified = true
            then 1 else 0) + modifiedEvictions s1 rest := by
      unfold modifiedEvictions
      rw [trace_cons_of_ok s s1 a rest f h1, List.filter_cons]
      by_cases hc : evicts s a ∧
          (s.table (findVictim (afterFindFree s) a.pno a.time)).modified = true
      · simp only [hc, and_self, decide_True, if_true, List.length_cons]
        omega
      · simp only [hc, decide_False, if_false]
        simp
    rw [hl] at e1 e2
    simp only [List.filter_append, List.length_append, List.count_append] at e1 e2
    rw [hm]
    constructor
    · omega
    · rw [e2, c2]
      omega

/-- C14 (load and save accounting).  Every call, under every policy, calls
`loadFrame` at most once and `saveFrame` at most once.  After every sequence
of calls that all return, started from `initPageTable` under any policy, the
number of `loadFrame` calls equals the number of `countPageFault` calls, and
the number of `saveFrame` calls equals the number of evictions whose victim
had `modified` set. -/
theorem load_save_accounting :
    (∀ (s : State) (pno : Int) (mode : Char) (time : Int),
      ((callEvents s pno mode time).filter Event.isLoad).length ≤ 1 ∧
      ((callEvents s pno mode time).filter Event.isSave).length ≤ 1) ∧
    (∀ (policy : Policy) (np : Int) (N : Nat) (accs : List Access) (s : State),
      run (initPageTable policy np N) accs = some s →
        (s.log.filter Event.isLoad).length = s.log.count Event.countPageFault ∧
        (s.log.filter Event.isSave).length
          = modifiedEvictions (initPageTable policy np N) accs) := by
  refine ⟨callEvents_load_save_le, ?_⟩
  intro policy np N accs s h
  obtain ⟨h1, h2⟩ := run_log_counts accs _ s h
  simp only [initPageTable, List.filter_nil, List.length_nil, List.count_nil, add_zero,
    zero_add] at h1 h2
  exact ⟨h1, h2⟩

/-- C14 at a concrete input: `write(0,1)`, `read(1,2)`, `read(2,3)`, `read(1,4)`
with two frames under `REPL_FIFO`: three faults, three loads, and one save for
the one eviction, whose victim (page 0) is modified. -/
theorem load_save_accounting_witness :
    ∃ s, run (initPageTable Policy.REPL_FIFO 3 2)
        [⟨0, 'w', 1⟩, ⟨1, 'r', 2⟩, ⟨2, 'r', 3⟩, ⟨1, 'r', 4⟩] = some s ∧
      (s.log.filter Event.isLoad).length = 3 ∧ s.log.count Event.countPageFault = 3 ∧
      (s.log.filter Event.isSave).length = 1 ∧
      modifiedEvictions (initPageTable Policy.REPL_FIFO 3 2)
        [⟨0, 'w', 1⟩, ⟨1, 'r', 2⟩, ⟨2, 'r', 3⟩, ⟨1, 'r', 4⟩] = 1 :=
  ⟨_, rfl, by decide, by decide,
    (load_save_accounting.2 Policy.REPL_FIFO 3 2
      [⟨0, 'w', 1⟩, ⟨1, 'r', 2⟩, ⟨2, 'r', 3⟩, ⟨1, 'r', 4⟩] _ rfl).2.trans (by decide),
    by decide⟩

/-! ## Filling the frame pool (C15) -/

/-- Faults on pages that are not resident, while frames are free, append the
pages to the list in order. -/
theorem cold_fill (accs : List Access) :
    ∀ (s : State) (L : List Int), Core s L → Queue s L →
      (∀ a ∈ accs, validIndex s a.pno) → (accs.map Access.pno).Nodup →
      (∀ a ∈ accs, a.pno ∉ L) → L.length + accs.length ≤ s.nFrames →
      ∃ s', run s accs = some s' ∧ Core s' (L ++ accs.map Access.pno) ∧
        Queue s' (L ++ accs.map Access.pno) ∧
        s'.replacePolicy = s.replacePolicy ∧ s'.nFrames = s.nFrames ∧ s'.nPages = s.nPages ∧
        s'.log.count Event.countPageFault = s.log.count Event.countPageFault + accs.length ∧
        s'.log.count Event.countPageHit = s.log.count Event.countPageHit := by
  induction accs with
  | nil =>
    intro s L hc hq _ _ _ _
    exact ⟨s, rfl, by simpa using hc, by simpa using hq, rfl, rfl, rfl, by simp, rfl⟩
  | cons a rest ih =>
    intro s L hc hq hacc hnd hnot hlen
    have hp := hacc a (List.mem_cons_self a rest)
    have hnr : (s.table a.pno).status ≠ IN_MEMORY := by
      intro h
      exact hnot a (List.mem_cons_self a rest) ((hc.mem a.pno).mpr ⟨hp, h⟩)
    have hf : isFault s a.pno := by
      rcases hc.status_ok a.pno with h | h | h
      · exact Or.inl h
      · exact absurd h hnr
      · exact Or.inr h
    have hfree : s.nUsed < s.nFrames := by
      have := hc.len
      simp only [List.length_cons] at hlen
      omega
    have hl : s.first = NONE ∨ validIndex s s.last := by
      cases L with
      | nil => exact Or.inl hq
      | cons b t => exact Or.inr (queue_cursors_valid hq hc (List.cons_ne_nil b t)).2
    have h1 := requestPage_free s a.pno a.mode a.time hp hf hfree hl
    simp only [List.map_cons, List.nodup_cons] at hnd
    have hacc' : ∀ b ∈ rest, validIndex (freeStep s a.pno a.mode a.time) b.pno := by
      intro b hb
      have := hacc b (List.mem_cons_of_mem _ hb)
      simpa [validIndex, freeStep_nPages] using this
    have hnot' : ∀ b ∈ rest, b.pno ∉ L ++ [a.pno] := by
      intro b hb hmem
      rcases List.mem_append.mp hmem with h | h
      · exact hnot b (List.mem_cons_of_mem _ hb) h
      · have e : b.pno = a.pno := by simpa using h
        exact hnd.1 (e ▸ List.mem_map_of_mem Access.pno hb)
    have hlen' : (L ++ [a.pno]).length + rest.length
        ≤ (freeStep s a.pno a.mode a.time).nFrames := by
      simp only [List.length_append, List.length_singleton, freeStep_nFrames]
      simp only [List.length_cons] at hlen
      omega
    obtain ⟨s', r1, r2, r3, r4, r5, r6, r7, r8⟩ := ih (freeStep s a.pno a.mode a.time)
      (L ++ [a.pno]) (core_free hc a.pno a.mode a.time hp hf hfree)
      (queue_free hq hc a.pno a.mode a.time) hacc' hnd.2 hnot' hlen'
    refine ⟨s', by rw [run_cons_of_ok s _ a rest _ h1]; exact r1, ?_, ?_, ?_, ?_, ?_, ?_, ?_⟩
    · simpa using r2
    · simpa using r3
    · rw [r4, freeStep_replacePolicy]
    · rw [r5, freeStep_nFrames]
    · rw [r6, freeStep_nPages]
    · rw [r7, freeStep_log]
      simp only [List.count_append, List.length_cons]
      have : List.count Event.countPageFault
          [Event.countPageFault, Event.findFreeFrame, Event.loadFrame (s.nUsed : Int) a.pno a.time]
          = 1 := by
        simp [List.count_cons]
      omega
    · rw [r8, freeStep_log]
      simp [List.count_cons]

/-- C15 (LRU cold fill, generalised).  With policy `REPL_LRU` and `N ≥ 2`
frames, take `N + 1` calls on pairwise distinct pages `p₁, ..., p_{N+1}` in
`[0, nPages)`: the call `a` on `p₁`, the `N - 1` calls `mid`, the call `z` on
`p_{N+1}`.  All `N + 1` calls return and fault (the log counts `N + 1` faults
and no hit); the last call finds no free frame, its victim is `p₁`, and `p₁`
is `ON_DISK` afterwards; the `IN_MEMORY` pages afterwards are exactly
`p₂, ..., p_{N+1}`; and after every prefix of the sequence at most `N` pages
are `IN_MEMORY`.  (The modes and times of the calls play no part.)
Scenario: three pages, two frames, `read(0,1)`, `read(1,2)`, `read(2,3)` leave
exactly the pages 1 and 2 resident. -/
theorem lru_cold_fill (np : Int) (N : Nat) (hN : 2 ≤ N) (a : Access) (mid : List Access)
    (z : Access) (hlen : mid.length + 1 = N)
    (hacc : ∀ b ∈ a :: (mid ++ [z]), 0 ≤ b.pno ∧ b.pno < np)
    (hdist : ((a :: (mid ++ [z])).map Access.pno).Nodup) :
    (∃ s0 s, run (initPageTable Policy.REPL_LRU np N) (a :: mid) = some s0 ∧
      run (initPageTable Policy.REPL_LRU np N) (a :: (mid ++ [z])) = some s ∧
      s.log.count Event.countPageFault = N + 1 ∧ s.log.count Event.countPageHit = 0 ∧
      evicts s0 z ∧ findVictim (afterFindFree s0) z.pno z.time = a.pno ∧
      (s.table a.pno).status = ON_DISK ∧
      (∀ i, resident s i ↔ i ∈ (mid ++ [z]).map Access.pno) ∧
      ∀ (k : Nat) (sk : State),
        run (initPageTable Policy.REPL_LRU np N) ((a :: (mid ++ [z])).take k) = some sk →
          residentCount sk ≤ N) ∧
    (∃ s, run (initPageTable Policy.REPL_LRU 3 2) [⟨0, 'r', 1⟩, ⟨1, 'r', 2⟩, ⟨2, 'r', 3⟩]
        = some s ∧
      ¬ resident s 0 ∧ resident s 1 ∧ resident s 2) := by
  refine ⟨?_, ⟨_, rfl, by decide, by decide, by decide⟩⟩
  have hpol : (initPageTable Policy.REPL_LRU np N).replacePolicy ≠ Policy.REPL_CLOCK :=
    fun h => Policy.noConfusion h
  have hinv0 := inv_init Policy.REPL_LRU np N (fun h => Policy.noConfusion h)
  obtain ⟨L0, hc0, hq0⟩ := inv_queue hinv0 hN
  have hL0 : L0 = [] := List.eq_nil_of_length_eq_zero hc0.len
  subst hL0
  have hdist' : ((a :: mid).map Access.pno).Nodup ∧
      z.pno ∉ (a :: mid).map Access.pno := by
    have : (a :: (mid ++ [z])).map Access.pno = (a :: mid).map Access.pno ++ [z.pno] := by
      simp
    rw [this, List.nodup_append] at hdist
    refine ⟨hdist.1, fun h => ?_⟩
    exact hdist.2.2 h (List.mem_singleton_self _)
  obtain ⟨s0, r1, c0, q0, p0, f0, n0, lf0, lh0⟩ := cold_fill (a :: mid)
    (initPageTable Policy.REPL_LRU np N) [] hc0 hq0
    (fun b hb => hacc b (by
      rcases List.mem_cons.mp hb with h | h
      · exact h ▸ List.mem_cons_self _ _
      · exact List.mem_cons_of_mem _ (List.mem_append_left _ h)))
    hdist'.1 (fun b _ h => absurd h (List.not_mem_nil _))
    (by
      simp only [List.length_nil, List.length_cons, zero_add]
      exact le_of_eq hlen)
  simp only [List.nil_append, List.map_cons] at c0 q0
  have hpol0 : s0.replacePolicy ≠ Policy.REPL_CLOCK := by
    rw [p0]
    exact hpol
  have hf0 : s0.nFrames = N := f0
  have hzp : validIndex s0 z.pno := by
    have := hacc z (List.mem_cons_of_mem _ (List.mem_append_right _ (List.mem_singleton_self z)))
    unfold validIndex
    rw [n0]
    exact this
  have hznr : (s0.table z.pno).status ≠ IN_MEMORY := by
    intro h
    have := (c0.mem z.pno).mpr ⟨hzp, h⟩
    exact hdist'.2 (by simpa using this)
  have hzf : isFault s0 z.pno := by
    rcases c0.status_ok z.pno with h | h | h
    · exact Or.inl h
    · exact absurd h hznr
    · exact Or.inr h
  have hfull : s0.nFrames ≤ s0.nUsed := by
    have := c0.len
    simp only [List.length_cons, List.length_map] at this
    omega
  have hvic : findVictim s0 z.pno z.time = a.pno := by
    rw [findVictim_of_list hpol0]
    exact q0.1
  have hcur := queue_cursors_valid q0 c0 (List.cons_ne_nil _ _)
  have hstep := requestPage_evict s0 z.pno z.mode z.time hzp hzf hfull
    (by rw [hvic]; exact ((c0.mem a.pno).mp (List.mem_cons_self _ _)).1) hcur.1 hcur.2
  have hrun : run (initPageTable Policy.REPL_LRU np N) (a :: (mid ++ [z]))
      = some (evictStep s0 z.pno z.mode z.time) := by
    have := run_append_ok (initPageTable Policy.REPL_LRU np N) s0 (a :: mid) [z] r1
    simp only [List.cons_append] at this
    rw [this, run_cons_of_ok s0 _ z [] _ hstep]
    rfl
  have hcz := core_evict c0 z.pno z.mode z.time hzp hzf hfull hvic
  have haz : a.pno ≠ z.pno := by
    intro e
    exact hdist'.2 (by rw [← e]; exact List.mem_cons_self _ _)
  refine ⟨s0, evictStep s0 z.pno z.mode z.time, r1, hrun, ?_, ?_, ⟨hzp, hzf, hfull⟩, ?_, ?_, ?_,
    ?_⟩
  · rw [evictStep_log, hvic]
    simp only [List.count_append, lf0]
    have e1 : List.count Event.countPageFault [Event.countPageFault, Event.findFreeFrame]
        = 1 := by simp [List.count_cons]
    have e2 : List.count Event.countPageFault
        (if (s0.table a.pno).modified = true then [Event.saveFrame (s0.table a.pno).frame]
          else []) = 0 := by
      split_ifs <;> simp [List.count_cons]
    have e3 : List.count Event.countPageFault
        [Event.loadFrame (s0.table a.pno).frame z.pno z.time] = 0 := by
      simp [List.count_cons]
    rw [e1, e2, e3]
    simp only [initPageTable, List.count_nil, List.length_cons]
    omega
  · rw [evictStep_log, hvic]
    simp only [List.count_append, lh0]
    have e2 : List.count Event.countPageHit
        (if (s0.table a.pno).modified = true then [Event.saveFrame (s0.table a.pno).frame]
          else []) = 0 := by
      split_ifs <;> simp [List.count_cons]
    rw [e2]
    simp [initPageTable, List.count_cons]
  · rw [findVictim_afterFindFree]
    exact hvic
  · rw [evictStep_table_status, if_neg haz, hvic, if_pos rfl]
  · intro i
    rw [← hcz.mem i]
    simp
  · intro k sk hk
    have hinvk := inv_run _ _ sk hinv0 hk
    obtain ⟨_, hfr, _⟩ := run_params _ _ sk hk
    obtain ⟨_, Lk, hck, _⟩ := hinvk
    rw [core_count hck]
    have := hck.used
    rw [hfr] at this
    exact this

/-- C15 at a concrete input: two frames, `read(0,1)`, `read(1,2)`, `read(2,3)`. -/
theorem lru_cold_fill_witness :
    ∃ s0 s, run (initPageTable Policy.REPL_LRU 3 2) [⟨0, 'r', 1⟩, ⟨1, 'r', 2⟩] = some s0 ∧
      run (initPageTable Policy.REPL_LRU 3 2) [⟨0, 'r', 1⟩, ⟨1, 'r', 2⟩, ⟨2, 'r', 3⟩] = some s ∧
      s.log.count Event.countPageFault = 2 + 1 ∧ s.log.count Event.countPageHit = 0 ∧
      evicts s0 ⟨2, 'r', 3⟩ ∧ findVictim (afterFindFree s0) 2 3 = 0 ∧
      (s.table 0).status = ON_DISK ∧
      (∀ i, resident s i ↔ i ∈ ([⟨1, 'r', 2⟩, ⟨2, 'r', 3⟩] : List Access).map Access.pno) ∧
      ∀ (k : Nat) (sk : State),
        run (initPageTable Policy.REPL_LRU 3 2)
          (([⟨0, 'r', 1⟩, ⟨1, 'r', 2⟩, ⟨2, 'r', 3⟩] : List Access).take k) = some sk →
          residentCount sk ≤ 2 :=
  (lru_cold_fill 3 2 (by decide) ⟨0, 'r', 1⟩ [⟨1, 'r', 2⟩] ⟨2, 'r', 3⟩ rfl (by decide)
    (by decide)).1

/-! ## `REPL_LRU` and `REPL_FIFO` (C16) -/

theorem findVictim_withPolicy (q : Policy) (s : State) (pno time : Int)
    (hs : s.replacePolicy ≠ Policy.REPL_CLOCK) (hq : q ≠ Policy.REPL_CLOCK) :
    findVictim (withPolicy q s) pno time = findVictim s pno time := by
  rw [findVictim_of_list hs]
  exact findVictim_of_list (s := withPolicy q s) hq pno time

theorem applyAccess_withPolicy (q : Policy) (s : State) (pno : Int) (mode : Char) (time : Int) :
    applyAccess (withPolicy q s) pno mode time
      = (withPolicy q (applyAccess s pno mode time).1, (applyAccess s pno mode time).2) := by
  simp only [applyAccess]
  split_ifs <;> rfl

theorem loadInto_withPolicy (q : Policy) (s : State) (pno fno : Int) (mode : Char)
    (time : Int) :
    loadInto (withPolicy q s) pno fno mode time
      = (withPolicy q (loadInto s pno fno mode time).1, (loadInto s pno fno mode time).2) := by
  have e : updatePageTable (loadFrame (withPolicy q s) fno pno time) pno fno time
      = withPolicy q (updatePageTable (loadFrame s fno pno time) pno fno time) := rfl
  have ea : ∀ t : State, appendToList (withPolicy q t) pno = withPolicy q (appendToList t pno) := by
    intro t
    simp only [appendToList, withPolicy]
    split_ifs <;> rfl
  have eb : ∀ t : State, appendInBounds (withPolicy q t) ↔ appendInBounds t := fun _ => Iff.rfl
  simp only [loadInto, e]
  by_cases hb : appendInBounds (updatePageTable (loadFrame s fno pno time) pno fno time)
  · rw [if_pos hb, if_pos ((eb _).mpr hb), ea, applyAccess_withPolicy]
  · rw [if_neg hb, if_neg (fun h => hb ((eb _).mp h))]

theorem evict_withPolicy (q : Policy) (s : State) (pno time : Int)
    (hs : s.replacePolicy ≠ Policy.REPL_CLOCK) (hq : q ≠ Policy.REPL_CLOCK) :
    evict (withPolicy q s) pno time
      = (withPolicy q (evict s pno time).1, (evict s pno time).2) := by
  have ev : ∀ t : State, ∀ i, validIndex (withPolicy q t) i ↔ validIndex t i :=
    fun _ _ => Iff.rfl
  simp only [evict, findVictim_withPolicy q s pno time hs hq]
  by_cases h1 : validIndex s (findVictim s pno time)
  · rw [if_pos h1, if_pos ((ev _ _).mpr h1)]
    have e2 : updateVictimTable (saveIfModified (withPolicy q s) (findVictim s pno time))
          (findVictim s pno time) time
        = withPolicy q (updateVictimTable (saveIfModified s (findVictim s pno time))
          (findVictim s pno time) time) := by
      simp only [saveIfModified, withPolicy]
      split_ifs <;> rfl
    rw [e2]
    have ec : (validIndex
          (withPolicy q (updateVictimTable (saveIfModified s (findVictim s pno time))
            (findVictim s pno time) time))
          (withPolicy q (updateVictimTable (saveIfModified s (findVictim s pno time))
            (findVictim s pno time) time)).first ∧
        validIndex
          (withPolicy q (updateVictimTable (saveIfModified s (findVictim s pno time))
            (findVictim s pno time) time))
          (withPolicy q (updateVictimTable (saveIfModified s (findVictim s pno time))
            (findVictim s pno time) time)).last) =
        (validIndex (updateVictimTable (saveIfModified s (findVictim s pno time))
          (findVictim s pno time) time)
          (updateVictimTable (saveIfModified s (findVictim s pno time))
            (findVictim s pno time) time).first ∧
        validIndex (updateVictimTable (saveIfModified s (findVictim s pno time))
          (findVictim s pno time) time)
          (updateVictimTable (saveIfModified s (findVictim s pno time))
            (findVictim s pno time) time).last) := rfl
    simp only [ec]
    split_ifs <;> rfl
  · rw [if_neg h1, if_neg (fun h => h1 ((ev _ _).mp h))]

/-- A call does the same under any two list policies. -/
theorem requestPage_withPolicy (q : Policy) (s : State) (pno : Int) (mode : Char) (time : Int)
    (hs : s.replacePolicy ≠ Policy.REPL_CLOCK) (hq : q ≠ Policy.REPL_CLOCK) :
    requestPage (withPolicy q s) pno mode time
      = (withPolicy q (requestPage s pno mode time).1, (requestPage s pno mode time).2) := by
  simp only [requestPage]
  by_cases hp : pno < 0 ∨ pno ≥ s.nPages
  · rw [if_pos hp, if_pos (show pno < 0 ∨ pno ≥ (withPolicy q s).nPages from hp)]
  rw [if_neg hp, if_neg (show ¬ (pno < 0 ∨ pno ≥ (withPolicy q s).nPages) from hp)]
  by_cases hf : (s.table pno).status = NOT_USED ∨ (s.table pno).status = ON_DISK
  · rw [if_pos hf, if_pos (show ((withPolicy q s).table pno).status = NOT_USED ∨
      ((withPolicy q s).table pno).status = ON_DISK from hf)]
    have eff : findFreeFrame (countPageFault { withPolicy q s with isupdated := NOTUPDATED })
        = ((findFreeFrame (countPageFault { s with isupdated := NOTUPDATED })).1,
            withPolicy q (findFreeFrame (countPageFault { s with isupdated := NOTUPDATED })).2) := by
      simp only [findFreeFrame, countPageFault, withPolicy]
      split_ifs <;> rfl
    rw [eff]
    have hpol : (findFreeFrame (countPageFault { s with isupdated := NOTUPDATED })).2.replacePolicy
        ≠ Policy.REPL_CLOCK := by
      simp only [findFreeFrame, countPageFault]
      split_ifs <;> exact hs
    by_cases hn : (findFreeFrame (countPageFault { s with isupdated := NOTUPDATED })).1 = NONE
    · simp only [hn, if_true]
      rw [evict_withPolicy q _ pno time hpol hq]
      rcases he : evict (findFreeFrame (countPageFault { s with isupdated := NOTUPDATED })).2
        pno time with ⟨s2, o⟩
      cases o with
      | none => rfl
      | some fno => exact loadInto_withPolicy q s2 pno fno mode time
    · simp only [hn, if_false]
      exact loadInto_withPolicy q
        (findFreeFrame (countPageFault { s with isupdated := NOTUPDATED })).2 pno
        (findFreeFrame (countPageFault { s with isupdated := NOTUPDATED })).1 mode time
  · rw [if_neg hf, if_neg (show ¬ (((withPolicy q s).table pno).status = NOT_USED ∨
      ((withPolicy q s).table pno).status = ON_DISK) from hf)]
    by_cases hs' : (s.table pno).status = IN_MEMORY
    · rw [if_pos hs', if_pos (show ((withPolicy q s).table pno).status = IN_MEMORY from hs')]
      exact applyAccess_withPolicy q
        (modifyEntry (countPageHit { s with isupdated := NOTUPDATED }) pno
          fun e => { e with accessTime := time }) pno mode time
    · rw [if_neg hs', if_neg (show ¬ ((withPolicy q s).table pno).status = IN_MEMORY from hs')]
      rfl

theorem victimOf_withPolicy (q : Policy) (s : State) (a : Access)
    (hs : s.replacePolicy ≠ Policy.REPL_CLOCK) (hq : q ≠ Policy.REPL_CLOCK) :
    victimOf (withPolicy q s, a) = victimOf (s, a) := by
  have e : findVictim (afterFindFree (withPolicy q s)) a.pno a.time
      = findVictim (afterFindFree s) a.pno a.time := by
    rw [findVictim_afterFindFree, findVictim_afterFindFree, findVictim_withPolicy q s _ _ hs hq]
  have ec : evicts (withPolicy q s) a = evicts s a := rfl
  simp only [victimOf, e, ec]

theorem run_parts_ok (s s1 : State) (a : Access) (rest : List Access) (f : Int)
    (h : requestPage s a.pno a.mode a.time = (s1, Result.ok f)) :
    results s (a :: rest) = Result.ok f :: results s1 rest ∧
    victims s (a :: rest) = (victimOf (s, a)).toList ++ victims s1 rest ∧
    exec s (a :: rest) = exec s1 rest := by
  refine ⟨?_, ?_, ?_⟩
  · simp [results, trace, h]
  · simp only [victims, trace, h, List.filterMap_cons]
    cases victimOf (s, a) <;> simp
  · simp [exec, h]

theorem run_parts_stop (s s1 : State) (a : Access) (rest : List Access) (r : Result)
    (h : requestPage s a.pno a.mode a.time = (s1, r)) (hr : ∀ f, r ≠ Result.ok f) :
    results s (a :: rest) = [r] ∧
    victims s (a :: rest) = (victimOf (s, a)).toList ∧
    exec s (a :: rest) = s1 := by
  cases r with
  | ok f => exact absurd rfl (hr f)
  | invalidPageReference =>
    refine ⟨by simp [results, trace, h], ?_, by simp [exec, h]⟩
    simp only [victims, trace, h, List.filterMap_cons]
    cases victimOf (s, a) <;> simp
  | invalidPageStatus =>
    refine ⟨by simp [results, trace, h], ?_, by simp [exec, h]⟩
    simp only [victims, trace, h, List.filterMap_cons]
    cases victimOf (s, a) <;> simp
  | outOfBounds =>
    refine ⟨by simp [results, trace, h], ?_, by simp [exec, h]⟩
    simp only [victims, trace, h, List.filterMap_cons]
    cases victimOf (s, a) <;> simp

theorem run_withPolicy (q : Policy) (hq : q ≠ Policy.REPL_CLOCK) (accs : List Access) :
    ∀ s : State, s.replacePolicy ≠ Policy.REPL_CLOCK →
      results (withPolicy q s) accs = results s accs ∧
      victims (withPolicy q s) accs = victims s accs ∧
      exec (withPolicy q s) accs = withPolicy q (exec s accs) := by
  induction accs with
  | nil =>
    intro s _
    exact ⟨rfl, rfl, rfl⟩
  | cons a rest ih =>
    intro s hs
    have hw := requestPage_withPolicy q s a.pno a.mode a.time hs hq
    have hv := victimOf_withPolicy q s a hs hq
    rcases hr : requestPage s a.pno a.mode a.time with ⟨s1, r⟩
    rw [hr] at hw
    by_cases hok : ∃ f, r = Result.ok f
    · obtain ⟨f, rfl⟩ := hok
      obtain ⟨a1, a2, a3⟩ := run_parts_ok s s1 a rest f hr
      obtain ⟨b1, b2, b3⟩ := run_parts_ok (withPolicy q s) (withPolicy q s1) a rest f hw
      have hs1 : s1.replacePolicy ≠ Policy.REPL_CLOCK := by
        rw [(requestPage_params s s1 a.pno a.mode a.time f hr).2.2]
        exact hs
      obtain ⟨i1, i2, i3⟩ := ih s1 hs1
      rw [a1, a2, a3, b1, b2, b3, i1, i2, i3, hv]
      exact ⟨rfl, rfl, rfl⟩
    · have hne : ∀ f, r ≠ Result.ok f := fun f h => hok ⟨f, h⟩
      obtain ⟨a1, a2, a3⟩ := run_parts_stop s s1 a rest r hr hne
      obtain ⟨b1, b2, b3⟩ := run_parts_stop (withPolicy q s) (withPolicy q s1) a rest r hw hne
      rw [a1, a2, a3, b1, b2, b3, hv]
      exact ⟨rfl, rfl, rfl⟩

/-- C16 (LRU and FIFO are the same program).  For every `nPages`, every
frame-pool size and every sequence of calls, running the sequence after
`initPageTable(REPL_LRU, nPages)` and after `initPageTable(REPL_FIFO, nPages)`
gives the same result for every call (the same returned frame, or the same
abort, at which both runs stop), the same victims, the same sequence of
collaborator calls (fault, hit, `findFreeFrame`, load, save), and identical
final page entries and list cursors. -/
theorem lru_fifo_same_program (np : Int) (N : Nat) (accs : List Access) :
    results (initPageTable Policy.REPL_LRU np N) accs
      = results (initPageTable Policy.REPL_FIFO np N) accs ∧
    victims (initPageTable Policy.REPL_LRU np N) accs
      = victims (initPageTable Policy.REPL_FIFO np N) accs ∧
    (exec (initPageTable Policy.REPL_LRU np N) accs).log
      = (exec (initPageTable Policy.REPL_FIFO np N) accs).log ∧
    (exec (initPageTable Policy.REPL_LRU np N) accs).table
      = (exec (initPageTable Policy.REPL_FIFO np N) accs).table ∧
    (exec (initPageTable Policy.REPL_LRU np N) accs).first
      = (exec (initPageTable Policy.REPL_FIFO np N) accs).first ∧
    (exec (initPageTable Policy.REPL_LRU np N) accs).last
      = (exec (initPageTable Policy.REPL_FIFO np N) accs).last := by
  have hinit : initPageTable Policy.REPL_FIFO np N
      = withPolicy Policy.REPL_FIFO (initPageTable Policy.REPL_LRU np N) := rfl
  obtain ⟨h1, h2, h3⟩ := run_withPolicy Policy.REPL_FIFO (by decide) accs
    (initPageTable Policy.REPL_LRU np N) (fun h => Policy.noConfusion h)
  rw [hinit, h1, h2, h3]
  exact ⟨rfl, rfl, rfl, rfl, rfl, rfl⟩

/-- C16 at a concrete input: three pages, two frames, `read(0,1)`, `read(1,2)`,
the hit `read(0,3)`, `read(2,4)`; under both policies the victim is page 0. -/
theorem lru_fifo_same_program_witness :
    victims (initPageTable Policy.REPL_LRU 3 2)
        [⟨0, 'r', 1⟩, ⟨1, 'r', 2⟩, ⟨0, 'r', 3⟩, ⟨2, 'r', 4⟩] = [0] ∧
    victims (initPageTable Policy.REPL_FIFO 3 2)
        [⟨0, 'r', 1⟩, ⟨1, 'r', 2⟩, ⟨0, 'r', 3⟩, ⟨2, 'r', 4⟩] = [0] :=
  ⟨by decide,
    (lru_fifo_same_program 3 2 [⟨0, 'r', 1⟩, ⟨1, 'r', 2⟩, ⟨0, 'r', 3⟩, ⟨2, 'r', 4⟩]).2.1.symm.trans
      (by decide)⟩

/-! ## The arrival list with two frames or more (C17) -/

theorem queue_evict {s : State} {a b : Int} {t : List Int} (hq : Queue s (a :: b :: t))
    (hc : Core s (a :: b :: t)) (pno : Int) (mode : Char) (time : Int) :
    Queue (evictStep s pno mode time) (b :: t ++ [pno]) := by
  simp only [Queue, Linked] at hq
  simp only [List.cons_append, Queue, evictStep_first, evictStep_last]
  refine ⟨by rw [hq.1]; exact hq.2.1, ?_⟩
  refine linked_append _ _ s.last pno ?_ ?_ hq.2.2 (List.nodup_cons.mp hc.nodup).2
  · intro j hj
    simp [evictStep_table_next, hj]
  · simp [evictStep_table_next]

theorem timedQueue_init (policy : Policy) (np : Int) (N : Nat) (T : Int)
    (hpol : policy ≠ Policy.REPL_CLOCK) (hN : 2 ≤ N) :
    TimedQueue (initPageTable policy np N) T := by
  obtain ⟨L, hc, hq⟩ := inv_queue (inv_init policy np N hpol) hN
  have hL : L = [] := List.eq_nil_of_length_eq_zero hc.len
  subst hL
  exact ⟨hpol, hN, [], hc, hq, List.Pairwise.nil, fun i hi => absurd hi (List.not_mem_nil i)⟩

theorem timedQueue_step {s s' : State} {T : Int} (h : TimedQueue s T) (pno : Int)
    (mode : Char) (time f : Int) (hT : T ≤ time)
    (hr : requestPage s pno mode time = (s', Result.ok f)) : TimedQueue s' time := by
  obtain ⟨hpol, hN, L, hc, hq, hsorted, hbound⟩ := h
  obtain ⟨hp, hcase⟩ := requestPage_ok_cases s s' pno mode time f hr
  rcases hcase with ⟨_, rfl, _⟩ | ⟨hf, hfree, _, rfl, _⟩ | ⟨hf, hfull, _, _, _, rfl, _⟩
  · refine ⟨by rw [hitStep_replacePolicy]; exact hpol, by rw [hitStep_nFrames]; exact hN, L,
      core_hit hc pno mode time, queue_hit hq pno mode time, ?_, ?_⟩
    · simpa only [hitStep_table_loadTime] using hsorted
    · intro i hi
      rw [hitStep_table_loadTime]
      exact le_trans (hbound i hi) hT
  · have hs : (s.table pno).status ≠ IN_MEMORY := by
      rcases hf with hf | hf <;> rw [hf] <;> decide
    have hne : ∀ i ∈ L, i ≠ pno := fun i hi e => hs ((hc.mem pno).mp (e ▸ hi)).2
    refine ⟨by rw [freeStep_replacePolicy]; exact hpol, by rw [freeStep_nFrames]; exact hN,
      L ++ [pno], core_free hc pno mode time hp hf hfree, queue_free hq hc pno mode time, ?_, ?_⟩
    · rw [List.pairwise_append]
      refine ⟨?_, List.pairwise_singleton _ _, ?_⟩
      · refine List.Pairwise.imp_of_mem ?_ hsorted
        intro i j hi hj hij
        simp only [freeStep_table_loadTime, hne i hi, hne j hj, if_false]
        exact hij
      · intro i hi j hj
        have ej : j = pno := by simpa using hj
        simp only [freeStep_table_loadTime, hne i hi, ej, if_false, if_true]
        exact le_trans (hbound i hi) hT
    · intro i hi
      rw [freeStep_table_loadTime]
      by_cases e : i = pno
      · simp [e]
      · simp only [e, if_false]
        rcases List.mem_append.mp hi with hi | hi
        · exact le_trans (hbound i hi) hT
        · exact absurd (by simpa using hi) e
  · have hs : (s.table pno).status ≠ IN_MEMORY := by
      rcases hf with hf | hf <;> rw [hf] <;> decide
    have hlen := hc.len
    have hused := hc.used
    cases L with
    | nil =>
      simp only [List.length_nil] at hlen
      omega
    | cons a t =>
      cases t with
      | nil =>
        simp only [List.length_cons, List.length_nil] at hlen
        omega
      | cons b t =>
        have hv : findVictim s pno time = a := by
          rw [findVictim_of_list hpol]
          exact hq.1
        have hnd := hc.nodup
        have hne : ∀ i ∈ b :: t, i ≠ pno ∧ i ≠ findVictim s pno time := by
          intro i hi
          constructor
          · intro e
            exact hs ((hc.mem pno).mp (e ▸ List.mem_cons_of_mem _ hi)).2
          · intro e
            rw [hv] at e
            exact (List.nodup_cons.mp hnd).1 (e ▸ hi)
        refine ⟨by rw [evictStep_replacePolicy]; exact hpol,
          by rw [evictStep_nFrames]; exact hN, b :: t ++ [pno],
          core_evict hc pno mode time hp hf hfull hv, queue_evict hq hc pno mode time, ?_, ?_⟩
        · rw [List.pairwise_append]
          refine ⟨?_, List.pairwise_singleton _ _, ?_⟩
          · refine List.Pairwise.imp_of_mem ?_ (List.Pairwise.of_cons hsorted)
            intro i j hi hj hij
            simp only [evictStep_table_loadTime, (hne i hi).1, (hne i hi).2, (hne j hj).1,
              (hne j hj).2, if_false]
            exact hij
          · intro i hi j hj
            have ej : j = pno := by simpa using hj
            simp only [evictStep_table_loadTime, (hne i hi).1, (hne i hi).2, ej, if_false,
              if_true]
            exact le_trans (hbound i (List.mem_cons_of_mem _ hi)) hT
        · intro i hi
          rw [evictStep_table_loadTime]
          by_cases e : i = pno
          · simp [e]
          · rcases List.mem_append.mp hi with hi | hi
            · simp only [(hne i hi).1, (hne i hi).2, if_false]
              exact le_trans (hbound i (List.mem_cons_of_mem _ hi)) hT
            · exact absurd (by simpa using hi) e

theorem timedQueue_inv {s : State} {T : Int} (h : TimedQueue s T) : Inv s := by
  obtain ⟨hpol, hN, L, hc, hq, _, _⟩ := h
  exact ⟨hpol, L, hc, Or.inl ⟨hq, Or.inl hN⟩⟩

theorem timedQueue_run (accs : List Access) :
    ∀ (s : State) (T : Int), TimedQueue s T → (∀ a ∈ accs, validIndex s a.pno) →
      List.Chain (· ≤ ·) T (accs.map Access.time) →
      ∃ s', run s accs = some s' ∧ TimedQueue s' (latestTime T accs) := by
  induction accs with
  | nil =>
    intro s T h _ _
    exact ⟨s, rfl, h⟩
  | cons a rest ih =>
    intro s T h hacc hch
    simp only [List.map_cons, List.chain_cons] at hch
    obtain ⟨s1, f, h1⟩ := inv_returns (timedQueue_inv h) h.2.1 a.pno a.mode a.time
      (hacc a (List.mem_cons_self a rest))
    obtain ⟨e1, _, _⟩ := requestPage_params s s1 a.pno a.mode a.time f h1
    have hacc' : ∀ b ∈ rest, validIndex s1 b.pno := by
      intro b hb
      have := hacc b (List.mem_cons_of_mem _ hb)
      simpa [validIndex, e1] using this
    obtain ⟨s', h2, h3⟩ := ih s1 a.time (timedQueue_step h a.pno a.mode a.time f hch.1 h1)
      hacc' hch.2
    exact ⟨s', by rw [run_cons_of_ok s s1 a rest f h1]; exact h2, h3⟩

theorem walk_of_linked (s : State) :
    ∀ (a : Int) (t : List Int), Linked (fun i => (s.table i).next) s.last a t →
      walk s (t.length + 1) a = a :: t ∧ (a :: t).getLast? = some s.last := by
  intro a t
  induction t generalizing a with
  | nil =>
    intro h
    simp only [Linked] at h
    simp [walk, h]
  | cons y t ih =>
    intro h
    simp only [Linked] at h
    obtain ⟨i1, i2⟩ := ih y h.2
    constructor
    · simp only [List.length_cons, walk] at i1 ⊢
      rw [h.1, i1]
    · rw [List.getLast?_cons_cons]
      exact i2

/-- C17 (well-formed arrival list with at least two frames).  For `REPL_LRU` or
`REPL_FIFO`, a frame pool of `N ≥ 2` frames and every sequence of calls with
pages in `[0, nPages)` and non-decreasing times: every call returns, so no
table index used by `requestPage`, `findVictim` or `updateList` is out of
range.  In the state reached, if `k ≥ 1` pages are resident, then starting at
`first` and following `next` `k - 1` times visits `k` pairwise distinct pages,
which are exactly the `IN_MEMORY` pages, in non-decreasing `loadTime` order,
and the walk ends at `last`.  And whenever a further call faults with no free
frame, the victim `findVictim` returns is a resident page whose `loadTime` is
least among the resident pages. -/
theorem arrival_list_well_formed (policy : Policy)
    (hpol : policy = Policy.REPL_LRU ∨ policy = Policy.REPL_FIFO)
    (np : Int) (N : Nat) (hN : 2 ≤ N) (accs : List Access)
    (hacc : ∀ a ∈ accs, 0 ≤ a.pno ∧ a.pno < np)
    (htime : List.Chain' (· ≤ ·) (accs.map Access.time)) :
    ∃ s, run (initPageTable policy np N) accs = some s ∧
      (1 ≤ residentCount s →
        (walk s (residentCount s) s.first).length = residentCount s ∧
        (walk s (residentCount s) s.first).Nodup ∧
        (∀ i, i ∈ walk s (residentCount s) s.first ↔ resident s i) ∧
        (walk s (residentCount s) s.first).Pairwise
          (fun i j => (s.table i).loadTime ≤ (s.table j).loadTime) ∧
        (walk s (residentCount s) s.first).getLast? = some s.last) ∧
      (∀ pno time : Int, validIndex s pno → isFault s pno → s.nFrames ≤ s.nUsed →
        resident s (findVictim (afterFindFree s) pno time) ∧
        ∀ j, resident s j →
          (s.table (findVictim (afterFindFree s) pno time)).loadTime ≤ (s.table j).loadTime) := by
  have hclock : policy ≠ Policy.REPL_CLOCK := by
    rcases hpol with h | h <;> rw [h] <;> decide
  have hrun : ∃ s T, run (initPageTable policy np N) accs = some s ∧ TimedQueue s T := by
    cases accs with
    | nil => exact ⟨_, 0, rfl, timedQueue_init policy np N 0 hclock hN⟩
    | cons a rest =>
      have hch : List.Chain (· ≤ ·) a.time ((a :: rest).map Access.time) := by
        simp only [List.map_cons, List.chain_cons]
        exact ⟨le_refl _, htime⟩
      obtain ⟨s, h1, h2⟩ := timedQueue_run (a :: rest) _ a.time
        (timedQueue_init policy np N a.time hclock hN) (fun b hb => hacc b hb) hch
      exact ⟨s, _, h1, h2⟩
  obtain ⟨s, T, hs, hpol', hN', L, hc, hq, hsorted, _⟩ := hrun
  refine ⟨s, hs, ?_, ?_⟩
  · intro hk
    rw [core_count hc, ← hc.len] at hk ⊢
    cases L with
    | nil => simp at hk
    | cons a t =>
      simp only [Queue] at hq
      obtain ⟨w1, w2⟩ := walk_of_linked s a t hq.2
      simp only [List.length_cons]
      rw [hq.1, w1]
      exact ⟨rfl, hc.nodup, hc.mem, hsorted, w2⟩
  · intro pno time _ _ hfull
    rw [findVictim_afterFindFree, findVictim_of_list hpol']
    have hlen := hc.len
    have hused := hc.used
    cases L with
    | nil =>
      simp only [List.length_nil] at hlen
      omega
    | cons a t =>
      simp only [Queue] at hq
      rw [hq.1]
      refine ⟨(hc.mem a).mp (List.mem_cons_self a t), ?_⟩
      intro j hj
      rcases List.mem_cons.mp ((hc.mem j).mpr hj) with e | e
      · rw [e]
      · exact List.rel_of_pairwise_cons hsorted e

/-- C17 at a concrete input: `REPL_FIFO`, three pages, two frames, `read(0,1)`,
`read(1,2)`, `read(2,3)`, the hit `read(1,4)`. -/
theorem arrival_list_well_formed_witness :
    ∃ s, run (initPageTable Policy.REPL_FIFO 3 2)
        [⟨0, 'r', 1⟩, ⟨1, 'r', 2⟩, ⟨2, 'r', 3⟩, ⟨1, 'r', 4⟩] = some s ∧
      (1 ≤ residentCount s →
        (walk s (residentCount s) s.first).length = residentCount s ∧
        (walk s (residentCount s) s.first).Nodup ∧
        (∀ i, i ∈ walk s (residentCount s) s.first ↔ resident s i) ∧
        (walk s (residentCount s) s.first).Pairwise
          (fun i j => (s.table i).loadTime ≤ (s.table j).loadTime) ∧
        (walk s (residentCount s) s.first).getLast? = some s.last) ∧
      (∀ pno time : Int, validIndex s pno → isFault s pno → s.nFrames ≤ s.nUsed →
        resident s (findVictim (afterFindFree s) pno time) ∧
        ∀ j, resident s j →
          (s.table (findVictim (afterFindFree s) pno time)).loadTime ≤ (s.table j).loadTime) :=
  arrival_list_well_formed Policy.REPL_FIFO (Or.inr rfl) 3 2 (by decide)
    [⟨0, 'r', 1⟩, ⟨1, 'r', 2⟩, ⟨2, 'r', 3⟩, ⟨1, 'r', 4⟩] (by decide) (by simp)

/-! ## Status-dependent fields (C18) -/

theorem fieldsOk_init (policy : Policy) (np : Int) (N : Nat) (T : Int) :
    FieldsOk (initPageTable policy np N) T := by
  intro p
  constructor
  · intro _
    exact ⟨rfl, rfl, rfl⟩
  · intro h
    simp [initPageTable, initPTE] at h

theorem fieldsOk_step (s s' : State) (pno : Int) (mode : Char) (time f T : Int)
    (h : requestPage s pno mode time = (s', Result.ok f)) (hT : T ≤ time) (h0 : 0 ≤ time)
    (hs : FieldsOk s T) : FieldsOk s' time := by
  obtain ⟨_, hc⟩ := requestPage_ok_cases s s' pno mode time f h
  intro p
  rcases hc with ⟨hst, rfl, _⟩ | ⟨_, _, _, rfl, _⟩ | ⟨_, _, _, _, _, rfl, _⟩
  · rw [hitStep_table_status, hitStep_table_frame, hitStep_table_accessTime,
      hitStep_table_loadTime]
    by_cases hp : p = pno
    · subst hp
      simp only [hst, if_true]
      have := ((hs p).2 hst)
      exact ⟨fun h => absurd rfl h, fun _ => ⟨this.1, by omega, le_refl _⟩⟩
    · simp only [hp, if_false]
      refine ⟨(hs p).1, fun h => ?_⟩
      have := (hs p).2 h
      exact ⟨this.1, this.2.1, by omega⟩
  · rw [freeStep_table_status, freeStep_table_frame, freeStep_table_accessTime,
      freeStep_table_loadTime]
    by_cases hp : p = pno
    · subst hp
      simp only [if_true]
      exact ⟨fun h => absurd rfl h, fun _ => ⟨h0, le_refl _, le_refl _⟩⟩
    · simp only [hp, if_false]
      refine ⟨(hs p).1, fun h => ?_⟩
      have := (hs p).2 h
      exact ⟨this.1, this.2.1, by omega⟩
  · rw [evictStep_table_status, evictStep_table_frame, evictStep_table_accessTime,
      evictStep_table_loadTime]
    by_cases hp : p = pno
    · subst hp
      simp only [if_true]
      exact ⟨fun h => absurd rfl h, fun _ => ⟨h0, le_refl _, le_refl _⟩⟩
    · by_cases hv : p = findVictim s pno time
      · subst hv
        rw [if_neg hp, if_pos rfl, if_neg hp, if_pos rfl, if_neg hp, if_pos rfl, if_neg hp,
          if_pos rfl]
        exact ⟨fun _ => ⟨rfl, rfl, rfl⟩, fun h => absurd h (by decide)⟩
      · simp only [hp, hv, if_false]
        refine ⟨(hs p).1, fun h => ?_⟩
        have := (hs p).2 h
        exact ⟨this.1, this.2.1, by omega⟩

theorem fieldsOk_run (accs : List Access) :
    ∀ (s s' : State) (T : Int), run s accs = some s' → 0 ≤ T →
      List.Chain (· ≤ ·) T (accs.map Access.time) → FieldsOk s T →
      FieldsOk s' (latestTime T accs) := by
  induction accs with
  | nil =>
    intro s s' T h _ _ hs
    simp only [run, Option.some.injEq] at h
    subst h
    exact hs
  | cons a rest ih =>
    intro s s' T h h0 hch hs
    obtain ⟨s1, f, h1, h2⟩ := run_cons s s' a rest h
    simp only [List.map_cons, List.chain_cons] at hch
    have ha : 0 ≤ a.time := le_trans h0 hch.1
    exact ih s1 s' a.time h2 ha hch.2
      (fieldsOk_step s s1 a.pno a.mode a.time f T h1 hch.1 ha hs)

/-- C18 (status-dependent fields are consistent).  Take any policy, any
frame-pool size and a sequence of calls that all return, whose times are
non-negative and non-decreasing (`0 ≤ t₁ ≤ t₂ ≤ ...`).  Afterwards, for every
page `p`: if `p` is `NOT_USED` or `ON_DISK` then `frame`, `accessTime` and
`loadTime` of `p` are all `NONE`; if `p` is `IN_MEMORY` then `accessTime` and
`loadTime` are not `NONE` and `loadTime ≤ accessTime ≤` the time of the latest
call. -/
theorem status_fields_consistent (policy : Policy) (np : Int) (N : Nat) (accs : List Access)
    (s : State) (h : run (initPageTable policy np N) accs = some s)
    (htime : List.Chain (· ≤ ·) 0 (accs.map Access.time)) (p : Int) :
    (((s.table p).status = NOT_USED ∨ (s.table p).status = ON_DISK) →
      (s.table p).frame = NONE ∧ (s.table p).accessTime = NONE ∧
        (s.table p).loadTime = NONE) ∧
    ((s.table p).status = IN_MEMORY →
      (s.table p).accessTime ≠ NONE ∧ (s.table p).loadTime ≠ NONE ∧
      (s.table p).loadTime ≤ (s.table p).accessTime ∧
      (s.table p).accessTime ≤ latestTime 0 accs) := by
  have hf := fieldsOk_run accs _ s 0 h (le_refl 0) htime (fieldsOk_init policy np N 0) p
  constructor
  · intro hs
    apply hf.1
    rcases hs with hs | hs <;> rw [hs] <;> decide
  · intro hs
    obtain ⟨h1, h2, h3⟩ := hf.2 hs
    refine ⟨?_, ?_, h2, h3⟩
    · intro hn
      rw [hn] at h2
      have : (0 : Int) ≤ NONE := le_trans h1 h2
      exact absurd this (by decide)
    · intro hn
      rw [hn] at h1
      exact absurd h1 (by decide)

/-- C18 at a concrete input: `read(0,0)`, `write(1,2)`, `read(2,2)`, `read(1,5)`
with two frames under `REPL_CLOCK`; page 1 is resident at the end, page 0 on
disk. -/
theorem status_fields_consistent_witness :
    ∃ s, run (initPageTable Policy.REPL_CLOCK 3 2)
        [⟨0, 'r', 0⟩, ⟨1, 'w', 2⟩, ⟨2, 'r', 2⟩, ⟨1, 'r', 5⟩] = some s ∧
      (s.table 1).status = IN_MEMORY ∧ (s.table 0).status = ON_DISK ∧
      ((((s.table 1).status = NOT_USED ∨ (s.table 1).status = ON_DISK) →
        (s.table 1).frame = NONE ∧ (s.table 1).accessTime = NONE ∧
          (s.table 1).loadTime = NONE) ∧
      ((s.table 1).status = IN_MEMORY →
        (s.table 1).accessTime ≠ NONE ∧ (s.table 1).loadTime ≠ NONE ∧
        (s.table 1).loadTime ≤ (s.table 1).accessTime ∧
        (s.table 1).accessTime
          ≤ latestTime 0 [⟨0, 'r', 0⟩, ⟨1, 'w', 2⟩, ⟨2, 'r', 2⟩, ⟨1, 'r', 5⟩])) :=
  ⟨_, rfl, by decide, by decide,
    status_fields_consistent Policy.REPL_CLOCK 3 2
      [⟨0, 'r', 0⟩, ⟨1, 'w', 2⟩, ⟨2, 'r', 2⟩, ⟨1, 'r', 5⟩] _ rfl (by simp) 1⟩

end PageTable
